import Mathlib

/-!
# List commands of the key/value store

A shallow embedding of `src/modules/list/commands.go` (the list handlers) together
with the part of the key registry the handlers call.

Conventions of the embedding.

* Go `int` is 64 bit.  Every arithmetic expression of the embedded handlers is applied
  to values that a preceding guard has confined to `[-1, len(list)]`, so no
  expression wraps; integers are embedded as `Int`.  For the same reason the conversion
  in `int(math.Abs(float64(start-end)))` is exact (a slice length is far below `2^53`),
  and it is embedded as the absolute value.
* A list element is what `utils.AdaptType` produces: an `int`, a `float64` or a `string`.
  The `nil` that `handleLRem` writes over an element it removes exists only inside that
  handler, where the slice is embedded as `List (Option Elem)`.
* Go `string` and `[]byte` are embedded as `String`; `len(str)` is the length in bytes,
  `String.utf8ByteSize`.
* Go `[]interface{}` is embedded as `List Elem` with value semantics.  Every slice a
  handler stores under a key is owned by that key alone (the handlers that read two
  keys copy what they keep of the source), so aliasing of backing arrays is not
  observable through the registry.
* A handler is a function from the server state to an outcome and a new server state.
  Besides `(bytes, nil)` and `(nil, err)` an outcome can be a run-time panic (index or
  slice bound out of range) or a lock acquisition that never returns.
-/

namespace SugarDB

/-! ## Data model -/

/-- A Go `float64`, held by its bit pattern. -/
structure Float64 where
  bits : Nat
deriving DecidableEq, Repr

/-- A list element: an `interface{}` holding what `utils.AdaptType` produces, that is
an `int`, a `float64` or a `string`. -/
inductive Elem where
  | int (n : Int)
  | float (f : Float64)
  | str (s : String)
deriving DecidableEq, Repr

/-- A value stored under a key: a list (`[]interface{}`), some value that is not a
list, or the empty interface of a key that was created and not yet written. -/
inductive Value where
  | list (elems : List Elem)
  | scalar (e : Elem)
  | nil
deriving DecidableEq, Repr

/-- The functions of other packages that the list handlers call and that are not part
of the list module: `utils.AdaptType`, the `fmt` rendering of a `float64` under `%v`,
`strings.ToLower` and `strings.ToUpper`. -/
structure Env where
  AdaptType : String → Elem
  formatFloat : Float64 → String
  ToLower : String → String
  ToUpper : String → String

/-- The `context.Context` a handler receives: whether it has been cancelled. -/
structure Context where
  cancelled : Bool
deriving DecidableEq, Repr

/-- Outcome of a handler, or of a step of one. -/
inductive Result (α : Type) where
  | ok (val : α)
  | error (msg : String)
  | panic (msg : String)
  | blocked
deriving DecidableEq, Repr

inductive LockMode where
  | shared
  | exclusive
deriving DecidableEq, Repr

/-- A call of a locking primitive of the key registry.  `strayRUnlock` and `strayUnlock`
are releases of a lock that is not held. -/
inductive LockEvent where
  | rlock (key : String)
  | runlock (key : String)
  | lock (key : String)
  | unlock (key : String)
  | create (key : String)
  | strayRUnlock (key : String)
  | strayUnlock (key : String)
deriving DecidableEq, Repr

/-- Server state seen by the handlers: the keyspace, the locks currently held, and
the locking calls made so far, oldest first. -/
structure Server where
  store : String → Option Value
  held : List (String × LockMode) := []
  trace : List LockEvent := []

/-- A handler step: state in, outcome and state out. -/
def Handler (α : Type) : Type := Server → Result α × Server

namespace Handler

/-- Sequencing: a step that does not end in `ok` ends the handler. -/
def seq {α β : Type} (m : Handler α) (f : α → Handler β) : Handler β := fun s =>
  match m s with
  | (.ok a, s1) => f a s1
  | (.error e, s1) => (.error e, s1)
  | (.panic e, s1) => (.panic e, s1)
  | (.blocked, s1) => (.blocked, s1)

instance : Monad Handler where
  pure a := fun s => (.ok a, s)
  bind := seq

/-- Go `return nil, errors.New(msg)`. -/
def fail {α : Type} (msg : String) : Handler α := fun s => (.error msg, s)

/-- A run-time panic. -/
def abort {α : Type} (msg : String) : Handler α := fun s => (.panic msg, s)

/-- Lift an outcome that does not touch the state. -/
def lift {α : Type} (r : Result α) : Handler α := fun s => (r, s)

/-- Go `xs[i]`: panics when `i` is out of range. -/
def index {α : Type} (xs : List α) (i : Nat) : Handler α :=
  match xs[i]? with
  | some x => pure x
  | none => abort "index out of range"

/-- Go `defer cleanup` followed by `body`: the clean-up runs when the body returns or
panics; it does not run while the body is stuck in a lock acquisition. -/
def deferring {α : Type} (cleanup : Server → Server) (body : Handler α) : Handler α := fun s =>
  match body s with
  | (.blocked, s1) => (.blocked, s1)
  | (r, s1) => (r, cleanup s1)

/-- A call that changes the server state and returns nothing. -/
def modifyServer (f : Server → Server) : Handler Unit := fun s => (.ok (), f s)

end Handler

open Handler

/-! ## Key registry -/

/-- The locks held on `key`. -/
def Server.locksOn (s : Server) (key : String) : List LockMode :=
  (s.held.filter (fun p => p.1 = key)).map (fun p => p.2)

/-- Modelled from the spec: `key_exists`, the registry primitive `KeyExists` of the server
(not in the list module): whether the key is in the keyspace. -/
def KeyExists (key : String) : Handler Bool := fun s =>
  (.ok (s.store key).isSome, s)

/-- Modelled from the spec: `key_r_lock`, the registry primitive `KeyRLock`.  It fails
with `NotFound` when the key does not exist, returns `Cancelled` when the context is
cancelled, waits while the key is locked exclusively, and otherwise takes a shared
lock. -/
def KeyRLock (ctx : Context) (key : String) : Handler Unit := fun s =>
  let s1 := { s with trace := s.trace ++ [LockEvent.rlock key] }
  if (s.store key).isNone then (.error "NotFound", s1)
  else if ctx.cancelled then (.error "Cancelled", s1)
  else if LockMode.exclusive ∈ s.locksOn key then (.blocked, s1)
  else (.ok (), { s1 with held := (key, LockMode.shared) :: s.held })

/-- Modelled from the spec: `key_r_unlock`, the registry primitive `KeyRUnlock`: releases
one shared lock on the key.  The trace tells a release of a held lock from a release of
a lock that is not held. -/
def KeyRUnlock (key : String) (s : Server) : Server :=
  { s with held := s.held.erase (key, LockMode.shared),
           trace := s.trace ++ [if (key, LockMode.shared) ∈ s.held then LockEvent.runlock key
                                else LockEvent.strayRUnlock key] }

/-- Modelled from the spec: `key_lock`, the registry primitive `KeyLock`.  It fails with
`NotFound` when the key does not exist, returns `Cancelled` when the context is
cancelled, waits while the key is locked in any mode, and otherwise takes the
exclusive lock. -/
def KeyLock (ctx : Context) (key : String) : Handler Unit := fun s =>
  let s1 := { s with trace := s.trace ++ [LockEvent.lock key] }
  if (s.store key).isNone then (.error "NotFound", s1)
  else if ctx.cancelled then (.error "Cancelled", s1)
  else if s.locksOn key ≠ [] then (.blocked, s1)
  else (.ok (), { s1 with held := (key, LockMode.exclusive) :: s.held })

/-- Modelled from the spec: `key_unlock`, the registry primitive `KeyUnlock`: releases the
exclusive lock on the key.  The trace tells a release of a held lock from a release of
a lock that is not held. -/
def KeyUnlock (key : String) (s : Server) : Server :=
  { s with held := s.held.erase (key, LockMode.exclusive),
           trace := s.trace ++ [if (key, LockMode.exclusive) ∈ s.held then LockEvent.unlock key
                                else LockEvent.strayUnlock key] }

/-- Modelled from the spec: `create_key_and_lock`, the registry primitive
`CreateKeyAndLock`: creates the key if absent and returns it exclusively locked; if
the key exists it acquires its exclusive lock as `KeyLock` does.  A created key holds
no value until the first `SetValue`. -/
def CreateKeyAndLock (ctx : Context) (key : String) : Handler Unit := fun s =>
  if (s.store key).isNone then
    (.ok (), { s with store := fun k => if k = key then some Value.nil else s.store k,
                      held := (key, LockMode.exclusive) :: s.held,
                      trace := s.trace ++ [LockEvent.create key] })
  else KeyLock ctx key s

/-- Modelled from the spec: `get_value`, the registry primitive `GetValue`; an absent key
yields the empty interface. -/
def GetValue (key : String) : Handler Value := fun s =>
  (.ok ((s.store key).getD Value.nil), s)

/-- Modelled from the spec: `set_value`, the registry primitive `SetValue`. -/
def SetValue (key : String) (v : Value) : Handler Unit := fun s =>
  (.ok (), { s with store := fun k => if k = key then some v else s.store k })

/-! ## Helpers of the handlers -/

/-- Go `x.(int)`. -/
def asInt : Elem → Option Int
  | .int n => some n
  | _ => none

/-- Go `v.([]interface{})`. -/
def asList : Value → Option (List Elem)
  | .list l => some l
  | _ => none

/-- Go `fmt.Sprintf("%v", x)` for a list element. -/
def formatV (env : Env) : Elem → String
  | .int n => toString n
  | .float f => env.formatFloat f
  | .str s => s

/-- Go `fmt.Sprintf("%s", x)` for a list element: a string is printed as it is, any
other operand is reported as `%!s(type=value)`. -/
def formatS (env : Env) : Elem → String
  | .int n => "%!s(int=" ++ toString n ++ ")"
  | .float f => "%!s(float64=" ++ env.formatFloat f ++ ")"
  | .str s => s

/-- The value of `utils.OK_RESPONSE`. -/
def OK_RESPONSE : String := "+OK\r\n\r\n"

/-- Go `list[i]` for an `int` index. -/
def elemAt (list : List Elem) (i : Int) : Option Elem :=
  if 0 ≤ i then list[i.toNat]? else none

/-! ## Key extraction

The key-extraction functions are defined in another file of the list package; the
command table of `commands.go` gives the argument shape of each command. -/

/-- The value of `utils.WRONG_ARGS_RESPONSE`. -/
def WRONG_ARGS_RESPONSE : String := "wrong number of arguments"

/-- Modelled from the spec: `llenKeyFunc`, the key extraction of `LLEN key`: validates the
arity and returns the key. -/
def llenKeyFunc (cmd : List String) : Result (List String) :=
  if cmd.length ≠ 2 then .error WRONG_ARGS_RESPONSE else .ok (cmd.drop 1).head?.toList

/-- Modelled from the spec: `lindexKeyFunc`, the key extraction of `LINDEX key index`. -/
def lindexKeyFunc (cmd : List String) : Result (List String) :=
  if cmd.length ≠ 3 then .error WRONG_ARGS_RESPONSE else .ok (cmd.drop 1).head?.toList

/-- Modelled from the spec: `lrangeKeyFunc`, the key extraction of `LRANGE key start end`. -/
def lrangeKeyFunc (cmd : List String) : Result (List String) :=
  if cmd.length ≠ 4 then .error WRONG_ARGS_RESPONSE else .ok (cmd.drop 1).head?.toList

/-- Modelled from the spec: `lsetKeyFunc`, the key extraction of `LSET key index value`. -/
def lsetKeyFunc (cmd : List String) : Result (List String) :=
  if cmd.length ≠ 4 then .error WRONG_ARGS_RESPONSE else .ok (cmd.drop 1).head?.toList

/-- Modelled from the spec: `ltrimKeyFunc`, the key extraction of `LTRIM key start end`. -/
def ltrimKeyFunc (cmd : List String) : Result (List String) :=
  if cmd.length ≠ 4 then .error WRONG_ARGS_RESPONSE else .ok (cmd.drop 1).head?.toList

/-- Modelled from the spec: `lremKeyFunc`, the key extraction of `LREM key count value`. -/
def lremKeyFunc (cmd : List String) : Result (List String) :=
  if cmd.length ≠ 4 then .error WRONG_ARGS_RESPONSE else .ok (cmd.drop 1).head?.toList

/-- Modelled from the spec: `lmoveKeyFunc`, the key extraction of
`LMOVE source destination <LEFT | RIGHT> <LEFT | RIGHT>`: returns source and
destination. -/
def lmoveKeyFunc (cmd : List String) : Result (List String) :=
  if cmd.length ≠ 5 then .error WRONG_ARGS_RESPONSE else .ok ((cmd.drop 1).take 2)

/-- Modelled from the spec: `lpushKeyFunc`, the key extraction of
`LPUSH key value1 [value2]` and `LPUSHX`: at least one value. -/
def lpushKeyFunc (cmd : List String) : Result (List String) :=
  if cmd.length < 3 then .error WRONG_ARGS_RESPONSE else .ok (cmd.drop 1).head?.toList

/-- Modelled from the spec: `rpushKeyFunc`, the key extraction of
`RPUSH key value [value2]` and `RPUSHX`: at least one value. -/
def rpushKeyFunc (cmd : List String) : Result (List String) :=
  if cmd.length < 3 then .error WRONG_ARGS_RESPONSE else .ok (cmd.drop 1).head?.toList

/-- Modelled from the spec: `popKeyFunc`, the key extraction of `LPOP key` and `RPOP key`. -/
def popKeyFunc (cmd : List String) : Result (List String) :=
  if cmd.length ≠ 2 then .error WRONG_ARGS_RESPONSE else .ok (cmd.drop 1).head?.toList

/-! ## Handlers -/

/-- The bytes `handleLRange` appends for one element:
`"$" + fmt.Sprint(len(str)) + "\r\n" + str + "\r\n"`. -/
def bulkString (str : String) : String :=
  "$" ++ toString str.utf8ByteSize ++ "\r\n" ++ str ++ "\r\n"

/-- The loop `for i := int(start); i < len(list); i++` of `handleLRange`, by the number
of iterations that remain. -/
def lrangeToEnd (env : Env) (list : List Elem) : Nat → Int → String → Result String
  | 0, _, bytes => .ok bytes
  | n + 1, i, bytes =>
    match elemAt list i with
    | none => .panic "index out of range"
    | some x =>
      let str := formatV env x
      lrangeToEnd env list n (i + 1) (bytes ++ bulkString str)

/-- The loop `for i != j` of `handleLRange`.  Reading `list[i]` outside the list panics,
which bounds the number of iterations. -/
def lrangeScan (env : Env) (list : List Elem) (start end_ j : Int) (i : Int) (bytes : String) :
    Result String :=
  if i = j then .ok bytes
  else if 0 ≤ i ∧ i < list.length then
    match elemAt list i with
    | none => .panic "index out of range"
    | some x =>
      let str := formatV env x
      lrangeScan env list start end_ j (if start < end_ then i + 1 else i - 1)
        (bytes ++ bulkString str)
  else .panic "index out of range"
termination_by (if start < end_ then (list.length : Int) - i else i + 1).toNat
decreasing_by
  all_goals simp_wf
  all_goals split <;> omega

def handleLRange (env : Env) (ctx : Context) (cmd : List String) : Handler String := do
  let keys ← lift (lrangeKeyFunc cmd)
  let key ← index keys 0
  let startArg ← index cmd 2
  let endArg ← index cmd 3
  match asInt (env.AdaptType startArg), asInt (env.AdaptType endArg) with
  | some start, some end_ =>
    if !(← KeyExists key) then fail "LRANGE command on non-list item" else
    KeyRLock ctx key
    deferring (KeyRUnlock key) do
      match asList (← GetValue key) with
      | none => fail "LRANGE command on non-list item"
      | some list =>
        -- Make sure start is within range
        if ¬ (start ≥ 0 ∧ start < list.length) then
          fail "start index must be within list boundary"
        -- Make sure end is within range, or is -1 otherwise
        else if ¬ ((end_ ≥ 0 ∧ end_ < list.length) ∨ end_ = -1) then
          fail "end index must be within list range or -1"
        -- If end is -1, read list from start to the end of the list
        else if end_ = -1 then do
          let bytes := "*" ++ toString ((list.length : Int) - start) ++ "\r\n"
          let bytes ← lift (lrangeToEnd env list ((list.length : Int) - start).toNat start bytes)
          pure (bytes ++ "\r\n")
        -- Make sure start and end are not equal to each other
        else if start = end_ then
          fail "start and end indices cannot be equal"
        else do
          -- int(math.Abs(float64(start-end)))+1
          let bytes := "*" ++ toString (((start - end_).natAbs : Int) + 1) ++ "\r\n"
          let i := start
          let j := if start > end_ then end_ - 1 else end_ + 1
          let bytes ← lift (lrangeScan env list start end_ j i bytes)
          pure (bytes ++ "\r\n")
  | _, _ => fail "start and end indices must be integers"

def handleLIndex (env : Env) (ctx : Context) (cmd : List String) : Handler String := do
  let keys ← lift (lindexKeyFunc cmd)
  let key ← index keys 0
  let indexArg ← index cmd 2
  match asInt (env.AdaptType indexArg) with
  | none => fail "index must be an integer"
  | some idx =>
    if !(← KeyExists key) then fail "LINDEX command on non-list item" else
    KeyRLock ctx key
    let value ← GetValue key
    modifyServer (KeyRUnlock key)
    match asList value with
    | none => fail "LINDEX command on non-list item"
    | some list =>
      if ¬ (idx ≥ 0 ∧ idx < list.length) then fail "index must be within list range"
      else
        let x ← index list idx.toNat
        pure ("+" ++ formatS env x ++ "\r\n\r\n")

/-- Go `list[lo:hi]`.  The run time checks `0 <= lo <= hi <= cap(list)`; the capacity of
a stored slice is not known to the handler, and the embedding takes the bound the
handler can rely on, `len(list)`. -/
def slice (list : List Elem) (lo hi : Int) : Result (List Elem) :=
  if 0 ≤ lo ∧ lo ≤ hi ∧ hi ≤ list.length then .ok ((list.take hi.toNat).drop lo.toNat)
  else .panic "slice bounds out of range"

/-- Go `list[lo:]`. -/
def sliceFrom (list : List Elem) (lo : Int) : Result (List Elem) :=
  slice list lo list.length

def handleLSet (env : Env) (ctx : Context) (cmd : List String) : Handler String := do
  let keys ← lift (lsetKeyFunc cmd)
  let key ← index keys 0
  let indexArg ← index cmd 2
  match asInt (env.AdaptType indexArg) with
  | none => fail "index must be an integer"
  | some idx =>
    if !(← KeyExists key) then fail "LSET command on non-list item" else
    KeyLock ctx key
    deferring (KeyUnlock key) do
      match asList (← GetValue key) with
      | none => fail "LSET command on non-list item"
      | some list =>
        if ¬ (idx ≥ 0 ∧ idx < list.length) then fail "index must be within list range"
        else do
          let valueArg ← index cmd 3
          let list := list.set idx.toNat (env.AdaptType valueArg)
          SetValue key (Value.list list)
          pure OK_RESPONSE

def handleLTrim (env : Env) (ctx : Context) (cmd : List String) : Handler String := do
  let keys ← lift (ltrimKeyFunc cmd)
  let key ← index keys 0
  let startArg ← index cmd 2
  let endArg ← index cmd 3
  match asInt (env.AdaptType startArg), asInt (env.AdaptType endArg) with
  | some start, some end_ =>
    if end_ < start ∧ end_ ≠ -1 then
      fail "end index must be greater than start index or -1"
    else
    if !(← KeyExists key) then fail "LTRIM command on non-list item" else
    KeyLock ctx key
    deferring (KeyUnlock key) do
      match asList (← GetValue key) with
      | none => fail "LTRIM command on non-list item"
      | some list =>
        if ¬ (start ≥ 0 ∧ start < list.length) then
          fail "start index must be within list boundary"
        else if end_ = -1 ∨ end_ > list.length then do
          let kept ← lift (sliceFrom list start)
          SetValue key (Value.list kept)
          pure OK_RESPONSE
        else do
          let kept ← lift (slice list start end_)
          SetValue key (Value.list kept)
          pure OK_RESPONSE
  | _, _ => fail "start and end indices must be integers"

/-- Modelled from the spec: `utils.AbsInt`, the absolute value of the count. -/
def AbsInt (n : Int) : Int := if n < 0 then -n else n

/-- Go `fmt.Sprintf("%v", x)` for a slot of the slice `handleLRem` works on; `none` is
the `nil` that the handler writes over a removed element. -/
def formatVSlot (env : Env) : Option Elem → String
  | none => "<nil>"
  | some x => formatV env x

/-- The loop `for i := 0; i < len(list); i++` of `handleLRem`, by the number of
iterations that remain. -/
def lremFromHead (env : Env) (value : String) :
    Nat → Nat → List (Option Elem) → Int → Result (List (Option Elem))
  | 0, _, list, _ => .ok list
  | n + 1, i, list, absoluteCount =>
    if absoluteCount = 0 then .ok list
    else
      match list[i]? with
      | none => .panic "index out of range"
      | some x =>
        if formatVSlot env x = value then
          lremFromHead env value n (i + 1) (list.set i none) (absoluteCount - 1)
        else lremFromHead env value n (i + 1) list absoluteCount

/-- The loop `for i := len(list) - 1; i >= 0; i--` of `handleLRem`; the first argument
is `i + 1`. -/
def lremFromTail (env : Env) (value : String) :
    Nat → List (Option Elem) → Int → Result (List (Option Elem))
  | 0, list, _ => .ok list
  | i + 1, list, absoluteCount =>
    if absoluteCount = 0 then .ok list
    else
      match list[i]? with
      | none => .panic "index out of range"
      | some x =>
        if formatVSlot env x = value then
          lremFromTail env value i (list.set i none) (absoluteCount - 1)
        else lremFromTail env value i list absoluteCount

/-- Go `slices.DeleteFunc(list, func(elem) bool { return elem == nil })`. -/
def deleteNil (list : List (Option Elem)) : List Elem :=
  list.filterMap id

def handleLRem (env : Env) (ctx : Context) (cmd : List String) : Handler String := do
  let keys ← lift (lremKeyFunc cmd)
  let key ← index keys 0
  let value ← index cmd 3
  let countArg ← index cmd 2
  match asInt (env.AdaptType countArg) with
  | none => fail "count must be an integer"
  | some count =>
    let absoluteCount := AbsInt count
    if !(← KeyExists key) then fail "LREM command on non-list item" else
    KeyLock ctx key
    deferring (KeyUnlock key) do
      match asList (← GetValue key) with
      | none => fail "LREM command on non-list item"
      | some stored =>
        let list : List (Option Elem) := stored.map some
        let list ←
          if count > 0 then
            -- Start from the head
            lift (lremFromHead env value list.length 0 list absoluteCount)
          else if count < 0 then
            -- Start from the tail
            lift (lremFromTail env value list.length list absoluteCount)
          else
            -- Count is zero, keep list the same
            pure list
        SetValue key (Value.list (deleteNil list))
        pure OK_RESPONSE

def handleLMove (env : Env) (ctx : Context) (cmd : List String) : Handler String := do
  let keys ← lift (lmoveKeyFunc cmd)
  let source ← index keys 0
  let destination ← index keys 1
  let whereFrom := env.ToLower (← index cmd 3)
  let whereTo := env.ToLower (← index cmd 4)
  if ¬ (whereFrom ∈ ["left", "right"]) ∨ ¬ (whereTo ∈ ["left", "right"]) then
    fail "wherefrom and whereto arguments must be either LEFT or RIGHT"
  else
  if !(← KeyExists source) || !(← KeyExists destination) then
    fail "both source and destination must be lists"
  else
  KeyLock ctx source
  deferring (KeyUnlock source) do
    KeyLock ctx destination
    deferring (KeyUnlock destination) do
      match asList (← GetValue source), asList (← GetValue destination) with
      | some sourceList, some destinationList =>
        if whereFrom = "left" then do
          let rest ← lift (sliceFrom sourceList 1)
          SetValue source (Value.list ([] ++ rest))
          if whereTo = "left" then do
            let moved ← lift (slice sourceList 0 1)
            SetValue destination (Value.list (moved ++ destinationList))
          else if whereTo = "right" then do
            let moved ← index sourceList 0
            SetValue destination (Value.list (destinationList ++ [moved]))
          pure OK_RESPONSE
        else if whereFrom = "right" then do
          let rest ← lift (slice sourceList 0 ((sourceList.length : Int) - 1))
          SetValue source (Value.list ([] ++ rest))
          if whereTo = "left" then do
            let moved ← lift (sliceFrom sourceList ((sourceList.length : Int) - 1))
            SetValue destination (Value.list (moved ++ destinationList))
          else if whereTo = "right" then do
            match elemAt sourceList ((sourceList.length : Int) - 1) with
            | none => abort "index out of range"
            | some moved => SetValue destination (Value.list (destinationList ++ [moved]))
          pure OK_RESPONSE
        else pure OK_RESPONSE
      | _, _ => fail "both source and destination must be lists"

def handleLPush (env : Env) (ctx : Context) (cmd : List String) : Handler String := do
  let keys ← lift (lpushKeyFunc cmd)
  let newElems := (cmd.drop 2).map env.AdaptType
  let key ← index keys 0
  if !(← KeyExists key) then
    if env.ToLower (← index cmd 0) = "lpushx" then
      fail "LPUSHX command on non-list item"
    else do
      CreateKeyAndLock ctx key
      SetValue key (Value.list [])
  else
    KeyLock ctx key
  deferring (KeyUnlock key) do
    match asList (← GetValue key) with
    | none => fail "LPUSH command on non-list item"
    | some l =>
      SetValue key (Value.list (newElems ++ l))
      pure OK_RESPONSE

def handleRPush (env : Env) (ctx : Context) (cmd : List String) : Handler String := do
  let keys ← lift (rpushKeyFunc cmd)
  let key ← index keys 0
  let newElems := (cmd.drop 2).map env.AdaptType
  if !(← KeyExists key) then
    if env.ToLower (← index cmd 0) = "rpushx" then
      fail "RPUSHX command on non-list item"
    else do
      CreateKeyAndLock ctx key
      SetValue key (Value.list [])
  else
    KeyLock ctx key
  deferring (KeyUnlock key) do
    match asList (← GetValue key) with
    | none => fail "RPUSH command on non-list item"
    | some l =>
      SetValue key (Value.list (l ++ newElems))
      pure OK_RESPONSE

def handleLLen (ctx : Context) (cmd : List String) : Handler String := do
  let keys ← lift (llenKeyFunc cmd)
  let key ← index keys 0
  if !(← KeyExists key) then
    -- If key does not exist, return 0
    pure ":0\r\n\r\n"
  else
  KeyRLock ctx key
  deferring (KeyRUnlock key) do
    match asList (← GetValue key) with
    | some list => pure (":" ++ toString list.length ++ "\r\n\r\n")
    | none => fail "LLEN command on non-list item"

def handlePop (env : Env) (ctx : Context) (cmd : List String) : Handler String := do
  let keys ← lift (popKeyFunc cmd)
  let key ← index keys 0
  if !(← KeyExists key) then
    fail (env.ToUpper (← index cmd 0) ++ " command on non-list item")
  else
  KeyLock ctx key
  deferring (KeyUnlock key) do
    match asList (← GetValue key) with
    | none => fail (env.ToUpper (← index cmd 0) ++ " command on non-list item")
    | some list =>
      if env.ToLower (← index cmd 0) = "rpop" then do
        let rest ← lift (slice list 0 ((list.length : Int) - 1))
        SetValue key (Value.list rest)
        match elemAt list ((list.length : Int) - 1) with
        | none => abort "index out of range"
        | some x => pure ("+" ++ formatV env x ++ "\r\n\r\n")
      else do
        let rest ← lift (sliceFrom list 1)
        SetValue key (Value.list rest)
        let x ← index list 0
        pure ("+" ++ formatV env x ++ "\r\n\r\n")

/-! ## A concrete environment

An instance of `Env` to run the handlers on concrete commands.  `AdaptType` reads an
optionally signed decimal numeral as an `int` and leaves every other token a string;
the case functions act on ASCII letters. -/

/-- Value of a string of decimal digits, most significant first. -/
def digitsValue : List Char → Nat → Option Nat
  | [], acc => some acc
  | c :: cs, acc =>
    if c.toNat ≥ 48 ∧ c.toNat ≤ 57 then digitsValue cs (acc * 10 + (c.toNat - 48)) else none

def sampleAdaptType (s : String) : Elem :=
  match s.data with
  | [] => Elem.str s
  | '-' :: c :: cs =>
    match digitsValue (c :: cs) 0 with
    | some n => Elem.int (-(n : Int))
    | none => Elem.str s
  | cs =>
    match digitsValue cs 0 with
    | some n => Elem.int n
    | none => Elem.str s

def sampleEnv : Env where
  AdaptType := sampleAdaptType
  formatFloat := fun f => toString f.bits
  ToLower := fun s => String.mk (s.data.map Char.toLower)
  ToUpper := fun s => String.mk (s.data.map Char.toUpper)

/-- A keyspace given by its bindings. -/
def storeOf (bindings : List (String × Value)) : String → Option Value :=
  fun k => (bindings.find? (fun p => p.1 = k)).map (fun p => p.2)

def liveCtx : Context := { cancelled := false }

/-! ## Specification of the responses -/

/-- Concatenation of the pieces of a response. -/
def concatAll : List String → String
  | [] => ""
  | x :: xs => x ++ concatAll xs

/-- The wire form of an array of bulk strings: `*<n>\r\n`, then each element as
`$<len>\r\n<bytes>\r\n`, then the terminating `\r\n`. -/
def encodeArray (xs : List String) : String :=
  "*" ++ toString xs.length ++ "\r\n" ++ concatAll (xs.map bulkString) ++ "\r\n"

/-- The elements `LRANGE key start end` returns, in the words of the specification:
`[start, len)` when `end` is `-1`, `[start, end]` ascending when `start < end`, and
from `start` down to `end` otherwise. -/
def lrangeSpec (L : List Elem) (start end_ : Int) : List Elem :=
  if end_ = -1 then L.drop start.toNat
  else if start < end_ then (L.drop start.toNat).take (end_ - start + 1).toNat
  else ((L.drop end_.toNat).take (start - end_ + 1).toNat).reverse

/-- The list stored under a key; empty when the key is absent or holds no list. -/
def listAt (server : Server) (key : String) : List Elem :=
  match server.store key with
  | some (Value.list L) => L
  | _ => []

/-- Specification of LREM, head to tail: `L` without its first `n` elements that
satisfy `p`. -/
def removeFirstMatches (p : Elem → Bool) : Nat → List Elem → List Elem
  | 0, l => l
  | _ + 1, [] => []
  | n + 1, x :: xs =>
    if p x then removeFirstMatches p n xs else x :: removeFirstMatches p (n + 1) xs

/-- Specification of LREM, tail to head: `L` without its last `n` elements that
satisfy `p`. -/
def removeLastMatches (p : Elem → Bool) (n : Nat) (l : List Elem) : List Elem :=
  (removeFirstMatches p n l.reverse).reverse

/-- Whether the stringification of an element equals `value`. -/
def matchesValue (env : Env) (value : String) (x : Elem) : Bool :=
  decide (formatV env x = value)

/-- The list `LREM key count value` leaves, in the words of the specification: the first
`count` matches removed scanning from the head when `count > 0`, the first `|count|`
matches removed scanning from the tail when `count < 0`, and the list itself when
`count = 0`. -/
def lremSpec (env : Env) (L : List Elem) (count : Int) (value : String) : List Elem :=
  if count > 0 then removeFirstMatches (matchesValue env value) count.natAbs L
  else if count < 0 then removeLastMatches (matchesValue env value) count.natAbs L
  else L

/-- The slice of `handleLRem` after `n` matches of `l`, counted from the head, have been
overwritten with `nil`. -/
def markFirst (p : Elem → Bool) : Nat → List Elem → List (Option Elem)
  | 0, l => l.map some
  | _ + 1, [] => []
  | n + 1, x :: xs =>
    if p x then none :: markFirst p n xs else some x :: markFirst p (n + 1) xs

/-! ## Properties of handler steps

Predicates on handler steps for the claims that speak of every exit path of a
handler. -/

/-- The step never changes the keyspace. -/
def KeepsStore {α : Type} (m : Handler α) : Prop :=
  ∀ s, (m s).2.store = s.store

/-- The step never returns an error. -/
def NoError {α : Type} (m : Handler α) : Prop :=
  ∀ s msg, (m s).1 ≠ Result.error msg

/-- Whenever the step returns an error, the keyspace is the one it started from. -/
def ErrorKeepsStore {α : Type} (m : Handler α) : Prop :=
  ∀ s msg, (m s).1 = Result.error msg → (m s).2.store = s.store

/-- No event of the list is a release of a lock that is not held. -/
def noStray (evs : List LockEvent) : Prop :=
  ∀ e ∈ evs, ∀ k, e ≠ LockEvent.strayUnlock k ∧ e ≠ LockEvent.strayRUnlock k

/-- The step makes no locking call, never waits, and leaves the held locks alone. -/
def Quiet {α : Type} (m : Handler α) : Prop :=
  ∀ s, (m s).1 ≠ Result.blocked ∧ (m s).2.held = s.held ∧ (m s).2.trace = s.trace

/-- A quiet step that always returns normally. -/
def QuietOk {α : Type} (m : Handler α) : Prop :=
  ∀ s, (∃ a, (m s).1 = Result.ok a) ∧ (m s).2.held = s.held ∧ (m s).2.trace = s.trace

/-- Whenever the step returns (with a response, an error or a panic), the locks held
are those held before it, and none of its locking calls released a lock that was not
held. -/
def Balanced {α : Type} (m : Handler α) : Prop :=
  ∀ s, (m s).1 ≠ Result.blocked →
    (m s).2.held = s.held ∧ ∃ suf, (m s).2.trace = s.trace ++ suf ∧ noStray suf

/-- Started with the lock `(key, mode)` just taken, the step, whenever it returns, has
released exactly that lock, and none of its locking calls released a lock that was not
held. -/
def Releases {α : Type} (key : String) (mode : LockMode) (m : Handler α) : Prop :=
  ∀ s H, s.held = (key, mode) :: H → (m s).1 ≠ Result.blocked →
    (m s).2.held = H ∧ ∃ suf, (m s).2.trace = s.trace ++ suf ∧ noStray suf

/-- A lock acquisition: when it returns normally the lock `(key, mode)` has been added to
the held locks, when it returns an error the held locks are unchanged. -/
def Acquires (key : String) (mode : LockMode) (m : Handler Unit) : Prop :=
  ∀ s, (m s).1 ≠ Result.blocked →
    (∃ suf, (m s).2.trace = s.trace ++ suf ∧ noStray suf) ∧
    (((m s).1 = Result.ok () ∧ (m s).2.held = (key, mode) :: s.held) ∨
     ((∀ a, (m s).1 ≠ Result.ok a) ∧ (m s).2.held = s.held))

/-- Order of keys: Go compares strings byte by byte; on UTF-8 text that is the
lexicographic order of the code points. -/
def keyLt (a b : String) : Prop := a.data < b.data

instance (a b : String) : Decidable (keyLt a b) := by
  unfold keyLt
  infer_instance

/-- Whether a run of locking calls, each of them granted, requests every exclusive lock
in key order: no `lock k` is issued while the lock of a key larger than `k` is held.
The first argument lists the keys whose exclusive lock is held. -/
def requestsInKeyOrder : List String → List LockEvent → Bool
  | _, [] => true
  | held, LockEvent.lock k :: rest =>
    held.all (fun h => decide (¬ keyLt k h)) && requestsInKeyOrder (k :: held) rest
  | held, LockEvent.unlock k :: rest => requestsInKeyOrder (held.erase k) rest
  | held, _ :: rest => requestsInKeyOrder held rest

/-! ## The command table -/

/-- A command of the module: Go's `utils.Command` without its categories.  The handler
takes the context and the command; the server is the state the `Handler` runs on. -/
structure Command where
  Command : String
  Description : String
  Sync : Bool
  KeyExtractionFunc : List String → Result (List String)
  HandlerFunc : Env → Context → List String → Handler String

/-- The table returned by `Commands()`. -/
def Commands : List Command := [
  { Command := "lpush",
    Description := "(LPUSH key value1 [value2]) Prepends one or more values to the beginning of a list, creates the list if it does not exist.",
    Sync := true, KeyExtractionFunc := lpushKeyFunc, HandlerFunc := handleLPush },
  { Command := "lpushx",
    Description := "(LPUSHX key value) Prepends a value to the beginning of a list only if the list exists.",
    Sync := true, KeyExtractionFunc := lpushKeyFunc, HandlerFunc := handleLPush },
  { Command := "lpop",
    Description := "(LPOP key) Removes and returns the first element of a list.",
    Sync := true, KeyExtractionFunc := popKeyFunc, HandlerFunc := handlePop },
  { Command := "llen",
    Description := "(LLEN key) Return the length of a list.",
    Sync := false, KeyExtractionFunc := llenKeyFunc,
    HandlerFunc := fun _ ctx cmd => handleLLen ctx cmd },
  { Command := "lrange",
    Description := "(LRANGE key start end) Return a range of elements between the given indices.",
    Sync := false, KeyExtractionFunc := lrangeKeyFunc, HandlerFunc := handleLRange },
  { Command := "lindex",
    Description := "(LINDEX key index) Gets list element by index.",
    Sync := false, KeyExtractionFunc := lindexKeyFunc, HandlerFunc := handleLIndex },
  { Command := "lset",
    Description := "(LSET key index value) Sets the value of an element in a list by its index.",
    Sync := true, KeyExtractionFunc := lsetKeyFunc, HandlerFunc := handleLSet },
  { Command := "ltrim",
    Description := "(LTRIM key start end) Trims a list to the specified range.",
    Sync := true, KeyExtractionFunc := ltrimKeyFunc, HandlerFunc := handleLTrim },
  { Command := "lrem",
    Description := "(LREM key count value) Remove elements from list.",
    Sync := true, KeyExtractionFunc := lremKeyFunc, HandlerFunc := handleLRem },
  { Command := "lmove",
    Description := "(LMOVE source destination <LEFT | RIGHT> <LEFT | RIGHT>) Move element from one list to the other specifying left/right for both lists.",
    Sync := true, KeyExtractionFunc := lmoveKeyFunc, HandlerFunc := handleLMove },
  { Command := "rpop",
    Description := "(RPOP key) Removes and gets the last element in a list.",
    Sync := true, KeyExtractionFunc := popKeyFunc, HandlerFunc := handlePop },
  { Command := "rpush",
    Description := "(RPUSH key value [value2]) Appends one or multiple elements to the end of a list.",
    Sync := true, KeyExtractionFunc := rpushKeyFunc, HandlerFunc := handleRPush },
  { Command := "rpushx",
    Description := "(RPUSHX key value) Appends an element to the end of a list, only if the list exists.",
    Sync := true, KeyExtractionFunc := rpushKeyFunc, HandlerFunc := handleRPush }
]

/-! ## The memberlist layer

The event delegate and the address broadcast of `memberlist_layer`.  The counter
`numOfNodes` is a Go `int`, taken 64 bits wide; the calls the layer makes to code it
does not define are kept in a log. -/

/-- Two's complement value of an integer in 64 bits. -/
def wrapInt64 (x : Int) : Int :=
  (x + 9223372036854775808) % 18446744073709551616 - 9223372036854775808

structure NodeMeta where
  ServerID : String
  MemberlistAddr : String
  RaftAddr : String
deriving DecidableEq, Repr

/-- Modelled from the spec: the gossip broadcast message, a record of an `Action` and
a `NodeMeta`. -/
structure BroadcastMessage where
  Action : String
  NodeMeta : NodeMeta
deriving DecidableEq, Repr

/-- Modelled from the spec: the configuration read at startup. -/
structure Config where
  BindAddr : String
  MemberListBindPort : Nat
  RaftBindPort : Nat
  ServerID : String
  JoinAddr : String
deriving DecidableEq, Repr

/-- A gossip node, of which the delegate reads the metadata bytes only. -/
structure Node where
  Meta : String
deriving DecidableEq, Repr

/-- The calls of the event delegate, in the order they are made. -/
inductive Call where
  | incrementNodes
  | decrementNodes
  | removeRaftServer (nodeMeta : NodeMeta)
  | println (text : String)
deriving DecidableEq, Repr

/-- What the layer calls and does not define: `json.Unmarshal` on the metadata of a
node (`none` for an error), the callback `RemoveRaftServer` (its error, if any, which
may depend on the calls made so far) and the callback `HasJoinedCluster` (its answer at
each call, numbered from 0). -/
structure Externals where
  Unmarshal : String → Option NodeMeta
  RemoveRaftServer : List Call → NodeMeta → Option String
  HasJoinedCluster : Nat → Bool

/-- The state of a `MemberList`: the counter, the messages handed to the broadcast
queue, and the log of calls. -/
structure MemberList where
  numOfNodes : Int
  broadcastQueue : List BroadcastMessage
  calls : List Call
deriving DecidableEq, Repr

def NewMemberList : MemberList :=
  { numOfNodes := 0, broadcastQueue := [], calls := [] }

/-- The closure `func() { m.numOfNodes += 1 }` of `MemberListInit`. -/
def IncrementNodes (m : MemberList) : MemberList :=
  { m with numOfNodes := wrapInt64 (m.numOfNodes + 1),
           calls := m.calls ++ [Call.incrementNodes] }

/-- The closure `func() { m.numOfNodes -= 1 }` of `MemberListInit`. -/
def DecrementNodes (m : MemberList) : MemberList :=
  { m with numOfNodes := wrapInt64 (m.numOfNodes - 1),
           calls := m.calls ++ [Call.decrementNodes] }

def Println (m : MemberList) (text : String) : MemberList :=
  { m with calls := m.calls ++ [Call.println text] }

def NotifyJoin (m : MemberList) (_node : Node) : MemberList :=
  IncrementNodes m

def NotifyLeave (ext : Externals) (m : MemberList) (node : Node) : MemberList :=
  let m1 := DecrementNodes m
  match ext.Unmarshal node.Meta with
  | none => Println m1 "Could not get leaving node's metadata."
  | some nodeMeta =>
    let err := ext.RemoveRaftServer m1.calls nodeMeta
    let m2 := { m1 with calls := m1.calls ++ [Call.removeRaftServer nodeMeta] }
    match err with
    | some text => Println m2 text
    | none => m2

def NotifyUpdate (m : MemberList) (_node : Node) : MemberList :=
  m

/-- A membership event delivered to the delegate. -/
inductive MemberEvent where
  | join (node : Node)
  | leave (node : Node)
  | update (node : Node)
deriving DecidableEq, Repr

def notify (ext : Externals) (m : MemberList) : MemberEvent → MemberList
  | MemberEvent.join node => NotifyJoin m node
  | MemberEvent.leave node => NotifyLeave ext m node
  | MemberEvent.update node => NotifyUpdate m node

/-- The delegate run on a sequence of events, from a fresh `MemberList`. -/
def runEvents (ext : Externals) (evs : List MemberEvent) : MemberList :=
  evs.foldl (notify ext) NewMemberList

/-- Number of `NotifyJoin` calls in a sequence of events. -/
def joins : List MemberEvent → Nat
  | [] => 0
  | MemberEvent.join _ :: rest => joins rest + 1
  | _ :: rest => joins rest

/-- Number of `NotifyLeave` calls in a sequence of events. -/
def leaves : List MemberEvent → Nat
  | [] => 0
  | MemberEvent.leave _ :: rest => leaves rest + 1
  | _ :: rest => leaves rest

/-- The metadata of the `RemoveRaftServer` calls of a log, in order. -/
def removals : List Call → List NodeMeta
  | [] => []
  | Call.removeRaftServer nodeMeta :: rest => nodeMeta :: removals rest
  | _ :: rest => removals rest

/-- The message built at each round of `broadcastRaftAddress`; the field
`MemberlistAddr` is not set and keeps the zero value of a Go string. -/
def raftJoinMessage (cfg : Config) : BroadcastMessage :=
  { Action := "RaftJoin",
    NodeMeta :=
      { ServerID := cfg.ServerID,
        MemberlistAddr := "",
        RaftAddr := cfg.BindAddr ++ ":" ++ toString cfg.RaftBindPort } }

/-- The loop of `broadcastRaftAddress`, followed for at most `ticks` rounds; `i` numbers
the round, which is also the number of calls made to `HasJoinedCluster` so far. -/
def broadcastRaftAddress (cfg : Config) (ext : Externals) :
    Nat → Nat → MemberList → MemberList
  | 0, _, m => m
  | ticks + 1, i, m =>
    if ext.HasJoinedCluster i then m
    else broadcastRaftAddress cfg ext ticks (i + 1)
      { m with broadcastQueue := m.broadcastQueue ++ [raftJoinMessage cfg] }

/-! # Proofs -/

/-! ## Lemmas on the loops of `handleLRange` -/

theorem concatAll_append (xs ys : List String) :
    concatAll (xs ++ ys) = concatAll xs ++ concatAll ys := by
  induction xs with
  | nil => simp [concatAll]
  | cons x xs ih => simp [concatAll, ih, String.append_assoc]

theorem elemAt_natCast (L : List Elem) (i : Nat) : elemAt L (i : Int) = L[i]? := by
  simp [elemAt]

theorem lrangeToEnd_eq (env : Env) (L : List Elem) :
    ∀ (n i : Nat) (bytes : String), i + n = L.length →
      lrangeToEnd env L n (i : Int) bytes
        = Result.ok (bytes ++ concatAll (((L.drop i).map (formatV env)).map bulkString)) := by
  intro n
  induction n with
  | zero =>
    intro i bytes h
    have : L.drop i = [] := List.drop_eq_nil_of_le (by omega)
    simp [lrangeToEnd, this, concatAll]
  | succ n ih =>
    intro i bytes h
    have hi : i < L.length := by omega
    have hd : L.drop i = L[i] :: L.drop (i + 1) := List.drop_eq_getElem_cons hi
    have hget : L[i]? = some L[i] := List.getElem?_eq_getElem hi
    have hstep := ih (i + 1) (bytes ++ bulkString (formatV env L[i])) (by omega)
    simp only [lrangeToEnd, elemAt_natCast, hget]
    have hc : ((i : Int) + 1) = ((i + 1 : Nat) : Int) := by push_cast; rfl
    rw [hc, hstep, hd]
    simp [concatAll, String.append_assoc]

theorem lrangeScan_up (env : Env) (L : List Elem) (start end_ : Int) (e : Nat)
    (hup : start < end_) (he : e < L.length) :
    ∀ (n i : Nat) (bytes : String), i + n = e + 1 →
      lrangeScan env L start end_ ((e : Int) + 1) (i : Int) bytes
        = Result.ok (bytes ++
            concatAll ((((L.drop i).take n).map (formatV env)).map bulkString)) := by
  intro n
  induction n with
  | zero =>
    intro i bytes h
    have hi : (i : Int) = (e : Int) + 1 := by omega
    rw [lrangeScan]
    simp [hi, concatAll]
  | succ n ih =>
    intro i bytes h
    have hi : i < L.length := by omega
    have hne : ¬ ((i : Int) = (e : Int) + 1) := by omega
    have hd : L.drop i = L[i] :: L.drop (i + 1) := List.drop_eq_getElem_cons hi
    have hget : L[i]? = some L[i] := List.getElem?_eq_getElem hi
    have hstep := ih (i + 1) (bytes ++ bulkString (formatV env L[i])) (by omega)
    have hc : ((i : Int) + 1) = ((i + 1 : Nat) : Int) := by push_cast; rfl
    rw [lrangeScan]
    simp only [hne, if_false, elemAt_natCast, hget, hup, if_true]
    have hr : (0 : Int) ≤ (i : Int) ∧ (i : Int) < (L.length : Int) := by omega
    simp only [hr, and_self, if_true]
    rw [hc, hstep, hd]
    simp [concatAll, String.append_assoc]

theorem lrangeScan_down (env : Env) (L : List Elem) (start end_ : Int) (e : Nat)
    (hdown : ¬ start < end_) :
    ∀ (n : Nat) (bytes : String), e + n ≤ L.length →
      lrangeScan env L start end_ ((e : Int) - 1) ((e : Int) + n - 1) bytes
        = Result.ok (bytes ++
            concatAll (((((L.drop e).take n).reverse).map (formatV env)).map bulkString)) := by
  intro n
  induction n with
  | zero =>
    intro bytes _
    rw [lrangeScan]
    simp [concatAll]
  | succ n ih =>
    intro bytes h
    have hi : e + n < L.length := by omega
    have hget : L[e + n]? = some L[e + n] := List.getElem?_eq_getElem hi
    have hidx : ((e : Int) + ((n + 1 : Nat) : Int) - 1) = ((e + n : Nat) : Int) := by
      push_cast; omega
    have hne : ¬ (((e + n : Nat) : Int) = (e : Int) - 1) := by omega
    have hr : (0 : Int) ≤ ((e + n : Nat) : Int) ∧ ((e + n : Nat) : Int) < (L.length : Int) := by
      omega
    have hnext : (((e + n : Nat) : Int) - 1) = (e : Int) + (n : Int) - 1 := by
      push_cast; omega
    have hstep := ih (bytes ++ bulkString (formatV env L[e + n])) (by omega)
    have htake : (L.drop e).take (n + 1) = (L.drop e).take n ++ [L[e + n]] := by
      rw [List.take_succ]
      simp [List.getElem?_drop, hget]
    rw [lrangeScan, hidx]
    simp only [hne, if_false, hr, and_self, if_true, elemAt_natCast, hget, hdown]
    rw [hnext, hstep, htake]
    simp [concatAll, String.append_assoc]

theorem toString_natCast (n : Nat) : toString ((n : Int)) = toString n := rfl

/-- Under a live context and with no exclusive lock on the key, `handleLRange` on valid
indices returns the encoding of `lrangeSpec`. -/
theorem handleLRange_ok (env : Env) (ctx : Context) (server : Server)
    (name key s e : String) (start end_ : Int) (L : List Elem)
    (hs : env.AdaptType s = Elem.int start) (he : env.AdaptType e = Elem.int end_)
    (hL : server.store key = some (Value.list L))
    (hctx : ctx.cancelled = false)
    (hfree : LockMode.exclusive ∉ server.locksOn key)
    (h0 : 0 ≤ start) (h1 : start < L.length)
    (hv : end_ = -1 ∨ (0 ≤ end_ ∧ end_ < L.length)) (hne : end_ ≠ start) :
    (handleLRange env ctx [name, key, s, e] server).1
      = Result.ok (encodeArray ((lrangeSpec L start end_).map (formatV env))) := by
  obtain ⟨a, rfl⟩ := Int.eq_ofNat_of_zero_le h0
  have ha : a < L.length := by omega
  by_cases hend : end_ = -1
  · subst hend
    have hloop := fun bytes => lrangeToEnd_eq env L (L.length - a) a bytes (by omega)
    have hn : ((L.length : Int) - (a : Int)).toNat = L.length - a := by omega
    have hcount : ((L.length : Int) - (a : Int)) = ((L.length - a : Nat) : Int) := by omega
    simp only [handleLRange, bind, Handler.seq, pure, lift, index, lrangeKeyFunc, fail]
    simp only [List.length_cons, List.length_nil, List.drop, List.take, List.head?,
      Option.toList, List.getElem?_cons_zero, List.getElem?_cons_succ, Nat.reduceAdd, ne_eq,
      not_true_eq_false, if_false, hs, he, asInt]
    simp [Handler.seq, pure, lift, KeyExists, KeyRLock,
      deferring, GetValue, asInt, asList, fail, KeyRUnlock, hs, he, hL, hctx, hfree, ha,
      hn, hloop, lrangeSpec, encodeArray, hcount, toString_natCast, String.append_assoc]
  · have hb := hv.resolve_left hend
    obtain ⟨b, rfl⟩ := Int.eq_ofNat_of_zero_le hb.1
    have hbl : b < L.length := by omega
    have hab : a ≠ b := by omega
    by_cases hup : (a : Int) < (b : Int)
    · have hloop := fun bytes =>
        lrangeScan_up env L (a : Int) (b : Int) b hup hbl (b - a + 1) a bytes (by omega)
      have hgt : ¬ ((b : Int) < (a : Int)) := by omega
      have hcnt : ((b : Int) - (a : Int) + 1).toNat = b - a + 1 := by omega
      have hcount : |(a : Int) - (b : Int)| + 1 = ((b - a + 1 : Nat) : Int) := by
        rw [← Int.natCast_natAbs]; omega
      have hmin : (b - a + 1) ⊓ (L.length - a) = b - a + 1 := by
        apply Nat.min_eq_left; omega
      simp only [handleLRange, bind, Handler.seq, pure, lift, index, lrangeKeyFunc, fail]
      simp only [List.length_cons, List.length_nil, List.drop, List.take, List.head?,
        Option.toList, List.getElem?_cons_zero, List.getElem?_cons_succ, Nat.reduceAdd, ne_eq,
        not_true_eq_false, if_false, hs, he, asInt]
      simp [Handler.seq, pure, lift, KeyExists,
        KeyRLock, deferring, GetValue, asInt, asList, fail, KeyRUnlock, hs, he, hL, hctx, hfree,
        ha, hbl, hab, hend, hgt, hloop, lrangeSpec, encodeArray, hup, hcnt, hcount, hmin,
        toString_natCast, String.append_assoc]
      have hc : (((b - a : Nat) : Int) + 1) = ((b - a + 1 : Nat) : Int) := by push_cast; rfl
      rw [hc, toString_natCast]
    · have hgt : (b : Int) < (a : Int) := by omega
      have hloop := fun bytes =>
        lrangeScan_down env L (a : Int) (b : Int) b hup (a - b + 1) bytes (by omega)
      have hidx : ((b : Int) + ((a - b + 1 : Nat) : Int) - 1) = (a : Int) := by omega
      rw [hidx] at hloop
      have hcnt : ((a : Int) - (b : Int) + 1).toNat = a - b + 1 := by omega
      have hcount : |(a : Int) - (b : Int)| + 1 = ((a - b + 1 : Nat) : Int) := by
        rw [← Int.natCast_natAbs]; omega
      have hmin : (a - b + 1) ⊓ (L.length - b) = a - b + 1 := by
        apply Nat.min_eq_left; omega
      simp only [handleLRange, bind, Handler.seq, pure, lift, index, lrangeKeyFunc, fail]
      simp only [List.length_cons, List.length_nil, List.drop, List.take, List.head?,
        Option.toList, List.getElem?_cons_zero, List.getElem?_cons_succ, Nat.reduceAdd, ne_eq,
        not_true_eq_false, if_false, hs, he, asInt]
      simp [Handler.seq, pure, lift, KeyExists,
        KeyRLock, deferring, GetValue, asInt, asList, fail, KeyRUnlock, hs, he, hL, hctx, hfree,
        ha, hbl, hab, hend, hgt, hloop, lrangeSpec, encodeArray, hup, hcnt, hcount, hmin,
        toString_natCast, String.append_assoc]
      have hc : (((a - b : Nat) : Int) + 1) = ((a - b + 1 : Nat) : Int) := by push_cast; rfl
      rw [hc, toString_natCast]

theorem lrangeSpec_length (L : List Elem) (start end_ : Int)
    (h0 : 0 ≤ start) (h1 : start < L.length)
    (hv : end_ = -1 ∨ (0 ≤ end_ ∧ end_ < L.length)) :
    ((lrangeSpec L start end_).length : Int)
      = (if end_ = -1 then (L.length : Int) - start else |end_ - start| + 1) := by
  obtain ⟨a, rfl⟩ := Int.eq_ofNat_of_zero_le h0
  by_cases hend : end_ = -1
  · subst hend
    simp [lrangeSpec]
    omega
  · have hb := hv.resolve_left hend
    obtain ⟨b, rfl⟩ := Int.eq_ofNat_of_zero_le hb.1
    rw [if_neg hend, ← Int.natCast_natAbs]
    by_cases hup : (a : Int) < (b : Int)
    · have hcnt : ((b : Int) - (a : Int) + 1).toNat = b - a + 1 := by omega
      simp only [lrangeSpec, hend, if_false, hup, if_true, hcnt, List.length_take,
        List.length_drop, Int.toNat_ofNat]
      omega
    · have hcnt : ((a : Int) - (b : Int) + 1).toNat = a - b + 1 := by omega
      simp only [lrangeSpec, hend, if_false, hup, hcnt, List.length_take,
        List.length_drop, Int.toNat_ofNat, List.length_reverse]
      omega

theorem lrangeSpec_getElem (L : List Elem) (start end_ : Int)
    (h0 : 0 ≤ start) (h1 : start < L.length)
    (hv : end_ = -1 ∨ (0 ≤ end_ ∧ end_ < L.length)) (k : Nat)
    (hk : k < (lrangeSpec L start end_).length) :
    ∃ x, (lrangeSpec L start end_)[k]? = some x ∧
      elemAt L (if end_ = -1 ∨ start < end_ then start + k else start - k) = some x := by
  obtain ⟨a, rfl⟩ := Int.eq_ofNat_of_zero_le h0
  refine ⟨(lrangeSpec L a end_)[k], List.getElem?_eq_getElem hk, ?_⟩
  rw [← List.getElem?_eq_getElem hk]
  by_cases hend : end_ = -1
  · subst hend
    have hc : ((a : Int) + (k : Int)) = ((a + k : Nat) : Int) := by push_cast; rfl
    simp only [true_or, if_true, hc, elemAt_natCast]
    simp [lrangeSpec]
  · have hb := hv.resolve_left hend
    obtain ⟨b, rfl⟩ := Int.eq_ofNat_of_zero_le hb.1
    by_cases hup : (a : Int) < (b : Int)
    · have hcnt : ((b : Int) - (a : Int) + 1).toNat = b - a + 1 := by omega
      have hc : ((a : Int) + (k : Int)) = ((a + k : Nat) : Int) := by push_cast; rfl
      have hk2 : k < b - a + 1 := by
        simp only [lrangeSpec, hend, if_false, hup, if_true, hcnt, List.length_take,
          List.length_drop, Int.toNat_ofNat] at hk
        omega
      simp only [hup, or_true, if_true, hc, elemAt_natCast]
      simp only [lrangeSpec, hend, if_false, hup, if_true, hcnt, Int.toNat_ofNat]
      rw [List.getElem?_take_of_lt hk2, List.getElem?_drop]
    · have hcnt : ((a : Int) - (b : Int) + 1).toNat = a - b + 1 := by omega
      have hk2 : k < a - b + 1 := by
        simp only [lrangeSpec, hend, if_false, hup, hcnt, List.length_take,
          List.length_drop, Int.toNat_ofNat, List.length_reverse] at hk
        omega
      have hlen : ((L.drop b).take (a - b + 1)).length = a - b + 1 := by
        simp only [List.length_take, List.length_drop]; omega
      have hc : ((a : Int) - (k : Int)) = ((a - k : Nat) : Int) := by omega
      simp only [hend, hup, or_self, if_false, hc, elemAt_natCast]
      simp only [lrangeSpec, hend, if_false, hup, hcnt, Int.toNat_ofNat]
      rw [List.getElem?_reverse (by omega), hlen,
        List.getElem?_take_of_lt (by omega), List.getElem?_drop]
      congr 1
      omega

/-! ## LRANGE -/

/-- C1: for a key holding a list `L`, a start index inside the list and a valid end
index different from it, `handleLRange` succeeds with the array encoding of
`lrangeSpec L start end`; that list has `len(L) - start` elements when `end` is `-1` and
`|end - start| + 1` otherwise, and its `k`-th element is `L[start + k]` when `end` is `-1`
or `start < end`, and `L[start - k]` when `start > end`; every such index is inside
`L`. -/
theorem handleLRange_returns_range (env : Env) (ctx : Context) (server : Server)
    (name key s e : String) (start end_ : Int) (L : List Elem)
    (hs : env.AdaptType s = Elem.int start) (he : env.AdaptType e = Elem.int end_)
    (hL : server.store key = some (Value.list L))
    (hctx : ctx.cancelled = false)
    (hfree : LockMode.exclusive ∉ server.locksOn key)
    (h0 : 0 ≤ start) (h1 : start < L.length)
    (hv : end_ = -1 ∨ (0 ≤ end_ ∧ end_ < L.length)) (hne : end_ ≠ start) :
    (handleLRange env ctx [name, key, s, e] server).1
      = Result.ok (encodeArray ((lrangeSpec L start end_).map (formatV env))) ∧
    ((lrangeSpec L start end_).length : Int)
      = (if end_ = -1 then (L.length : Int) - start else |end_ - start| + 1) ∧
    ∀ k : Nat, k < (lrangeSpec L start end_).length →
      ∃ x, (lrangeSpec L start end_)[k]? = some x ∧
        elemAt L (if end_ = -1 ∨ start < end_ then start + k else start - k) = some x :=
  ⟨handleLRange_ok env ctx server name key s e start end_ L hs he hL hctx hfree h0 h1 hv hne,
   lrangeSpec_length L start end_ h0 h1 hv,
   fun k hk => lrangeSpec_getElem L start end_ h0 h1 hv k hk⟩

/-- Witness of C1: `lrange K 2 0` on `K = [a, b, c, d]` gives `[c, b, a]`, count 3. -/
theorem handleLRange_returns_range_witness :
    (handleLRange sampleEnv liveCtx ["lrange", "K", "2", "0"]
        { store := storeOf [("K", Value.list [Elem.str "a", Elem.str "b", Elem.str "c",
            Elem.str "d"])] }).1
      = Result.ok "*3\r\n$1\r\nc\r\n$1\r\nb\r\n$1\r\na\r\n\r\n" ∧
    lrangeSpec [Elem.str "a", Elem.str "b", Elem.str "c", Elem.str "d"] 2 0
      = [Elem.str "c", Elem.str "b", Elem.str "a"] :=
  ⟨(handleLRange_returns_range sampleEnv liveCtx
      { store := storeOf [("K", Value.list [Elem.str "a", Elem.str "b", Elem.str "c",
          Elem.str "d"])] }
      "lrange" "K" "2" "0" 2 0 [Elem.str "a", Elem.str "b", Elem.str "c", Elem.str "d"]
      (by decide) (by decide) (by decide) (by decide) (by decide) (by decide) (by decide)
      (by decide) (by decide)).1.trans (by decide),
   by decide⟩

/-- C8: for a key holding a list `L`, `handleLRange` returns an error exactly when
`start` is outside `[0, len(L))`, or `end` is neither `-1` nor inside `[0, len(L))`, or
`end` is not `-1` and equals `start`; so it fails on the empty list. -/
theorem handleLRange_error_iff (env : Env) (ctx : Context) (server : Server)
    (name key s e : String) (start end_ : Int) (L : List Elem)
    (hs : env.AdaptType s = Elem.int start) (he : env.AdaptType e = Elem.int end_)
    (hL : server.store key = some (Value.list L))
    (hctx : ctx.cancelled = false)
    (hfree : LockMode.exclusive ∉ server.locksOn key) :
    ((∃ msg, (handleLRange env ctx [name, key, s, e] server).1 = Result.error msg) ↔
      (¬ (0 ≤ start ∧ start < L.length) ∨
       (end_ ≠ -1 ∧ ¬ (0 ≤ end_ ∧ end_ < L.length)) ∨
       (end_ ≠ -1 ∧ start = end_))) ∧
    (L = [] → ∃ msg, (handleLRange env ctx [name, key, s, e] server).1 = Result.error msg) := by
  have hiff : (∃ msg, (handleLRange env ctx [name, key, s, e] server).1 = Result.error msg) ↔
      (¬ (0 ≤ start ∧ start < L.length) ∨
       (end_ ≠ -1 ∧ ¬ (0 ≤ end_ ∧ end_ < L.length)) ∨
       (end_ ≠ -1 ∧ start = end_)) := by
    constructor
    · rintro ⟨msg, hmsg⟩
      by_contra hcon
      push_neg at hcon
      obtain ⟨hstart, hend, hneq⟩ := hcon
      have hv : end_ = -1 ∨ (0 ≤ end_ ∧ end_ < L.length) := by
        by_cases h : end_ = -1
        · exact Or.inl h
        · exact Or.inr (hend h)
      have hne : end_ ≠ start := by
        intro h
        by_cases h2 : end_ = -1
        · omega
        · exact hneq h2 h.symm
      rw [handleLRange_ok env ctx server name key s e start end_ L hs he hL hctx hfree
        hstart.1 hstart.2 hv hne] at hmsg
      cases hmsg
    · intro h
      rcases h with h | h | h
      · simp only [handleLRange, bind, Handler.seq, pure, lift, index, lrangeKeyFunc, fail]
        simp only [List.length_cons, List.length_nil, List.drop, List.take, List.head?,
          Option.toList, List.getElem?_cons_zero, List.getElem?_cons_succ, Nat.reduceAdd, ne_eq,
          not_true_eq_false, if_false, hs, he, asInt]
        simp [Handler.seq, pure, lift, KeyExists,
          KeyRLock, deferring, GetValue, asInt, asList, fail, KeyRUnlock, hs, he, hL, hctx,
          hfree, h]
      · by_cases h2 : 0 ≤ start ∧ start < L.length
        · simp only [handleLRange, bind, Handler.seq, pure, lift, index, lrangeKeyFunc, fail]
          simp only [List.length_cons, List.length_nil, List.drop, List.take, List.head?,
            Option.toList, List.getElem?_cons_zero, List.getElem?_cons_succ, Nat.reduceAdd, ne_eq,
            not_true_eq_false, if_false, hs, he, asInt]
          simp [Handler.seq, pure, lift, KeyExists,
            KeyRLock, deferring, GetValue, asInt, asList, fail, KeyRUnlock, hs, he, hL, hctx,
            hfree, h, h2]
        · simp only [handleLRange, bind, Handler.seq, pure, lift, index, lrangeKeyFunc, fail]
          simp only [List.length_cons, List.length_nil, List.drop, List.take, List.head?,
            Option.toList, List.getElem?_cons_zero, List.getElem?_cons_succ, Nat.reduceAdd, ne_eq,
            not_true_eq_false, if_false, hs, he, asInt]
          simp [Handler.seq, pure, lift, KeyExists,
            KeyRLock, deferring, GetValue, asInt, asList, fail, KeyRUnlock, hs, he, hL, hctx,
            hfree, h2]
      · obtain ⟨h1, h2⟩ := h
        subst h2
        by_cases h3 : 0 ≤ start ∧ start < L.length
        · simp only [handleLRange, bind, Handler.seq, pure, lift, index, lrangeKeyFunc, fail]
          simp only [List.length_cons, List.length_nil, List.drop, List.take, List.head?,
            Option.toList, List.getElem?_cons_zero, List.getElem?_cons_succ, Nat.reduceAdd, ne_eq,
            not_true_eq_false, if_false, hs, he, asInt]
          simp [Handler.seq, pure, lift, KeyExists,
            KeyRLock, deferring, GetValue, asInt, asList, fail, KeyRUnlock, hs, he, hL, hctx,
            hfree, h1, h3]
        · simp only [handleLRange, bind, Handler.seq, pure, lift, index, lrangeKeyFunc, fail]
          simp only [List.length_cons, List.length_nil, List.drop, List.take, List.head?,
            Option.toList, List.getElem?_cons_zero, List.getElem?_cons_succ, Nat.reduceAdd, ne_eq,
            not_true_eq_false, if_false, hs, he, asInt]
          simp [Handler.seq, pure, lift, KeyExists,
            KeyRLock, deferring, GetValue, asInt, asList, fail, KeyRUnlock, hs, he, hL, hctx,
            hfree, h3]
  refine ⟨hiff, ?_⟩
  intro hnil
  apply hiff.mpr
  left
  subst hnil
  simp

/-- Witness of C8: `lrange K 1 1` on `K = [a, b]` is an error, the indices being equal. -/
theorem handleLRange_error_iff_witness :
    ∃ msg, (handleLRange sampleEnv liveCtx ["lrange", "K", "1", "1"]
        { store := storeOf [("K", Value.list [Elem.str "a", Elem.str "b"])] }).1
      = Result.error msg :=
  (handleLRange_error_iff sampleEnv liveCtx
      { store := storeOf [("K", Value.list [Elem.str "a", Elem.str "b"])] }
      "lrange" "K" "1" "1" 1 1 [Elem.str "a", Elem.str "b"]
      (by decide) (by decide) (by decide) (by decide) (by decide)).1.mpr
    (Or.inr (Or.inr ⟨by decide, rfl⟩))

/-! ## LPUSH and RPUSH -/

theorem lpushKeyFunc_cons (name key v : String) (vs : List String) :
    lpushKeyFunc (name :: key :: v :: vs) = Result.ok [key] := by
  simp [lpushKeyFunc]

theorem rpushKeyFunc_cons (name key v : String) (vs : List String) :
    rpushKeyFunc (name :: key :: v :: vs) = Result.ok [key] := by
  simp [rpushKeyFunc]

/-- Outcome and stored value of `handleLPush` on a key that holds a list. -/
theorem handleLPush_on_list (env : Env) (ctx : Context) (server : Server)
    (name key : String) (v : String) (vs : List String) (L : List Elem)
    (hL : server.store key = some (Value.list L)) (resp : String)
    (hok : (handleLPush env ctx (name :: key :: v :: vs) server).1 = Result.ok resp) :
    (handleLPush env ctx (name :: key :: v :: vs) server).2.store
      = fun k => if k = key then some (Value.list ((v :: vs).map env.AdaptType ++ L))
          else server.store k := by
  by_cases hc : ctx.cancelled = true
  · simp [handleLPush, bind, Handler.seq, pure, lift, index, lpushKeyFunc_cons, KeyExists,
      KeyLock, deferring, GetValue, SetValue, asList, fail, KeyUnlock, hL, hc] at hok
  · by_cases hf : server.locksOn key = []
    · simp [handleLPush, bind, Handler.seq, pure, lift, index, lpushKeyFunc_cons, KeyExists,
        KeyLock, deferring, GetValue, SetValue, asList, fail, KeyUnlock, hL, hc, hf]
    · simp [handleLPush, bind, Handler.seq, pure, lift, index, lpushKeyFunc_cons, KeyExists,
        KeyLock, deferring, GetValue, SetValue, asList, fail, KeyUnlock, hL, hc, hf] at hok

/-- Outcome and stored value of `handleLPush` on an absent key. -/
theorem handleLPush_on_absent (env : Env) (ctx : Context) (server : Server)
    (name key : String) (v : String) (vs : List String)
    (hL : server.store key = none) (resp : String)
    (hok : (handleLPush env ctx (name :: key :: v :: vs) server).1 = Result.ok resp) :
    (handleLPush env ctx (name :: key :: v :: vs) server).2.store
      = fun k => if k = key then some (Value.list ((v :: vs).map env.AdaptType))
          else server.store k := by
  by_cases hx : env.ToLower name = "lpushx"
  · simp [handleLPush, bind, Handler.seq, pure, lift, index, lpushKeyFunc_cons, KeyExists,
      KeyLock, CreateKeyAndLock, deferring, GetValue, SetValue, asList, fail, KeyUnlock,
      hL, hx] at hok
  · funext k
    by_cases hk : k = key <;>
    simp [handleLPush, bind, Handler.seq, pure, lift, index, lpushKeyFunc_cons, KeyExists,
      KeyLock, CreateKeyAndLock, deferring, GetValue, SetValue, asList, fail, KeyUnlock,
      hL, hx, hk]

/-- `handleLPush` does not succeed on a key that holds something other than a list. -/
theorem handleLPush_not_list (env : Env) (ctx : Context) (server : Server)
    (name key : String) (v : String) (vs : List String) (x : Value)
    (hx : server.store key = some x) (hnl : asList x = none) (resp : String) :
    (handleLPush env ctx (name :: key :: v :: vs) server).1 ≠ Result.ok resp := by
  intro hok
  by_cases hc : ctx.cancelled = true
  · simp [handleLPush, bind, Handler.seq, pure, lift, index, lpushKeyFunc_cons, KeyExists,
      KeyLock, deferring, GetValue, SetValue, fail, KeyUnlock, hx, hc] at hok
  · by_cases hf : server.locksOn key = []
    · simp [handleLPush, bind, Handler.seq, pure, lift, index, lpushKeyFunc_cons, KeyExists,
        KeyLock, deferring, GetValue, SetValue, fail, KeyUnlock, hx, hc, hf, hnl] at hok
    · simp [handleLPush, bind, Handler.seq, pure, lift, index, lpushKeyFunc_cons, KeyExists,
        KeyLock, deferring, GetValue, SetValue, fail, KeyUnlock, hx, hc, hf] at hok

/-- State after `handleLPush` on an absent key, for a command other than `lpushx`. -/
theorem handleLPush_absent_run (env : Env) (ctx : Context) (server : Server)
    (name key : String) (v : String) (vs : List String)
    (hL : server.store key = none) (hx : env.ToLower name ≠ "lpushx") :
    handleLPush env ctx (name :: key :: v :: vs) server
      = (Result.ok OK_RESPONSE,
         { store := fun k => if k = key then some (Value.list ((v :: vs).map env.AdaptType))
                      else server.store k,
           held := server.held,
           trace := server.trace ++ [LockEvent.create key, LockEvent.unlock key] }) := by
  simp [handleLPush, bind, Handler.seq, pure, lift, index, lpushKeyFunc_cons, KeyExists,
    KeyLock, CreateKeyAndLock, deferring, GetValue, SetValue, asList, fail, KeyUnlock,
    hL, hx]
  funext k
  by_cases hk : k = key <;> simp [hk]

/-- State after `handleRPush` on an absent key, for a command other than `rpushx`. -/
theorem handleRPush_absent_run (env : Env) (ctx : Context) (server : Server)
    (name key : String) (v : String) (vs : List String)
    (hL : server.store key = none) (hx : env.ToLower name ≠ "rpushx") :
    handleRPush env ctx (name :: key :: v :: vs) server
      = (Result.ok OK_RESPONSE,
         { store := fun k => if k = key then some (Value.list ((v :: vs).map env.AdaptType))
                      else server.store k,
           held := server.held,
           trace := server.trace ++ [LockEvent.create key, LockEvent.unlock key] }) := by
  simp [handleRPush, bind, Handler.seq, pure, lift, index, rpushKeyFunc_cons, KeyExists,
    KeyLock, CreateKeyAndLock, deferring, GetValue, SetValue, asList, fail, KeyUnlock,
    hL, hx]
  funext k
  by_cases hk : k = key <;> simp [hk]

/-- `LRANGE key 0 -1` on a state whose key holds the non-empty list `L` returns the
encoding of all of `L`. -/
theorem handleLRange_all (env : Env) (ctx : Context) (server : Server)
    (name key s e : String) (x : Elem) (xs : List Elem)
    (hs : env.AdaptType s = Elem.int 0) (he : env.AdaptType e = Elem.int (-1))
    (hL : server.store key = some (Value.list (x :: xs)))
    (hctx : ctx.cancelled = false)
    (hfree : LockMode.exclusive ∉ server.locksOn key) :
    (handleLRange env ctx [name, key, s, e] server).1
      = Result.ok (encodeArray ((x :: xs).map (formatV env))) := by
  have h := handleLRange_ok env ctx server name key s e 0 (-1) (x :: xs) hs he hL hctx hfree
    (le_refl 0) (by simp) (Or.inl rfl) (by decide)
  simpa [lrangeSpec] using h

/-- Outcome and stored value of `handleRPush` on a key that holds a list. -/
theorem handleRPush_on_list (env : Env) (ctx : Context) (server : Server)
    (name key : String) (v : String) (vs : List String) (L : List Elem)
    (hL : server.store key = some (Value.list L)) (resp : String)
    (hok : (handleRPush env ctx (name :: key :: v :: vs) server).1 = Result.ok resp) :
    (handleRPush env ctx (name :: key :: v :: vs) server).2.store
      = fun k => if k = key then some (Value.list (L ++ (v :: vs).map env.AdaptType))
          else server.store k := by
  by_cases hc : ctx.cancelled = true
  · simp [handleRPush, bind, Handler.seq, pure, lift, index, rpushKeyFunc_cons, KeyExists,
      KeyLock, deferring, GetValue, SetValue, asList, fail, KeyUnlock, hL, hc] at hok
  · by_cases hf : server.locksOn key = []
    · simp [handleRPush, bind, Handler.seq, pure, lift, index, rpushKeyFunc_cons, KeyExists,
        KeyLock, deferring, GetValue, SetValue, asList, fail, KeyUnlock, hL, hc, hf]
    · simp [handleRPush, bind, Handler.seq, pure, lift, index, rpushKeyFunc_cons, KeyExists,
        KeyLock, deferring, GetValue, SetValue, asList, fail, KeyUnlock, hL, hc, hf] at hok

/-- A successful `handleRPush` on an absent key is not an `rpushx`. -/
theorem handleRPush_absent_name (env : Env) (ctx : Context) (server : Server)
    (name key : String) (v : String) (vs : List String)
    (hL : server.store key = none) (resp : String)
    (hok : (handleRPush env ctx (name :: key :: v :: vs) server).1 = Result.ok resp) :
    env.ToLower name ≠ "rpushx" := by
  intro hx
  simp [handleRPush, bind, Handler.seq, pure, lift, index, rpushKeyFunc_cons, KeyExists,
    KeyLock, CreateKeyAndLock, deferring, GetValue, SetValue, asList, fail, KeyUnlock,
    hL, hx] at hok

/-- `handleRPush` does not succeed on a key that holds something other than a list. -/
theorem handleRPush_not_list (env : Env) (ctx : Context) (server : Server)
    (name key : String) (v : String) (vs : List String) (x : Value)
    (hx : server.store key = some x) (hnl : asList x = none) (resp : String) :
    (handleRPush env ctx (name :: key :: v :: vs) server).1 ≠ Result.ok resp := by
  intro hok
  by_cases hc : ctx.cancelled = true
  · simp [handleRPush, bind, Handler.seq, pure, lift, index, rpushKeyFunc_cons, KeyExists,
      KeyLock, deferring, GetValue, SetValue, fail, KeyUnlock, hx, hc] at hok
  · by_cases hf : server.locksOn key = []
    · simp [handleRPush, bind, Handler.seq, pure, lift, index, rpushKeyFunc_cons, KeyExists,
        KeyLock, deferring, GetValue, SetValue, fail, KeyUnlock, hx, hc, hf, hnl] at hok
    · simp [handleRPush, bind, Handler.seq, pure, lift, index, rpushKeyFunc_cons, KeyExists,
        KeyLock, deferring, GetValue, SetValue, fail, KeyUnlock, hx, hc, hf] at hok

/-- C2, as the code behaves: after `lpush K a b c` on an absent key, `lrange K 0 -1`
returns the adapted arguments in argument order, `a`, `b`, `c`. -/
theorem lpush_then_lrange (env : Env) (ctx ctx2 : Context) (server : Server)
    (name name2 key a b c s e : String)
    (hL : server.store key = none) (hx : env.ToLower name ≠ "lpushx")
    (hs : env.AdaptType s = Elem.int 0) (he : env.AdaptType e = Elem.int (-1))
    (hctx2 : ctx2.cancelled = false)
    (hfree : LockMode.exclusive ∉ server.locksOn key) :
    (handleLPush env ctx [name, key, a, b, c] server).1 = Result.ok OK_RESPONSE ∧
    (handleLRange env ctx2 [name2, key, s, e]
        (handleLPush env ctx [name, key, a, b, c] server).2).1
      = Result.ok (encodeArray [formatV env (env.AdaptType a), formatV env (env.AdaptType b),
          formatV env (env.AdaptType c)]) := by
  have h := handleLPush_absent_run env ctx server name key a [b, c] hL hx
  rw [h]
  refine ⟨rfl, ?_⟩
  exact handleLRange_all env ctx2 _ name2 key s e (env.AdaptType a)
    [env.AdaptType b, env.AdaptType c] hs he (by simp) hctx2
    (by simpa [Server.locksOn] using hfree)

/-- Witness of the amended C2 on the concrete environment. -/
theorem lpush_then_lrange_witness :
    (handleLRange sampleEnv liveCtx ["lrange", "K", "0", "-1"]
        (handleLPush sampleEnv liveCtx ["lpush", "K", "a", "b", "c"]
          { store := storeOf [] }).2).1
      = Result.ok "*3\r\n$1\r\na\r\n$1\r\nb\r\n$1\r\nc\r\n\r\n" :=
  (lpush_then_lrange sampleEnv liveCtx liveCtx { store := storeOf [] }
      "lpush" "lrange" "K" "a" "b" "c" "0" "-1"
      (by decide) (by decide) (by decide) (by decide) (by decide) (by decide)).2.trans
    (by decide)

/-- Counterexample to C2 as stated: after `lpush K a b c` on an absent key,
`lrange K 0 -1` returns the encoding of `[a, b, c]`, which is not that of `[c, b, a]`. -/
theorem lpush_then_lrange_not_reversed :
    (handleLRange sampleEnv liveCtx ["lrange", "K", "0", "-1"]
        (handleLPush sampleEnv liveCtx ["lpush", "K", "a", "b", "c"]
          { store := storeOf [] }).2).1
      = Result.ok (encodeArray ["a", "b", "c"]) ∧
    (handleLRange sampleEnv liveCtx ["lrange", "K", "0", "-1"]
        (handleLPush sampleEnv liveCtx ["lpush", "K", "a", "b", "c"]
          { store := storeOf [] }).2).1
      ≠ Result.ok (encodeArray ["c", "b", "a"]) := by
  decide

/-! ## LSET, LTRIM and LINDEX -/

/-- C9: for a key holding a list `L`: when `0 <= i < len(L)`, `handleLSet` returns OK and
stores a list of the same length whose element at `i` is `adapt(v)` and whose other
elements are those of `L`; for every other `i` it returns an error and the keyspace is
unchanged. -/
theorem handleLSet_spec (env : Env) (ctx : Context) (server : Server)
    (name key i v : String) (idx : Int) (L : List Elem)
    (hi : env.AdaptType i = Elem.int idx)
    (hL : server.store key = some (Value.list L))
    (hctx : ctx.cancelled = false)
    (hfree : server.locksOn key = []) :
    (0 ≤ idx ∧ idx < L.length →
      (handleLSet env ctx [name, key, i, v] server).1 = Result.ok OK_RESPONSE ∧
      ∃ L2, (handleLSet env ctx [name, key, i, v] server).2.store key = some (Value.list L2) ∧
        L2.length = L.length ∧
        L2[idx.toNat]? = some (env.AdaptType v) ∧
        ∀ j : Nat, j ≠ idx.toNat → L2[j]? = L[j]?) ∧
    (¬ (0 ≤ idx ∧ idx < L.length) →
      (∃ msg, (handleLSet env ctx [name, key, i, v] server).1 = Result.error msg) ∧
      (handleLSet env ctx [name, key, i, v] server).2.store = server.store) := by
  constructor
  · intro h
    refine ⟨?_, L.set idx.toNat (env.AdaptType v), ?_, ?_, ?_, ?_⟩
    · simp only [handleLSet, bind, Handler.seq, pure, lift, index, lsetKeyFunc, fail]
      simp only [List.length_cons, List.length_nil, List.drop, List.take, List.head?,
        Option.toList, List.getElem?_cons_zero, List.getElem?_cons_succ, Nat.reduceAdd, ne_eq,
        not_true_eq_false, if_false, hi, asInt]
      simp [Handler.seq, pure, lift, KeyExists, KeyLock,
        deferring, GetValue, SetValue, asInt, asList, fail, KeyUnlock, hi, hL, hctx, hfree, h]
    · simp only [handleLSet, bind, Handler.seq, pure, lift, index, lsetKeyFunc, fail]
      simp only [List.length_cons, List.length_nil, List.drop, List.take, List.head?,
        Option.toList, List.getElem?_cons_zero, List.getElem?_cons_succ, Nat.reduceAdd, ne_eq,
        not_true_eq_false, if_false, hi, asInt]
      simp [Handler.seq, pure, lift, KeyExists, KeyLock,
        deferring, GetValue, SetValue, asInt, asList, fail, KeyUnlock, hi, hL, hctx, hfree, h]
    · simp
    · have hlt : idx.toNat < L.length := by omega
      simp [List.getElem?_set, hlt]
    · intro j hj
      simp [List.getElem?_set, Ne.symm hj]
  · intro h
    simp only [handleLSet, bind, Handler.seq, pure, lift, index, lsetKeyFunc, fail]
    simp only [List.length_cons, List.length_nil, List.drop, List.take, List.head?,
      Option.toList, List.getElem?_cons_zero, List.getElem?_cons_succ, Nat.reduceAdd, ne_eq,
      not_true_eq_false, if_false, hi, asInt]
    simp [Handler.seq, pure, lift, KeyExists, KeyLock,
      deferring, GetValue, SetValue, asInt, asList, fail, KeyUnlock, hi, hL, hctx, hfree, h]

/-- Witness of C9: `lset K 1 7` on `K = [a, b, c]` returns OK and stores `[a, 7, c]`. -/
theorem handleLSet_spec_witness :
    (handleLSet sampleEnv liveCtx ["lset", "K", "1", "7"]
        { store := storeOf [("K", Value.list [Elem.str "a", Elem.str "b", Elem.str "c"])] }).1
      = Result.ok OK_RESPONSE ∧
    (handleLSet sampleEnv liveCtx ["lset", "K", "1", "7"]
        { store := storeOf [("K", Value.list [Elem.str "a", Elem.str "b", Elem.str "c"])] }
      ).2.store "K" = some (Value.list [Elem.str "a", Elem.int 7, Elem.str "c"]) :=
  ⟨((handleLSet_spec sampleEnv liveCtx
      { store := storeOf [("K", Value.list [Elem.str "a", Elem.str "b", Elem.str "c"])] }
      "lset" "K" "1" "7" 1 [Elem.str "a", Elem.str "b", Elem.str "c"]
      (by decide) (by decide) (by decide) (by decide)).1 (by decide)).1,
   by decide⟩

/-- C7: for a key holding a list `L`, `handleLTrim` returns an error when `start` is
outside `[0, len(L))` or when `end < start` and `end != -1`; otherwise it returns OK and
stores `L[start:]` when `end = -1` or `end > len(L)`, and `L[start:end]` in every other
case; it never panics on a slice bound. -/
theorem handleLTrim_spec (env : Env) (ctx : Context) (server : Server)
    (name key s e : String) (start end_ : Int) (L : List Elem)
    (hs : env.AdaptType s = Elem.int start) (he : env.AdaptType e = Elem.int end_)
    (hL : server.store key = some (Value.list L))
    (hctx : ctx.cancelled = false)
    (hfree : server.locksOn key = []) :
    (¬ (0 ≤ start ∧ start < L.length) ∨ (end_ < start ∧ end_ ≠ -1) →
      ∃ msg, (handleLTrim env ctx [name, key, s, e] server).1 = Result.error msg) ∧
    ((0 ≤ start ∧ start < L.length) ∧ ¬ (end_ < start ∧ end_ ≠ -1) →
      (handleLTrim env ctx [name, key, s, e] server).1 = Result.ok OK_RESPONSE ∧
      (handleLTrim env ctx [name, key, s, e] server).2.store key
        = some (Value.list (if end_ = -1 ∨ end_ > L.length then L.drop start.toNat
            else (L.take end_.toNat).drop start.toNat))) ∧
    (∀ msg, (handleLTrim env ctx [name, key, s, e] server).1 ≠ Result.panic msg) := by
  have herr : ¬ (0 ≤ start ∧ start < L.length) ∨ (end_ < start ∧ end_ ≠ -1) →
      ∃ msg, (handleLTrim env ctx [name, key, s, e] server).1 = Result.error msg := by
    intro h
    by_cases h2 : end_ < start ∧ end_ ≠ -1
    · simp only [handleLTrim, bind, Handler.seq, pure, lift, index, ltrimKeyFunc, fail]
      simp only [List.length_cons, List.length_nil, List.drop, List.take, List.head?,
        Option.toList, List.getElem?_cons_zero, List.getElem?_cons_succ, Nat.reduceAdd, ne_eq,
        not_true_eq_false, if_false, hs, he, asInt]
      simp [Handler.seq, pure, lift, KeyExists,
        KeyLock, deferring, GetValue, SetValue, asInt, asList, fail, KeyUnlock, hs, he, hL,
        hctx, hfree, h2]
    · have h1 := h.resolve_right h2
      simp only [handleLTrim, bind, Handler.seq, pure, lift, index, ltrimKeyFunc, fail]
      simp only [List.length_cons, List.length_nil, List.drop, List.take, List.head?,
        Option.toList, List.getElem?_cons_zero, List.getElem?_cons_succ, Nat.reduceAdd, ne_eq,
        not_true_eq_false, if_false, hs, he, asInt]
      simp [Handler.seq, pure, lift, KeyExists,
        KeyLock, deferring, GetValue, SetValue, asInt, asList, fail, KeyUnlock, hs, he, hL,
        hctx, hfree, h2, h1]
  have hok : (0 ≤ start ∧ start < L.length) ∧ ¬ (end_ < start ∧ end_ ≠ -1) →
      (handleLTrim env ctx [name, key, s, e] server).1 = Result.ok OK_RESPONSE ∧
      (handleLTrim env ctx [name, key, s, e] server).2.store key
        = some (Value.list (if end_ = -1 ∨ end_ > L.length then L.drop start.toNat
            else (L.take end_.toNat).drop start.toNat)) := by
    rintro ⟨h1, h2⟩
    by_cases h3 : end_ = -1 ∨ end_ > L.length
    · have hb : 0 ≤ start ∧ start ≤ (L.length : Int) ∧ (L.length : Int) ≤ L.length :=
        ⟨h1.1, le_of_lt h1.2, le_refl _⟩
      simp only [handleLTrim, bind, Handler.seq, pure, lift, index, ltrimKeyFunc, fail]
      simp only [List.length_cons, List.length_nil, List.drop, List.take, List.head?,
        Option.toList, List.getElem?_cons_zero, List.getElem?_cons_succ, Nat.reduceAdd, ne_eq,
        not_true_eq_false, if_false, hs, he, asInt]
      simp [Handler.seq, pure, lift, KeyExists,
        KeyLock, deferring, GetValue, SetValue, asInt, asList, fail, KeyUnlock, hs, he, hL,
        hctx, hfree, h2, h1, h3, sliceFrom, slice, hb]
    · have hb : 0 ≤ start ∧ start ≤ end_ ∧ end_ ≤ L.length := by
        push_neg at h3
        refine ⟨h1.1, ?_, h3.2⟩
        by_contra hlt
        exact h2 ⟨lt_of_not_le hlt, h3.1⟩
      simp only [handleLTrim, bind, Handler.seq, pure, lift, index, ltrimKeyFunc, fail]
      simp only [List.length_cons, List.length_nil, List.drop, List.take, List.head?,
        Option.toList, List.getElem?_cons_zero, List.getElem?_cons_succ, Nat.reduceAdd, ne_eq,
        not_true_eq_false, if_false, hs, he, asInt]
      simp [Handler.seq, pure, lift, KeyExists,
        KeyLock, deferring, GetValue, SetValue, asInt, asList, fail, KeyUnlock, hs, he, hL,
        hctx, hfree, h2, h1, h3, sliceFrom, slice, hb]
  refine ⟨herr, hok, ?_⟩
  intro msg hp
  by_cases hcase : ¬ (0 ≤ start ∧ start < L.length) ∨ (end_ < start ∧ end_ ≠ -1)
  · obtain ⟨m, hm⟩ := herr hcase
    rw [hm] at hp
    cases hp
  · push_neg at hcase
    have h := (hok ⟨hcase.1, fun h => h.2 (hcase.2 h.1)⟩).1
    rw [h] at hp
    cases hp

/-- Witness of C7: `ltrim K 1 -1` on `K = [a, b, c]` returns OK and stores `[b, c]`. -/
theorem handleLTrim_spec_witness :
    (handleLTrim sampleEnv liveCtx ["ltrim", "K", "1", "-1"]
        { store := storeOf [("K", Value.list [Elem.str "a", Elem.str "b", Elem.str "c"])] }).1
      = Result.ok OK_RESPONSE ∧
    (handleLTrim sampleEnv liveCtx ["ltrim", "K", "1", "-1"]
        { store := storeOf [("K", Value.list [Elem.str "a", Elem.str "b", Elem.str "c"])] }
      ).2.store "K" = some (Value.list [Elem.str "b", Elem.str "c"]) :=
  ⟨((handleLTrim_spec sampleEnv liveCtx
      { store := storeOf [("K", Value.list [Elem.str "a", Elem.str "b", Elem.str "c"])] }
      "ltrim" "K" "1" "-1" 1 (-1) [Elem.str "a", Elem.str "b", Elem.str "c"]
      (by decide) (by decide) (by decide) (by decide) (by decide)).2.1 (by decide)).1,
   (((handleLTrim_spec sampleEnv liveCtx
      { store := storeOf [("K", Value.list [Elem.str "a", Elem.str "b", Elem.str "c"])] }
      "ltrim" "K" "1" "-1" 1 (-1) [Elem.str "a", Elem.str "b", Elem.str "c"]
      (by decide) (by decide) (by decide) (by decide) (by decide)).2.1 (by decide)).2).trans
    (by decide)⟩

/-- C10, the code at the failing input: on `K = [5]` (an `int` element) `lindex K 0`
answers `+%!s(int=5)`, the `%s` rendering of an `int`, where `lrange K 0 -1` emits the text
`5` for the same element; the claimed response `+5` is not what is returned. -/
theorem handleLIndex_int_element :
    (handleLIndex sampleEnv liveCtx ["lindex", "K", "0"]
        { store := storeOf [("K", Value.list [Elem.int 5])] }).1
      = Result.ok "+%!s(int=5)\r\n\r\n" ∧
    (handleLRange sampleEnv liveCtx ["lrange", "K", "0", "-1"]
        { store := storeOf [("K", Value.list [Elem.int 5])] }).1
      = Result.ok "*1\r\n$1\r\n5\r\n\r\n" ∧
    (handleLIndex sampleEnv liveCtx ["lindex", "K", "0"]
        { store := storeOf [("K", Value.list [Elem.int 5])] }).1
      ≠ Result.ok ("+" ++ formatV sampleEnv (Elem.int 5) ++ "\r\n\r\n") := by
  decide

/-! ## LMOVE -/

theorem sliceFrom_one (A : List Elem) (h : A ≠ []) : sliceFrom A 1 = Result.ok A.tail := by
  cases A with
  | nil => exact absurd rfl h
  | cons a A2 =>
    have hb : (1 : Int) ≤ (A2.length : Int) + 1 := by omega
    simp [sliceFrom, slice, hb]

theorem slice_zero_one (A : List Elem) (a : Elem) (h : A.head? = some a) :
    slice A 0 1 = Result.ok [a] := by
  cases A with
  | nil => simp at h
  | cons b A2 =>
    simp at h
    have hb : (1 : Int) ≤ (A2.length : Int) + 1 := by omega
    simp [slice, hb, h]

theorem slice_init (A : List Elem) (h : A ≠ []) :
    slice A 0 ((A.length : Int) - 1) = Result.ok A.dropLast := by
  have hpos : 0 < A.length := List.length_pos.mpr h
  have hb : (0 : Int) ≤ (A.length : Int) - 1 ∧ (A.length : Int) - 1 ≤ A.length := by omega
  have hn : ((A.length : Int) - 1).toNat = A.length - 1 := by omega
  simp [slice, hb, hn, List.dropLast_eq_take]

theorem sliceFrom_last (A : List Elem) (a : Elem) (h : A.getLast? = some a) :
    sliceFrom A ((A.length : Int) - 1) = Result.ok [a] := by
  have hne : A ≠ [] := by
    intro h0
    simp [h0] at h
  have hpos : 0 < A.length := List.length_pos.mpr hne
  have hb : (0 : Int) ≤ (A.length : Int) - 1 ∧ (A.length : Int) - 1 ≤ A.length := by omega
  have hn : ((A.length : Int) - 1).toNat = A.length - 1 := by omega
  have hd : A.drop (A.length - 1) = [a] := by
    have h1 := List.dropLast_append_getLast? a h
    have h2 : A.dropLast.length = A.length - 1 := List.length_dropLast A
    conv_lhs => rw [← h1]
    rw [List.length_append, List.length_singleton, Nat.add_sub_cancel, List.drop_left]
  simp [sliceFrom, slice, hb, hn, hd]

theorem elemAt_last (A : List Elem) (a : Elem) (h : A.getLast? = some a) :
    elemAt A ((A.length : Int) - 1) = some a := by
  have hne : A ≠ [] := by
    intro h0
    simp [h0] at h
  have hpos : 0 < A.length := List.length_pos.mpr hne
  have hb : (0 : Int) ≤ (A.length : Int) - 1 := by omega
  have hn : ((A.length : Int) - 1).toNat = A.length - 1 := by omega
  rw [elemAt, if_pos hb, hn, ← h, List.getLast?_eq_getElem?]

theorem locksOn_cons_ne (server : Server) (k1 k2 : String) (m : LockMode) (h : k1 ≠ k2)
    (held : List (String × LockMode)) :
    Server.locksOn { server with held := (k1, m) :: held } k2
      = Server.locksOn { server with held := held } k2 := by
  simp [Server.locksOn, List.filter_cons, h]
theorem left_ne_right : (("left" : String) = "right") = False := by decide

theorem right_ne_left : (("right" : String) = "left") = False := by decide

/-- The direction check of `handleLMove`, in front of the rest of the handler. -/
theorem handleLMove_bad_direction (env : Env) (ctx : Context) (server : Server)
    (name src dst wf wt : String)
    (h : env.ToLower wf ∉ ["left", "right"] ∨ env.ToLower wt ∉ ["left", "right"]) :
    (handleLMove env ctx [name, src, dst, wf, wt] server).1
      = Result.error "wherefrom and whereto arguments must be either LEFT or RIGHT" := by
  simp only [handleLMove, bind, Handler.seq, pure, lift, index, lmoveKeyFunc, fail]
  simp only [List.length_cons, List.length_nil, List.drop, List.take, List.getElem?_cons_zero,
    List.getElem?_cons_succ, Nat.reduceAdd, ne_eq, not_true_eq_false, if_false]
  rw [if_pos h]
  rfl

/-- A successful `handleLMove` was given `left` or `right` for both directions. -/
theorem handleLMove_directions (env : Env) (ctx : Context) (server : Server)
    (name src dst wf wt : String) (resp : String)
    (hok : (handleLMove env ctx [name, src, dst, wf, wt] server).1 = Result.ok resp) :
    (env.ToLower wf = "left" ∨ env.ToLower wf = "right") ∧
    (env.ToLower wt = "left" ∨ env.ToLower wt = "right") := by
  by_contra hcon
  have h : env.ToLower wf ∉ ["left", "right"] ∨ env.ToLower wt ∉ ["left", "right"] := by
    simp only [List.mem_cons, List.mem_singleton, List.not_mem_nil, or_false]
    by_contra h2
    push_neg at h2
    exact hcon h2
  rw [handleLMove_bad_direction env ctx server name src dst wf wt h] at hok
  cases hok

/-- The state a successful `handleLMove` between two distinct keys holding lists leaves. -/
theorem handleLMove_run (env : Env) (ctx : Context) (server : Server)
    (name src dst wf wt : String) (A B : List Elem) (x : Elem) (resp : String)
    (hne : src ≠ dst)
    (hA : server.store src = some (Value.list A))
    (hB : server.store dst = some (Value.list B))
    (hx : (if env.ToLower wf = "left" then A.head? else A.getLast?) = some x)
    (hok : (handleLMove env ctx [name, src, dst, wf, wt] server).1 = Result.ok resp) :
    (handleLMove env ctx [name, src, dst, wf, wt] server).2.store
      = fun k =>
          if k = dst then
            some (Value.list (if env.ToLower wt = "left" then x :: B else B ++ [x]))
          else if k = src then
            some (Value.list (if env.ToLower wf = "left" then A.tail else A.dropLast))
          else server.store k := by
  obtain ⟨hf, ht⟩ := handleLMove_directions env ctx server name src dst wf wt resp hok
  have hA0 : A ≠ [] := by
    intro h0
    subst h0
    simp at hx
  have hx0 : A.head? = some x → A[0]? = some x := by
    intro h
    rw [← h, List.head?_eq_getElem?]
  rcases hf with hf | hf <;> rcases ht with ht | ht <;>
  · simp only [hf, left_ne_right, right_ne_left, if_true, if_false] at hx
    simp only [handleLMove, bind, Handler.seq, pure, lift, index, lmoveKeyFunc, fail] at hok ⊢
    simp only [List.length_cons, List.length_nil, List.drop, List.take,
      List.getElem?_cons_zero, List.getElem?_cons_succ, Nat.reduceAdd, ne_eq,
      not_true_eq_false, if_false] at hok ⊢
    simp only [hf, ht] at hok ⊢
    simp only [if_true, if_false, List.nil_append, List.mem_cons, true_or, or_true,
      not_true_eq_false, or_self, left_ne_right, right_ne_left, false_or, or_false] at hok ⊢
    by_cases hc : ctx.cancelled = true
    · simp [Handler.seq, lift, fail, KeyExists, KeyLock, deferring, hA, hB, hc] at hok
    by_cases hfs2 : List.filter (fun p => decide (p.1 = src)) server.held = []
    swap
    · simp [Handler.seq, lift, fail, KeyExists, KeyLock, deferring, hA, hB, hc,
        Server.locksOn, hfs2] at hok
    by_cases hfd2 : List.filter (fun p => decide (p.1 = dst)) server.held = []
    swap
    · simp [Handler.seq, lift, fail, KeyExists, KeyLock, deferring, hA, hB, hc,
        Server.locksOn, List.filter_cons, hne, hfs2, hfd2] at hok
    funext k
    first
      | simp [Handler.seq, lift, fail, KeyExists, KeyLock, deferring, GetValue, SetValue, asList,
          KeyUnlock, hA, hB, hc, Server.locksOn, List.filter_cons, hne, hne.symm, hfs2, hfd2,
          sliceFrom_one A hA0, slice_zero_one A x hx, hx0 hx]
      | simp [Handler.seq, lift, fail, KeyExists, KeyLock, deferring, GetValue, SetValue, asList,
          KeyUnlock, hA, hB, hc, Server.locksOn, List.filter_cons, hne, hne.symm, hfs2, hfd2,
          slice_init A hA0, sliceFrom_last A x hx, elemAt_last A x hx, abort]

/-! ## LREM -/

theorem markFirst_nil (p : Elem → Bool) (n : Nat) : markFirst p n [] = [] := by
  cases n <;> simp [markFirst]

theorem deleteNil_map_some (l : List Elem) : deleteNil (l.map some) = l := by
  induction l with
  | nil => rfl
  | cons x xs ih =>
    simp only [deleteNil] at ih
    simp [deleteNil, ih]

theorem deleteNil_append (a b : List (Option Elem)) :
    deleteNil (a ++ b) = deleteNil a ++ deleteNil b := by
  simp [deleteNil, List.filterMap_append]

theorem deleteNil_reverse (a : List (Option Elem)) :
    deleteNil a.reverse = (deleteNil a).reverse := by
  simp [deleteNil, List.filterMap_reverse]

theorem deleteNil_markFirst (p : Elem → Bool) :
    ∀ (l : List Elem) (n : Nat), deleteNil (markFirst p n l) = removeFirstMatches p n l := by
  intro l
  induction l with
  | nil =>
    intro n
    cases n <;> simp [markFirst, removeFirstMatches, deleteNil]
  | cons x xs ih =>
    intro n
    cases n with
    | zero => simpa [markFirst, removeFirstMatches] using deleteNil_map_some (x :: xs)
    | succ n =>
      by_cases hp : p x = true
      · have h := ih n
        simp only [deleteNil] at h
        simp [markFirst, removeFirstMatches, hp, deleteNil, h]
      · have h := ih (n + 1)
        simp only [deleteNil] at h
        simp [markFirst, removeFirstMatches, hp, deleteNil, h]

theorem lremFromHead_eq (env : Env) (value : String) :
    ∀ (suf : List Elem) (pre : List (Option Elem)) (c : Int), 0 ≤ c →
      lremFromHead env value suf.length pre.length (pre ++ suf.map some) c
        = Result.ok (pre ++ markFirst (matchesValue env value) c.toNat suf) := by
  intro suf
  induction suf with
  | nil =>
    intro pre c _
    simp [lremFromHead, markFirst_nil]
  | cons x xs ih =>
    intro pre c hc
    by_cases h0 : c = 0
    · subst h0
      simp [lremFromHead, markFirst]
    · obtain ⟨n, hn⟩ : ∃ n : Nat, c.toNat = n + 1 := ⟨c.toNat - 1, by omega⟩
      have hget : (pre ++ List.map some (x :: xs))[pre.length]? = some (some x) := by
        rw [List.getElem?_append_right (le_refl _)]
        simp
      have hlen1 : (pre ++ [none (α := Elem)]).length = pre.length + 1 := by simp
      have hlen2 : (pre ++ [some x]).length = pre.length + 1 := by simp
      by_cases hp : formatV env x = value
      · have hstep := ih (pre ++ [none]) (c - 1) (by omega)
        have hset : (pre ++ List.map some (x :: xs)).set pre.length none
            = (pre ++ [none]) ++ xs.map some := by
          simp [List.set_append]
        have hn2 : (c - 1).toNat = n := by omega
        rw [hlen1, hn2] at hstep
        simp only [List.length_cons, lremFromHead, h0, if_false, hget, formatVSlot, hp,
          if_true, hset, hstep, hn, markFirst, matchesValue, decide_True]
        simp
      · have hstep := ih (pre ++ [some x]) c hc
        have hl : pre ++ List.map some (x :: xs) = (pre ++ [some x]) ++ xs.map some := by
          simp
        rw [hlen2, hn] at hstep
        simp only [List.length_cons, lremFromHead, h0, if_false, hget, formatVSlot, hp,
          hn, markFirst, matchesValue, decide_False]
        rw [hl, hstep]
        simp

theorem lremFromTail_eq (env : Env) (value : String) :
    ∀ (r : List Elem) (suf : List (Option Elem)) (c : Int), 0 ≤ c →
      lremFromTail env value r.length (r.reverse.map some ++ suf) c
        = Result.ok ((markFirst (matchesValue env value) c.toNat r).reverse ++ suf) := by
  intro r
  induction r with
  | nil =>
    intro suf c _
    simp [lremFromTail, markFirst_nil]
  | cons x xs ih =>
    intro suf c hc
    by_cases h0 : c = 0
    · subst h0
      simp [lremFromTail, markFirst]
    · obtain ⟨n, hn⟩ : ∃ n : Nat, c.toNat = n + 1 := ⟨c.toNat - 1, by omega⟩
      have hl : List.map some (x :: xs).reverse ++ suf
          = List.map some xs.reverse ++ (some x :: suf) := by
        simp
      have hget : (List.map some xs.reverse ++ (some x :: suf))[xs.length]? = some (some x) := by
        rw [List.getElem?_append_right (by simp)]
        simp
      by_cases hp : formatV env x = value
      · have hstep := ih (none :: suf) (c - 1) (by omega)
        have hset : (List.map some xs.reverse ++ (some x :: suf)).set xs.length none
            = List.map some xs.reverse ++ (none :: suf) := by
          rw [List.set_append_right _ _ (by simp)]
          simp
        have hn2 : (c - 1).toNat = n := by omega
        rw [hn2] at hstep
        rw [hl]
        simp only [List.length_cons, lremFromTail, h0, if_false, hget, formatVSlot, hp,
          if_true, hset, hstep, hn, markFirst, matchesValue, decide_True]
        simp
      · have hstep := ih (some x :: suf) c hc
        rw [hn] at hstep
        rw [hl]
        simp only [List.length_cons, lremFromTail, h0, if_false, hget, formatVSlot, hp,
          hn, markFirst, matchesValue, decide_False]
        rw [hstep]
        simp
theorem removeFirstMatches_sublist (p : Elem → Bool) :
    ∀ (l : List Elem) (n : Nat), (removeFirstMatches p n l).Sublist l := by
  intro l
  induction l with
  | nil =>
    intro n
    cases n <;> simp [removeFirstMatches]
  | cons x xs ih =>
    intro n
    cases n with
    | zero => simp [removeFirstMatches]
    | succ n =>
      by_cases hp : p x = true
      · simp only [removeFirstMatches, hp, if_true]
        exact (ih n).trans (List.sublist_cons_self x xs)
      · simp only [removeFirstMatches, hp, if_false]
        exact (ih (n + 1)).cons₂ x

/-- What `removeFirstMatches` removes: exactly `min n m` elements, all satisfying `p`. -/
theorem removeFirstMatches_removed (p : Elem → Bool) :
    ∀ (l : List Elem) (n : Nat), ∃ removed : List Elem,
      l.Perm (removeFirstMatches p n l ++ removed) ∧
      (∀ x ∈ removed, p x = true) ∧
      removed.length = min n (l.countP p) := by
  intro l
  induction l with
  | nil =>
    intro n
    refine ⟨[], ?_, ?_, ?_⟩
    · cases n <;> simp [removeFirstMatches]
    · simp
    · simp
  | cons x xs ih =>
    intro n
    cases n with
    | zero => exact ⟨[], by simp [removeFirstMatches], by simp, by simp⟩
    | succ n =>
      by_cases hp : p x = true
      · obtain ⟨removed, h1, h2, h3⟩ := ih n
        refine ⟨x :: removed, ?_, ?_, ?_⟩
        · simp only [removeFirstMatches, hp, if_true]
          exact (List.Perm.cons x h1).trans List.perm_middle.symm
        · intro y hy
          rcases List.mem_cons.mp hy with rfl | hy
          · exact hp
          · exact h2 y hy
        · simp only [List.length_cons, List.countP_cons, hp, if_true, h3]
          exact (Nat.succ_min_succ n _).symm
      · obtain ⟨removed, h1, h2, h3⟩ := ih (n + 1)
        refine ⟨removed, ?_, h2, ?_⟩
        · simp only [removeFirstMatches, hp, if_false]
          exact List.Perm.cons x h1
        · simp [List.countP_cons, hp, h3]

theorem removeLastMatches_sublist (p : Elem → Bool) (l : List Elem) (n : Nat) :
    (removeLastMatches p n l).Sublist l := by
  have h := removeFirstMatches_sublist p l.reverse n
  simpa [removeLastMatches] using h.reverse

theorem removeLastMatches_removed (p : Elem → Bool) (l : List Elem) (n : Nat) :
    ∃ removed : List Elem,
      l.Perm (removeLastMatches p n l ++ removed) ∧
      (∀ x ∈ removed, p x = true) ∧
      removed.length = min n (l.countP p) := by
  obtain ⟨removed, h1, h2, h3⟩ := removeFirstMatches_removed p l.reverse n
  refine ⟨removed, ?_, h2, ?_⟩
  · have ha : l.Perm l.reverse := (List.reverse_perm l).symm
    have hb : (removeFirstMatches p n l.reverse ++ removed).Perm
        (removeLastMatches p n l ++ removed) := by
      apply List.Perm.append_right
      simpa [removeLastMatches] using (List.reverse_perm (removeFirstMatches p n l.reverse)).symm
    exact (ha.trans h1).trans hb
  · simpa using h3

/-- The properties of `lremSpec` that C5 names. -/
theorem lremSpec_props (env : Env) (L : List Elem) (count : Int) (value : String) :
    (lremSpec env L count value).Sublist L ∧
    ∃ removed : List Elem,
      L.Perm (lremSpec env L count value ++ removed) ∧
      (∀ x ∈ removed, formatV env x = value) ∧
      removed.length = min count.natAbs (L.countP (matchesValue env value)) := by
  by_cases hpos : count > 0
  · obtain ⟨removed, h1, h2, h3⟩ :=
      removeFirstMatches_removed (matchesValue env value) L count.natAbs
    refine ⟨?_, removed, ?_, ?_, ?_⟩
    · simpa [lremSpec, hpos] using
        removeFirstMatches_sublist (matchesValue env value) L count.natAbs
    · simpa [lremSpec, hpos] using h1
    · intro x hx
      simpa [matchesValue] using h2 x hx
    · exact h3
  · by_cases hneg : count < 0
    · obtain ⟨removed, h1, h2, h3⟩ :=
        removeLastMatches_removed (matchesValue env value) L count.natAbs
      refine ⟨?_, removed, ?_, ?_, ?_⟩
      · simpa [lremSpec, hpos, hneg] using
          removeLastMatches_sublist (matchesValue env value) L count.natAbs
      · simpa [lremSpec, hpos, hneg] using h1
      · intro x hx
        simpa [matchesValue] using h2 x hx
      · exact h3
    · have h0 : count = 0 := by omega
      subst h0
      exact ⟨by simp [lremSpec], [], by simp [lremSpec], by simp, by simp⟩

/-- A successful `handleLRem` on a key holding the list `L` stores `lremSpec`. -/
theorem handleLRem_run (env : Env) (ctx : Context) (server : Server)
    (name key c v : String) (count : Int) (L : List Elem) (resp : String)
    (hc : env.AdaptType c = Elem.int count)
    (hL : server.store key = some (Value.list L))
    (hok : (handleLRem env ctx [name, key, c, v] server).1 = Result.ok resp) :
    (handleLRem env ctx [name, key, c, v] server).2.store key
      = some (Value.list (lremSpec env L count v)) := by
  simp only [handleLRem, bind, Handler.seq, pure, lift, index, lremKeyFunc, fail] at hok ⊢
  simp only [List.length_cons, List.length_nil, List.drop, List.head?, Option.toList,
    List.getElem?_cons_zero, List.getElem?_cons_succ, Nat.reduceAdd, ne_eq,
    not_true_eq_false, if_false, hc, asInt] at hok ⊢
  by_cases hcan : ctx.cancelled = true
  · simp [Handler.seq, KeyExists, KeyLock, deferring, fail, hL, hcan] at hok
  by_cases hf : server.locksOn key = []
  swap
  · simp [Handler.seq, KeyExists, KeyLock, deferring, fail, hL, hcan, hf] at hok
  by_cases hpos : count > 0
  · have hloop := lremFromHead_eq env v L [] count (le_of_lt hpos)
    simp only [List.length_nil, List.nil_append] at hloop
    have habs : AbsInt count = count := by
      simp [AbsInt]; omega
    have hn : count.toNat = count.natAbs := by omega
    simp [Handler.seq, lift, pure, KeyExists, KeyLock, deferring, GetValue, SetValue, asList,
      fail, KeyUnlock, hL, hcan, hf, hpos, habs, hloop, lremSpec, deleteNil_markFirst, hn]
  · by_cases hneg : count < 0
    · have hloop := lremFromTail_eq env v L.reverse [] (-count) (by omega)
      simp only [List.length_reverse, List.reverse_reverse, List.append_nil] at hloop
      have habs : AbsInt count = -count := by
        simp [AbsInt, hneg]
      have hn : (-count).toNat = count.natAbs := by omega
      simp [Handler.seq, lift, pure, KeyExists, KeyLock, deferring, GetValue, SetValue, asList,
        fail, KeyUnlock, hL, hcan, hf, hpos, hneg, habs, hloop, lremSpec, deleteNil_markFirst,
        deleteNil_reverse, hn, removeLastMatches]
    · simp [Handler.seq, lift, pure, KeyExists, KeyLock, deferring, GetValue, SetValue, asList,
        fail, KeyUnlock, hL, hcan, hf, hpos, hneg, lremSpec, deleteNil_map_some]

/-! ## LPOP, RPOP and LLEN -/

theorem lpop_ne_rpop : (("lpop" : String) = "rpop") = False := by decide

/-- `handlePop` for `rpop` on a key whose list ends in `x`. -/
theorem handlePop_rpop_run (env : Env) (ctx : Context) (server : Server)
    (name key : String) (rest : List Elem) (x : Elem)
    (hL : server.store key = some (Value.list (rest ++ [x])))
    (hctx : ctx.cancelled = false) (hfree : server.locksOn key = [])
    (hname : env.ToLower name = "rpop") :
    (handlePop env ctx [name, key] server).1
      = Result.ok ("+" ++ formatV env x ++ "\r\n\r\n") ∧
    (handlePop env ctx [name, key] server).2.store
      = (fun k => if k = key then some (Value.list rest) else server.store k) ∧
    (handlePop env ctx [name, key] server).2.held = server.held := by
  have hne : rest ++ [x] ≠ [] := by simp
  have hlast : (rest ++ [x]).getLast? = some x := by simp
  have hdrop : (rest ++ [x]).dropLast = rest := by simp
  have h1 := slice_init (rest ++ [x]) hne
  have h2 := elemAt_last (rest ++ [x]) x hlast
  rw [hdrop] at h1
  have hlen : ((rest ++ [x]).length : Int) - 1 = (rest.length : Int) := by
    simp
  rw [hlen] at h1 h2
  simp only [handlePop, bind, Handler.seq, pure, lift, index, popKeyFunc, fail]
  simp only [List.length_cons, List.length_nil, List.drop, List.head?, Option.toList,
    List.getElem?_cons_zero, List.getElem?_cons_succ, Nat.reduceAdd, ne_eq,
    not_true_eq_false, if_false]
  refine ⟨?_, ?_, ?_⟩
  · simp [Handler.seq, lift, fail, KeyExists, KeyLock, deferring, GetValue, SetValue, asList,
      KeyUnlock, hL, hctx, hfree, h1, h2, hname]
  · funext k
    by_cases hk : k = key <;>
    simp [Handler.seq, lift, fail, KeyExists, KeyLock, deferring, GetValue, SetValue, asList,
      KeyUnlock, hL, hctx, hfree, h1, h2, hk, hname]
  · simp [Handler.seq, lift, fail, KeyExists, KeyLock, deferring, GetValue, SetValue, asList,
      KeyUnlock, hL, hctx, hfree, h1, h2, hname]

/-- `handlePop` for `lpop` on a key whose list starts with `x`. -/
theorem handlePop_lpop_run (env : Env) (ctx : Context) (server : Server)
    (name key : String) (rest : List Elem) (x : Elem)
    (hL : server.store key = some (Value.list (x :: rest)))
    (hctx : ctx.cancelled = false) (hfree : server.locksOn key = [])
    (hname : env.ToLower name = "lpop") :
    (handlePop env ctx [name, key] server).1
      = Result.ok ("+" ++ formatV env x ++ "\r\n\r\n") ∧
    (handlePop env ctx [name, key] server).2.store
      = (fun k => if k = key then some (Value.list rest) else server.store k) ∧
    (handlePop env ctx [name, key] server).2.held = server.held := by
  have h1 := sliceFrom_one (x :: rest) (by simp)
  simp only [List.tail_cons] at h1
  simp only [handlePop, bind, Handler.seq, pure, lift, index, popKeyFunc, fail]
  simp only [List.length_cons, List.length_nil, List.drop, List.head?, Option.toList,
    List.getElem?_cons_zero, List.getElem?_cons_succ, Nat.reduceAdd, ne_eq,
    not_true_eq_false, if_false]
  refine ⟨?_, ?_, ?_⟩
  · simp [Handler.seq, lift, fail, KeyExists, KeyLock, deferring, GetValue, SetValue, asList,
      KeyUnlock, hL, hctx, hfree, h1, hname, lpop_ne_rpop]
  · funext k
    by_cases hk : k = key <;>
    simp [Handler.seq, lift, fail, KeyExists, KeyLock, deferring, GetValue, SetValue, asList,
      KeyUnlock, hL, hctx, hfree, h1, hk, hname, lpop_ne_rpop]
  · simp [Handler.seq, lift, fail, KeyExists, KeyLock, deferring, GetValue, SetValue, asList,
      KeyUnlock, hL, hctx, hfree, h1, hname, lpop_ne_rpop]

/-- `handlePop` on an absent key. -/
theorem handlePop_absent (env : Env) (ctx : Context) (server : Server)
    (name key : String) (hL : server.store key = none) :
    handlePop env ctx [name, key] server
      = (Result.error (env.ToUpper name ++ " command on non-list item"), server) := by
  simp only [handlePop, bind, Handler.seq, pure, lift, index, popKeyFunc, fail]
  simp only [List.length_cons, List.length_nil, List.drop, List.head?, Option.toList,
    List.getElem?_cons_zero, List.getElem?_cons_succ, Nat.reduceAdd, ne_eq,
    not_true_eq_false, if_false]
  simp [Handler.seq, fail, KeyExists, hL]

/-- State after `handleRPush` on a key that holds a list. -/
theorem handleRPush_list_run (env : Env) (ctx : Context) (server : Server)
    (name key : String) (v : String) (vs : List String) (L : List Elem)
    (hL : server.store key = some (Value.list L))
    (hctx : ctx.cancelled = false) (hfree : server.locksOn key = []) :
    handleRPush env ctx (name :: key :: v :: vs) server
      = (Result.ok OK_RESPONSE,
         { store := fun k => if k = key then some (Value.list (L ++ (v :: vs).map env.AdaptType))
                      else server.store k,
           held := server.held,
           trace := server.trace ++ [LockEvent.lock key, LockEvent.unlock key] }) := by
  simp [handleRPush, bind, Handler.seq, pure, lift, index, rpushKeyFunc_cons, KeyExists,
    KeyLock, deferring, GetValue, SetValue, asList, fail, KeyUnlock, hL, hctx, hfree]

/-- C11: on a key holding the list `L`, `rpush K x` succeeds and a following `rpop K`
answers `+<text of adapt(x)>` and leaves `L` under `K`, the list before the push, so the
length is unchanged. -/
theorem rpush_then_rpop (env : Env) (ctx ctx2 : Context) (server : Server)
    (name name2 key x : String) (L : List Elem)
    (hL : server.store key = some (Value.list L))
    (hctx : ctx.cancelled = false) (hctx2 : ctx2.cancelled = false)
    (hfree : server.locksOn key = [])
    (hname : env.ToLower name2 = "rpop") :
    (handleRPush env ctx [name, key, x] server).1 = Result.ok OK_RESPONSE ∧
    (handlePop env ctx2 [name2, key] (handleRPush env ctx [name, key, x] server).2).1
      = Result.ok ("+" ++ formatV env (env.AdaptType x) ++ "\r\n\r\n") ∧
    (handlePop env ctx2 [name2, key] (handleRPush env ctx [name, key, x] server).2).2.store key
      = some (Value.list L) ∧
    listAt (handlePop env ctx2 [name2, key] (handleRPush env ctx [name, key, x] server).2).2 key
      = listAt server key := by
  have hpush := handleRPush_list_run env ctx server name key x [] L hL hctx hfree
  simp only [List.map_cons, List.map_nil] at hpush
  rw [hpush]
  have hpop := handlePop_rpop_run env ctx2
    { store := fun k => if k = key then some (Value.list (L ++ [env.AdaptType x]))
                else server.store k,
      held := server.held,
      trace := server.trace ++ [LockEvent.lock key, LockEvent.unlock key] }
    name2 key L (env.AdaptType x) (by simp) hctx2 (by simpa [Server.locksOn] using hfree) hname
  refine ⟨rfl, hpop.1, ?_, ?_⟩
  · rw [hpop.2.1]
    simp
  · simp only [listAt]
    rw [hpop.2.1]
    simp [hL]

/-- Witness of C11: on `K = [a]`, `rpush K 7` then `rpop K` answers `+7` and leaves
`[a]`. -/
theorem rpush_then_rpop_witness :
    (handlePop sampleEnv liveCtx ["rpop", "K"]
        (handleRPush sampleEnv liveCtx ["rpush", "K", "7"]
          { store := storeOf [("K", Value.list [Elem.str "a"])] }).2).1
      = Result.ok "+7\r\n\r\n" ∧
    (handlePop sampleEnv liveCtx ["rpop", "K"]
        (handleRPush sampleEnv liveCtx ["rpush", "K", "7"]
          { store := storeOf [("K", Value.list [Elem.str "a"])] }).2).2.store "K"
      = some (Value.list [Elem.str "a"]) :=
  have h := rpush_then_rpop sampleEnv liveCtx liveCtx
    { store := storeOf [("K", Value.list [Elem.str "a"])] } "rpush" "rpop" "K" "7"
    [Elem.str "a"] (by decide) (by decide) (by decide) (by decide) (by decide)
  ⟨h.2.1.trans (by decide), h.2.2.1⟩

/-- C12: for a key holding a non-empty list `L`, under a live context and a free lock,
LPOP answers the text of the first element of `L` and stores the rest, RPOP answers
the text of the last element and stores what precedes it; on an absent key the handler
returns an error. -/
theorem handlePop_spec (env : Env) (ctx : Context) (server : Server) (name key : String)
    (hctx : ctx.cancelled = false) (hfree : server.locksOn key = []) :
    (∀ L : List Elem, server.store key = some (Value.list L) → L ≠ [] →
      (env.ToLower name = "lpop" →
        ∃ x rest, L = x :: rest ∧
          (handlePop env ctx [name, key] server).1
            = Result.ok ("+" ++ formatV env x ++ "\r\n\r\n") ∧
          (handlePop env ctx [name, key] server).2.store key = some (Value.list rest)) ∧
      (env.ToLower name = "rpop" →
        ∃ x rest, L = rest ++ [x] ∧
          (handlePop env ctx [name, key] server).1
            = Result.ok ("+" ++ formatV env x ++ "\r\n\r\n") ∧
          (handlePop env ctx [name, key] server).2.store key = some (Value.list rest))) ∧
    (server.store key = none →
      ∃ msg, (handlePop env ctx [name, key] server).1 = Result.error msg) := by
  constructor
  · intro L hL hne
    constructor
    · intro hname
      cases L with
      | nil => exact absurd rfl hne
      | cons x rest =>
        have h := handlePop_lpop_run env ctx server name key rest x hL hctx hfree hname
        exact ⟨x, rest, rfl, h.1, by simp [h.2.1]⟩
    · intro hname
      have hL2 : server.store key = some (Value.list (L.dropLast ++ [L.getLast hne])) := by
        rw [List.dropLast_append_getLast hne]
        exact hL
      have h := handlePop_rpop_run env ctx server name key L.dropLast (L.getLast hne) hL2
        hctx hfree hname
      exact ⟨L.getLast hne, L.dropLast, (List.dropLast_append_getLast hne).symm, h.1,
        by simp [h.2.1]⟩
  · intro habs
    rw [handlePop_absent env ctx server name key habs]
    exact ⟨_, rfl⟩

/-- Witness of C12: `rpop K` on `K = [1, b]` answers `+b` and stores `[1]`. -/
theorem handlePop_spec_witness :
    ∃ x rest, [Elem.int 1, Elem.str "b"] = rest ++ [x] ∧
      (handlePop sampleEnv liveCtx ["rpop", "K"]
          { store := storeOf [("K", Value.list [Elem.int 1, Elem.str "b"])] }).1
        = Result.ok ("+" ++ formatV sampleEnv x ++ "\r\n\r\n") ∧
      (handlePop sampleEnv liveCtx ["rpop", "K"]
          { store := storeOf [("K", Value.list [Elem.int 1, Elem.str "b"])] }).2.store "K"
        = some (Value.list rest) :=
  ((handlePop_spec sampleEnv liveCtx
      { store := storeOf [("K", Value.list [Elem.int 1, Elem.str "b"])] } "rpop" "K"
      (by decide) (by decide)).1 [Elem.int 1, Elem.str "b"] (by decide) (by decide)).2
    (by decide)

/-- C13: `handleLLen` answers exactly `:0` when the key is absent; under a live context
and with no exclusive lock on the key it answers `:<n>` with `n = len(L)` in decimal when
the key holds a list `L`, and returns an error when the key holds something that is not
a list. -/
theorem handleLLen_spec (ctx : Context) (server : Server) (name key : String)
    (hctx : ctx.cancelled = false)
    (hfree : LockMode.exclusive ∉ server.locksOn key) :
    (server.store key = none →
      (handleLLen ctx [name, key] server).1 = Result.ok ":0\r\n\r\n") ∧
    (∀ L : List Elem, server.store key = some (Value.list L) →
      (handleLLen ctx [name, key] server).1
        = Result.ok (":" ++ toString L.length ++ "\r\n\r\n")) ∧
    (∀ v : Value, server.store key = some v → asList v = none →
      ∃ msg, (handleLLen ctx [name, key] server).1 = Result.error msg) := by
  simp only [handleLLen, bind, Handler.seq, pure, lift, index, llenKeyFunc, fail]
  simp only [List.length_cons, List.length_nil, List.drop, List.head?, Option.toList,
    List.getElem?_cons_zero, List.getElem?_cons_succ, Nat.reduceAdd, ne_eq,
    not_true_eq_false, if_false]
  refine ⟨?_, ?_, ?_⟩
  · intro habs
    simp [Handler.seq, KeyExists, habs]
  · intro L hL
    simp [Handler.seq, fail, KeyExists, KeyRLock, deferring, GetValue, asList, KeyRUnlock,
      hL, hctx, hfree]
  · intro v hv hnl
    simp [Handler.seq, fail, KeyExists, KeyRLock, deferring, GetValue, KeyRUnlock,
      hv, hctx, hfree, hnl]

/-- Witness of C13: `llen K` on `K = [1, b]` answers `:2`. -/
theorem handleLLen_spec_witness :
    (handleLLen liveCtx ["llen", "K"]
        { store := storeOf [("K", Value.list [Elem.int 1, Elem.str "b"])] }).1
      = Result.ok ":2\r\n\r\n" ∧
    (handleLLen liveCtx ["llen", "Q"]
        { store := storeOf [("K", Value.list [Elem.int 1, Elem.str "b"])] }).1
      = Result.ok ":0\r\n\r\n" :=
  ⟨((handleLLen_spec liveCtx
      { store := storeOf [("K", Value.list [Elem.int 1, Elem.str "b"])] } "llen" "K"
      (by decide) (by decide)).2.1 [Elem.int 1, Elem.str "b"] (by decide)).trans (by decide),
   (handleLLen_spec liveCtx
      { store := storeOf [("K", Value.list [Elem.int 1, Elem.str "b"])] } "llen" "Q"
      (by decide) (by decide)).1 (by decide)⟩

/-- C14: when key `K` is absent, `LPUSHX K ...` and `RPUSHX K ...` return an error for
every argument list and leave the whole server state as it was: `K` stays absent, no
lock is held and no locking call is made. -/
theorem pushx_absent (env : Env) (ctx : Context) (server : Server)
    (name key : String) (args : List String)
    (habs : server.store key = none) :
    (env.ToLower name = "lpushx" →
      (∃ msg, (handleLPush env ctx (name :: key :: args) server).1 = Result.error msg) ∧
      (handleLPush env ctx (name :: key :: args) server).2 = server) ∧
    (env.ToLower name = "rpushx" →
      (∃ msg, (handleRPush env ctx (name :: key :: args) server).1 = Result.error msg) ∧
      (handleRPush env ctx (name :: key :: args) server).2 = server) := by
  constructor
  · intro hname
    cases args with
    | nil => simp [handleLPush, bind, Handler.seq, lift, lpushKeyFunc, WRONG_ARGS_RESPONSE]
    | cons v vs =>
      simp [handleLPush, bind, Handler.seq, pure, lift, index, lpushKeyFunc_cons, KeyExists,
        fail, habs, hname]
  · intro hname
    cases args with
    | nil => simp [handleRPush, bind, Handler.seq, lift, rpushKeyFunc, WRONG_ARGS_RESPONSE]
    | cons v vs =>
      simp [handleRPush, bind, Handler.seq, pure, lift, index, rpushKeyFunc_cons, KeyExists,
        fail, habs, hname]

/-- Witness of C14: `lpushx K v` on the empty keyspace is an error and `K` stays
absent. -/
theorem pushx_absent_witness :
    (∃ msg, (handleLPush sampleEnv liveCtx ["lpushx", "K", "v"]
        { store := storeOf [] }).1 = Result.error msg) ∧
    (handleLPush sampleEnv liveCtx ["lpushx", "K", "v"] { store := storeOf [] }).2.store "K"
      = none :=
  have h := (pushx_absent sampleEnv liveCtx { store := storeOf [] } "lpushx" "K" ["v"]
    (by decide)).1 (by decide)
  ⟨h.1, by rw [h.2]; decide⟩

/-! ## Errors leave the keyspace unchanged -/

theorem ks_pure {α : Type} (a : α) : KeepsStore (pure a : Handler α) := fun _ => rfl

theorem ks_fail {α : Type} (msg : String) : KeepsStore (fail msg : Handler α) := fun _ => rfl

theorem ks_abort {α : Type} (msg : String) : KeepsStore (abort msg : Handler α) := fun _ => rfl

theorem ks_lift {α : Type} (r : Result α) : KeepsStore (lift r) := fun _ => rfl

theorem ks_index {α : Type} (xs : List α) (i : Nat) : KeepsStore (index xs i) := by
  intro s
  unfold index
  cases xs[i]? <;> rfl

theorem ks_KeyExists (key : String) : KeepsStore (KeyExists key) := fun _ => rfl

theorem ks_GetValue (key : String) : KeepsStore (GetValue key) := fun _ => rfl

theorem ks_KeyLock (ctx : Context) (key : String) : KeepsStore (KeyLock ctx key) := by
  intro s
  unfold KeyLock
  simp only
  split
  · rfl
  · split
    · rfl
    · split <;> rfl

theorem ks_KeyRLock (ctx : Context) (key : String) : KeepsStore (KeyRLock ctx key) := by
  intro s
  unfold KeyRLock
  simp only
  split
  · rfl
  · split
    · rfl
    · split <;> rfl

theorem ks_modify_KeyRUnlock (key : String) : KeepsStore (modifyServer (KeyRUnlock key)) :=
  fun _ => rfl

theorem ks_bind {α β : Type} {m : Handler α} {f : α → Handler β}
    (hm : KeepsStore m) (hf : ∀ a, KeepsStore (f a)) : KeepsStore (m >>= f) := by
  intro s
  have h1 := hm s
  show (Handler.seq m f s).2.store = s.store
  unfold Handler.seq
  rcases hres : m s with ⟨r, s1⟩
  rw [hres] at h1
  cases r with
  | ok a => exact (hf a s1).trans h1
  | error e => exact h1
  | panic e => exact h1
  | blocked => exact h1

theorem ks_deferring_KeyUnlock {α : Type} (key : String) {body : Handler α}
    (hb : KeepsStore body) : KeepsStore (deferring (KeyUnlock key) body) := by
  intro s
  have h1 := hb s
  unfold deferring
  rcases hres : body s with ⟨r, s1⟩
  rw [hres] at h1
  cases r <;> exact h1

theorem ks_deferring_KeyRUnlock {α : Type} (key : String) {body : Handler α}
    (hb : KeepsStore body) : KeepsStore (deferring (KeyRUnlock key) body) := by
  intro s
  have h1 := hb s
  unfold deferring
  rcases hres : body s with ⟨r, s1⟩
  rw [hres] at h1
  cases r <;> exact h1

theorem ne_pure {α : Type} (a : α) : NoError (pure a : Handler α) := by
  intro s msg h
  cases h

theorem ne_abort {α : Type} (msg : String) : NoError (abort msg : Handler α) := by
  intro s m h
  cases h

theorem ne_SetValue (key : String) (v : Value) : NoError (SetValue key v) := by
  intro s msg h
  cases h

theorem ne_index {α : Type} (xs : List α) (i : Nat) : NoError (index xs i) := by
  intro s msg
  unfold index
  cases xs[i]? <;> intro h <;> cases h

theorem ne_lift {α : Type} {r : Result α} (h : ∀ msg, r ≠ Result.error msg) :
    NoError (lift r) := fun _ msg => h msg

theorem slice_ne_error (list : List Elem) (lo hi : Int) (msg : String) :
    slice list lo hi ≠ Result.error msg := by
  unfold slice
  split <;> intro h <;> cases h

theorem sliceFrom_ne_error (list : List Elem) (lo : Int) (msg : String) :
    sliceFrom list lo ≠ Result.error msg :=
  slice_ne_error list lo list.length msg

theorem ne_bind {α β : Type} {m : Handler α} {f : α → Handler β}
    (hm : NoError m) (hf : ∀ a, NoError (f a)) : NoError (m >>= f) := by
  intro s msg
  have h1 := hm s
  show (Handler.seq m f s).1 ≠ Result.error msg
  unfold Handler.seq
  rcases hres : m s with ⟨r, s1⟩
  rw [hres] at h1
  cases r with
  | ok a => exact hf a s1 msg
  | error e => exact absurd rfl (h1 e)
  | panic e =>
    intro h
    cases h
  | blocked =>
    intro h
    cases h

theorem eks_of_ks {α : Type} {m : Handler α} (h : KeepsStore m) : ErrorKeepsStore m :=
  fun s _ _ => h s

theorem eks_of_ne {α : Type} {m : Handler α} (h : NoError m) : ErrorKeepsStore m :=
  fun s msg he => absurd he (h s msg)

theorem eks_bind_ks {α β : Type} {m : Handler α} {f : α → Handler β}
    (hm : KeepsStore m) (hf : ∀ a, ErrorKeepsStore (f a)) : ErrorKeepsStore (m >>= f) := by
  intro s msg
  have h1 := hm s
  show (Handler.seq m f s).1 = Result.error msg → (Handler.seq m f s).2.store = s.store
  unfold Handler.seq
  rcases hres : m s with ⟨r, s1⟩
  rw [hres] at h1
  cases r with
  | ok a =>
    intro h
    exact (hf a s1 msg h).trans h1
  | error e => exact fun _ => h1
  | panic e => exact fun _ => h1
  | blocked => exact fun _ => h1

theorem eks_bind_ne {α β : Type} {m : Handler α} {f : α → Handler β}
    (hm : ErrorKeepsStore m) (hf : ∀ a, NoError (f a)) : ErrorKeepsStore (m >>= f) := by
  intro s msg
  have h1 := hm s
  show (Handler.seq m f s).1 = Result.error msg → (Handler.seq m f s).2.store = s.store
  unfold Handler.seq
  rcases hres : m s with ⟨r, s1⟩
  rw [hres] at h1
  cases r with
  | ok a =>
    intro h
    exact absurd h (hf a s1 msg)
  | error e => exact fun _ => h1 e rfl
  | panic e =>
    intro h
    cases h
  | blocked =>
    intro h
    cases h

theorem eks_fail_bind {α β : Type} (msg : String) (f : α → Handler β) :
    ErrorKeepsStore ((fail msg : Handler α) >>= f) := fun _ _ _ => rfl

theorem eks_deferring_KeyUnlock {α : Type} (key : String) {body : Handler α}
    (hb : ErrorKeepsStore body) : ErrorKeepsStore (deferring (KeyUnlock key) body) := by
  intro s msg
  have h1 := hb s
  unfold deferring
  rcases hres : body s with ⟨r, s1⟩
  rw [hres] at h1
  cases r with
  | ok a =>
    intro h
    cases h
  | error e =>
    intro _
    exact h1 e rfl
  | panic e =>
    intro h
    cases h
  | blocked =>
    intro h
    cases h

theorem ks_handleLLen (ctx : Context) (cmd : List String) :
    KeepsStore (handleLLen ctx cmd) := by
  simp only [handleLLen]
  repeat' first
    | exact ks_pure _ | exact ks_fail _ | exact ks_abort _ | exact ks_lift _
    | exact ks_index _ _ | exact ks_KeyExists _ | exact ks_GetValue _
    | exact ks_KeyLock _ _ | exact ks_KeyRLock _ _ | exact ks_modify_KeyRUnlock _
    | refine ks_bind ?_ (fun _ => ?_)
    | apply ks_deferring_KeyUnlock
    | apply ks_deferring_KeyRUnlock
    | split

theorem ks_handleLIndex (env : Env) (ctx : Context) (cmd : List String) :
    KeepsStore (handleLIndex env ctx cmd) := by
  simp only [handleLIndex]
  repeat' first
    | exact ks_pure _ | exact ks_fail _ | exact ks_abort _ | exact ks_lift _
    | exact ks_index _ _ | exact ks_KeyExists _ | exact ks_GetValue _
    | exact ks_KeyLock _ _ | exact ks_KeyRLock _ _ | exact ks_modify_KeyRUnlock _
    | refine ks_bind ?_ (fun _ => ?_)
    | apply ks_deferring_KeyUnlock
    | apply ks_deferring_KeyRUnlock
    | split

theorem ks_handleLRange (env : Env) (ctx : Context) (cmd : List String) :
    KeepsStore (handleLRange env ctx cmd) := by
  simp only [handleLRange]
  repeat' first
    | exact ks_pure _ | exact ks_fail _ | exact ks_abort _ | exact ks_lift _
    | exact ks_index _ _ | exact ks_KeyExists _ | exact ks_GetValue _
    | exact ks_KeyLock _ _ | exact ks_KeyRLock _ _ | exact ks_modify_KeyRUnlock _
    | refine ks_bind ?_ (fun _ => ?_)
    | apply ks_deferring_KeyUnlock
    | apply ks_deferring_KeyRUnlock
    | split

/-- After `CreateKeyAndLock` and the write of the empty list, an error can only come
from the lock acquisition, which leaves the keyspace as it was. -/
theorem eks_create_then {β : Type} (ctx : Context) (key : String) (rest : Handler β)
    (hrest : ∀ s, s.store key = some (Value.list []) → ∀ msg, (rest s).1 ≠ Result.error msg) :
    ErrorKeepsStore
      (CreateKeyAndLock ctx key >>= fun _ => SetValue key (Value.list []) >>= fun _ => rest) := by
  intro s msg
  show (Handler.seq (CreateKeyAndLock ctx key)
      (fun _ => Handler.seq (SetValue key (Value.list [])) (fun _ => rest)) s).1 = Result.error msg →
    (Handler.seq (CreateKeyAndLock ctx key)
      (fun _ => Handler.seq (SetValue key (Value.list [])) (fun _ => rest)) s).2.store = s.store
  have hks := ks_KeyLock ctx key s
  unfold Handler.seq CreateKeyAndLock
  by_cases hnone : (s.store key).isNone = true
  · simp only [hnone, if_true, SetValue]
    intro h
    exact absurd h (hrest _ (by simp) msg)
  · simp only [hnone]
    rcases hres : KeyLock ctx key s with ⟨r, s1⟩
    rw [hres] at hks
    cases r with
    | ok a =>
      simp only [SetValue]
      intro h
      exact absurd h (hrest _ (by simp) msg)
    | error e => exact fun _ => hks
    | panic e => exact fun _ => hks
    | blocked => exact fun _ => hks

theorem eks_handleLSet (env : Env) (ctx : Context) (cmd : List String) :
    ErrorKeepsStore (handleLSet env ctx cmd) := by
  simp only [handleLSet]
  repeat' with_reducible first
    | exact eks_fail_bind _ _
    | exact ks_pure _ | exact ks_fail _ | exact ks_abort _ | exact ks_lift _
    | exact ks_index _ _ | exact ks_KeyExists _ | exact ks_GetValue _
    | exact ks_KeyLock _ _ | exact ks_KeyRLock _ _
    | (refine eks_of_ne ?_
       repeat' first
         | exact ne_pure _ | exact ne_abort _ | exact ne_SetValue _ _ | exact ne_index _ _
         | exact ne_lift (slice_ne_error _ _ _) | exact ne_lift (sliceFrom_ne_error _ _)
         | refine ne_bind ?_ (fun _ => ?_)
         | split
       done)
    | exact eks_of_ks (ks_fail _)
    | refine eks_bind_ks ?_ (fun _ => ?_)
    | apply eks_deferring_KeyUnlock
    | split

theorem eks_handleLTrim (env : Env) (ctx : Context) (cmd : List String) :
    ErrorKeepsStore (handleLTrim env ctx cmd) := by
  simp only [handleLTrim]
  repeat' with_reducible first
    | exact eks_fail_bind _ _
    | exact ks_pure _ | exact ks_fail _ | exact ks_abort _ | exact ks_lift _
    | exact ks_index _ _ | exact ks_KeyExists _ | exact ks_GetValue _
    | exact ks_KeyLock _ _ | exact ks_KeyRLock _ _
    | (refine eks_of_ne ?_
       repeat' first
         | exact ne_pure _ | exact ne_abort _ | exact ne_SetValue _ _ | exact ne_index _ _
         | exact ne_lift (slice_ne_error _ _ _) | exact ne_lift (sliceFrom_ne_error _ _)
         | refine ne_bind ?_ (fun _ => ?_)
         | split
       done)
    | exact eks_of_ks (ks_fail _)
    | refine eks_bind_ks ?_ (fun _ => ?_)
    | apply eks_deferring_KeyUnlock
    | split

theorem eks_handleLRem (env : Env) (ctx : Context) (cmd : List String) :
    ErrorKeepsStore (handleLRem env ctx cmd) := by
  simp only [handleLRem]
  repeat' with_reducible first
    | exact eks_fail_bind _ _
    | exact ks_pure _ | exact ks_fail _ | exact ks_abort _ | exact ks_lift _
    | exact ks_index _ _ | exact ks_KeyExists _ | exact ks_GetValue _
    | exact ks_KeyLock _ _ | exact ks_KeyRLock _ _
    | (refine eks_of_ne ?_
       repeat' first
         | exact ne_pure _ | exact ne_abort _ | exact ne_SetValue _ _ | exact ne_index _ _
         | exact ne_lift (slice_ne_error _ _ _) | exact ne_lift (sliceFrom_ne_error _ _)
         | refine ne_bind ?_ (fun _ => ?_)
         | split
       done)
    | exact eks_of_ks (ks_fail _)
    | refine eks_bind_ks ?_ (fun _ => ?_)
    | apply eks_deferring_KeyUnlock
    | split

theorem eks_handleLMove (env : Env) (ctx : Context) (cmd : List String) :
    ErrorKeepsStore (handleLMove env ctx cmd) := by
  simp only [handleLMove]
  refine eks_bind_ks (ks_lift _) (fun keys => ?_)
  refine eks_bind_ks (ks_index _ _) (fun source => ?_)
  refine eks_bind_ks (ks_index _ _) (fun destination => ?_)
  refine eks_bind_ks (ks_index _ _) (fun wf => ?_)
  refine eks_bind_ks (ks_index _ _) (fun wt => ?_)
  split
  · exact eks_of_ks (ks_fail _)
  refine eks_bind_ks (ks_KeyExists _) (fun b1 => ?_)
  refine eks_bind_ks (ks_KeyExists _) (fun b2 => ?_)
  split
  · exact eks_of_ks (ks_fail _)
  refine eks_bind_ks (ks_KeyLock _ _) (fun _ => ?_)
  apply eks_deferring_KeyUnlock
  refine eks_bind_ks (ks_KeyLock _ _) (fun _ => ?_)
  apply eks_deferring_KeyUnlock
  refine eks_bind_ks (ks_GetValue _) (fun v1 => ?_)
  refine eks_bind_ks (ks_GetValue _) (fun v2 => ?_)
  split
  · refine eks_of_ne ?_
    repeat' with_reducible first
      | exact ne_pure _ | exact ne_abort _ | exact ne_SetValue _ _ | exact ne_index _ _
      | exact ne_lift (slice_ne_error _ _ _) | exact ne_lift (sliceFrom_ne_error _ _)
      | refine ne_bind ?_ (fun _ => ?_)
      | split
  · exact eks_of_ks (ks_fail _)

theorem eks_handleLPush (env : Env) (ctx : Context) (cmd : List String) :
    ErrorKeepsStore (handleLPush env ctx cmd) := by
  simp only [handleLPush]
  repeat' with_reducible first
    | exact eks_fail_bind _ _
    | exact ks_pure _ | exact ks_fail _ | exact ks_abort _ | exact ks_lift _
    | exact ks_index _ _ | exact ks_KeyExists _ | exact ks_GetValue _
    | exact ks_KeyLock _ _ | exact ks_KeyRLock _ _
    | (refine eks_of_ne ?_
       repeat' first
         | exact ne_pure _ | exact ne_abort _ | exact ne_SetValue _ _ | exact ne_index _ _
         | exact ne_lift (slice_ne_error _ _ _) | exact ne_lift (sliceFrom_ne_error _ _)
         | refine ne_bind ?_ (fun _ => ?_)
         | split
       done)
    | (refine eks_create_then _ _ _ ?_
       intro s hs msg
       simp [deferring, bind, Handler.seq, GetValue, SetValue, asList, pure, hs])
    | exact eks_of_ks (ks_fail _)
    | refine eks_bind_ks ?_ (fun _ => ?_)
    | apply eks_deferring_KeyUnlock
    | split

theorem eks_handleRPush (env : Env) (ctx : Context) (cmd : List String) :
    ErrorKeepsStore (handleRPush env ctx cmd) := by
  simp only [handleRPush]
  repeat' with_reducible first
    | exact eks_fail_bind _ _
    | exact ks_pure _ | exact ks_fail _ | exact ks_abort _ | exact ks_lift _
    | exact ks_index _ _ | exact ks_KeyExists _ | exact ks_GetValue _
    | exact ks_KeyLock _ _ | exact ks_KeyRLock _ _
    | (refine eks_of_ne ?_
       repeat' first
         | exact ne_pure _ | exact ne_abort _ | exact ne_SetValue _ _ | exact ne_index _ _
         | exact ne_lift (slice_ne_error _ _ _) | exact ne_lift (sliceFrom_ne_error _ _)
         | refine ne_bind ?_ (fun _ => ?_)
         | split
       done)
    | (refine eks_create_then _ _ _ ?_
       intro s hs msg
       simp [deferring, bind, Handler.seq, GetValue, SetValue, asList, pure, hs])
    | exact eks_of_ks (ks_fail _)
    | refine eks_bind_ks ?_ (fun _ => ?_)
    | apply eks_deferring_KeyUnlock
    | split

theorem eks_handlePop (env : Env) (ctx : Context) (cmd : List String) :
    ErrorKeepsStore (handlePop env ctx cmd) := by
  simp only [handlePop]
  repeat' with_reducible first
    | exact eks_fail_bind _ _
    | exact ks_pure _ | exact ks_fail _ | exact ks_abort _ | exact ks_lift _
    | exact ks_index _ _ | exact ks_KeyExists _ | exact ks_GetValue _
    | exact ks_KeyLock _ _ | exact ks_KeyRLock _ _
    | (refine eks_of_ne ?_
       repeat' first
         | exact ne_pure _ | exact ne_abort _ | exact ne_SetValue _ _ | exact ne_index _ _
         | exact ne_lift (slice_ne_error _ _ _) | exact ne_lift (sliceFrom_ne_error _ _)
         | refine ne_bind ?_ (fun _ => ?_)
         | split
       done)
    | exact eks_of_ks (ks_fail _)
    | refine eks_bind_ks ?_ (fun _ => ?_)
    | apply eks_deferring_KeyUnlock
    | split

/-- C15: for every command of the table (LPUSH, LPUSHX, LPOP, LLEN, LRANGE, LINDEX, LSET,
LTRIM, LREM, LMOVE, RPOP, RPUSH, RPUSHX), every environment, context, command line and
server state: whenever the handler returns an error, the keyspace after the call is the
keyspace before it. -/
theorem handlers_error_keeps_store (env : Env) (ctx : Context) (c : Command)
    (hc : c ∈ Commands) (cmd : List String) (server : Server) (msg : String)
    (herr : (c.HandlerFunc env ctx cmd server).1 = Result.error msg) :
    (c.HandlerFunc env ctx cmd server).2.store = server.store := by
  simp only [Commands, List.mem_cons, List.mem_singleton, List.not_mem_nil, or_false] at hc
  rcases hc with h | h | h | h | h | h | h | h | h | h | h | h | h <;> subst h
  · exact eks_handleLPush env ctx cmd server msg herr
  · exact eks_handleLPush env ctx cmd server msg herr
  · exact eks_handlePop env ctx cmd server msg herr
  · exact eks_of_ks (ks_handleLLen ctx cmd) server msg herr
  · exact eks_of_ks (ks_handleLRange env ctx cmd) server msg herr
  · exact eks_of_ks (ks_handleLIndex env ctx cmd) server msg herr
  · exact eks_handleLSet env ctx cmd server msg herr
  · exact eks_handleLTrim env ctx cmd server msg herr
  · exact eks_handleLRem env ctx cmd server msg herr
  · exact eks_handleLMove env ctx cmd server msg herr
  · exact eks_handlePop env ctx cmd server msg herr
  · exact eks_handleRPush env ctx cmd server msg herr
  · exact eks_handleRPush env ctx cmd server msg herr

/-- Witness of C15: `lset K 5 x` on `K = [a]` with a cancelled context fails on the lock
and leaves the keyspace as it was. -/
theorem handlers_error_keeps_store_witness :
    (handleLSet sampleEnv { cancelled := true } ["lset", "K", "5", "x"]
        { store := storeOf [("K", Value.list [Elem.str "a"])] }).1
      = Result.error "Cancelled" ∧
    (handleLSet sampleEnv { cancelled := true } ["lset", "K", "5", "x"]
        { store := storeOf [("K", Value.list [Elem.str "a"])] }).2.store
      = storeOf [("K", Value.list [Elem.str "a"])] :=
  ⟨by decide,
   handlers_error_keeps_store sampleEnv { cancelled := true }
    { Command := "lset",
      Description := "(LSET key index value) Sets the value of an element in a list by its index.",
      Sync := true, KeyExtractionFunc := lsetKeyFunc, HandlerFunc := handleLSet }
    (by simp [Commands]) ["lset", "K", "5", "x"]
    { store := storeOf [("K", Value.list [Elem.str "a"])] } "Cancelled" (by decide)⟩

/-! ## Locks are released on every exit path -/

theorem noStray_nil : noStray [] := by
  intro e he
  cases he

theorem noStray_append {a b : List LockEvent} (ha : noStray a) (hb : noStray b) :
    noStray (a ++ b) := by
  intro e he
  rcases List.mem_append.mp he with h | h
  · exact ha e h
  · exact hb e h

theorem noStray_single_lock (k : String) : noStray [LockEvent.lock k] := by
  intro e he k2
  simp only [List.mem_singleton] at he
  subst he
  exact ⟨(by intro h; cases h), (by intro h; cases h)⟩

theorem noStray_single_rlock (k : String) : noStray [LockEvent.rlock k] := by
  intro e he k2
  simp only [List.mem_singleton] at he
  subst he
  exact ⟨(by intro h; cases h), (by intro h; cases h)⟩

theorem noStray_single_create (k : String) : noStray [LockEvent.create k] := by
  intro e he k2
  simp only [List.mem_singleton] at he
  subst he
  exact ⟨(by intro h; cases h), (by intro h; cases h)⟩

theorem noStray_single_unlock (k : String) : noStray [LockEvent.unlock k] := by
  intro e he k2
  simp only [List.mem_singleton] at he
  subst he
  exact ⟨(by intro h; cases h), (by intro h; cases h)⟩

theorem noStray_single_runlock (k : String) : noStray [LockEvent.runlock k] := by
  intro e he k2
  simp only [List.mem_singleton] at he
  subst he
  exact ⟨(by intro h; cases h), (by intro h; cases h)⟩

theorem quiet_of_quietOk {α : Type} {m : Handler α} (h : QuietOk m) : Quiet m := by
  intro s
  obtain ⟨⟨a, ha⟩, h2, h3⟩ := h s
  refine ⟨?_, h2, h3⟩
  rw [ha]
  intro hb
  cases hb

theorem quietOk_pure {α : Type} (a : α) : QuietOk (pure a : Handler α) :=
  fun _ => ⟨⟨a, rfl⟩, rfl, rfl⟩

theorem quietOk_KeyExists (key : String) : QuietOk (KeyExists key) :=
  fun _ => ⟨⟨_, rfl⟩, rfl, rfl⟩

theorem quietOk_GetValue (key : String) : QuietOk (GetValue key) :=
  fun _ => ⟨⟨_, rfl⟩, rfl, rfl⟩

theorem quietOk_SetValue (key : String) (v : Value) : QuietOk (SetValue key v) :=
  fun _ => ⟨⟨_, rfl⟩, rfl, rfl⟩

theorem quiet_pure {α : Type} (a : α) : Quiet (pure a : Handler α) :=
  quiet_of_quietOk (quietOk_pure a)

theorem quiet_KeyExists (key : String) : Quiet (KeyExists key) :=
  quiet_of_quietOk (quietOk_KeyExists key)

theorem quiet_GetValue (key : String) : Quiet (GetValue key) :=
  quiet_of_quietOk (quietOk_GetValue key)

theorem quiet_SetValue (key : String) (v : Value) : Quiet (SetValue key v) :=
  quiet_of_quietOk (quietOk_SetValue key v)

theorem quiet_fail {α : Type} (msg : String) : Quiet (fail msg : Handler α) := by
  intro s
  exact ⟨(by intro h; cases h), rfl, rfl⟩

theorem quiet_abort {α : Type} (msg : String) : Quiet (abort msg : Handler α) := by
  intro s
  exact ⟨(by intro h; cases h), rfl, rfl⟩

theorem quiet_lift {α : Type} {r : Result α} (h : r ≠ Result.blocked) : Quiet (lift r) :=
  fun _ => ⟨h, rfl, rfl⟩

theorem quiet_index {α : Type} (xs : List α) (i : Nat) : Quiet (index xs i) := by
  intro s
  unfold index
  cases xs[i]?
  · exact quiet_abort _ s
  · exact quiet_pure _ s

theorem quiet_bind {α β : Type} {m : Handler α} {f : α → Handler β}
    (hm : Quiet m) (hf : ∀ a, Quiet (f a)) : Quiet (m >>= f) := by
  intro s
  obtain ⟨h1, h2, h3⟩ := hm s
  show (Handler.seq m f s).1 ≠ Result.blocked ∧ (Handler.seq m f s).2.held = s.held ∧
    (Handler.seq m f s).2.trace = s.trace
  unfold Handler.seq
  rcases hres : m s with ⟨r, s1⟩
  rw [hres] at h1 h2 h3
  cases r with
  | ok a =>
    obtain ⟨g1, g2, g3⟩ := hf a s1
    exact ⟨g1, g2.trans h2, g3.trans h3⟩
  | error e => exact ⟨(by intro h; cases h), h2, h3⟩
  | panic e => exact ⟨(by intro h; cases h), h2, h3⟩
  | blocked => exact absurd rfl h1

theorem balanced_of_quiet {α : Type} {m : Handler α} (h : Quiet m) : Balanced m := by
  intro s _
  obtain ⟨_, h2, h3⟩ := h s
  exact ⟨h2, [], by simpa using h3, noStray_nil⟩

theorem balanced_fail_bind {α β : Type} (msg : String) (f : α → Handler β) :
    Balanced ((fail msg : Handler α) >>= f) := by
  intro s _
  exact ⟨rfl, [], by simp [bind, Handler.seq, fail], noStray_nil⟩

theorem balanced_bind {α β : Type} {m : Handler α} {f : α → Handler β}
    (hm : Balanced m) (hf : ∀ a, Balanced (f a)) : Balanced (m >>= f) := by
  intro s
  have h1 := hm s
  show (Handler.seq m f s).1 ≠ Result.blocked →
    (Handler.seq m f s).2.held = s.held ∧
      ∃ suf, (Handler.seq m f s).2.trace = s.trace ++ suf ∧ noStray suf
  unfold Handler.seq
  rcases hres : m s with ⟨r, s1⟩
  rw [hres] at h1
  cases r with
  | ok a =>
    intro hnb
    obtain ⟨g1, suf1, g2, g3⟩ := h1 (by intro h; cases h)
    obtain ⟨k1, suf2, k2, k3⟩ := hf a s1 hnb
    refine ⟨k1.trans g1, suf1 ++ suf2, ?_, noStray_append g3 k3⟩
    rw [k2]
    simp only at g2
    rw [g2, List.append_assoc]
  | error e => exact fun _ => h1 (by intro h; cases h)
  | panic e => exact fun _ => h1 (by intro h; cases h)
  | blocked => exact fun h => absurd rfl h

theorem balanced_acquire {β : Type} {key : String} {mode : LockMode} {m : Handler Unit}
    {f : Unit → Handler β}
    (hm : Acquires key mode m) (hf : ∀ a, Releases key mode (f a)) : Balanced (m >>= f) := by
  intro s
  have h1 := hm s
  show (Handler.seq m f s).1 ≠ Result.blocked →
    (Handler.seq m f s).2.held = s.held ∧
      ∃ suf, (Handler.seq m f s).2.trace = s.trace ++ suf ∧ noStray suf
  unfold Handler.seq
  rcases hres : m s with ⟨r, s1⟩
  rw [hres] at h1
  cases r with
  | ok a =>
    intro hnb
    obtain ⟨⟨suf1, g2, g3⟩, hcase⟩ := h1 (by intro h; cases h)
    rcases hcase with ⟨_, hheld⟩ | ⟨hno, _⟩
    · obtain ⟨k1, suf2, k2, k3⟩ := hf a s1 s.held hheld hnb
      refine ⟨k1, suf1 ++ suf2, ?_, noStray_append g3 k3⟩
      rw [k2]
      simp only at g2
      rw [g2, List.append_assoc]
    · exact absurd rfl (hno a)
  | error e =>
    intro _
    obtain ⟨hsuf, hcase⟩ := h1 (by intro h; cases h)
    rcases hcase with ⟨hok, _⟩ | ⟨_, hheld⟩
    · cases hok
    · exact ⟨hheld, hsuf⟩
  | panic e =>
    intro _
    obtain ⟨hsuf, hcase⟩ := h1 (by intro h; cases h)
    rcases hcase with ⟨hok, _⟩ | ⟨_, hheld⟩
    · cases hok
    · exact ⟨hheld, hsuf⟩
  | blocked => exact fun h => absurd rfl h

theorem acquires_KeyLock (ctx : Context) (key : String) :
    Acquires key LockMode.exclusive (KeyLock ctx key) := by
  intro s
  unfold KeyLock
  simp only
  split
  · intro _
    exact ⟨⟨_, rfl, noStray_single_lock key⟩, Or.inr ⟨(by intro a h; cases h), rfl⟩⟩
  · split
    · intro _
      exact ⟨⟨_, rfl, noStray_single_lock key⟩, Or.inr ⟨(by intro a h; cases h), rfl⟩⟩
    · split
      · intro h
        exact absurd rfl h
      · intro _
        exact ⟨⟨_, rfl, noStray_single_lock key⟩, Or.inl ⟨rfl, rfl⟩⟩

theorem acquires_KeyRLock (ctx : Context) (key : String) :
    Acquires key LockMode.shared (KeyRLock ctx key) := by
  intro s
  unfold KeyRLock
  simp only
  split
  · intro _
    exact ⟨⟨_, rfl, noStray_single_rlock key⟩, Or.inr ⟨(by intro a h; cases h), rfl⟩⟩
  · split
    · intro _
      exact ⟨⟨_, rfl, noStray_single_rlock key⟩, Or.inr ⟨(by intro a h; cases h), rfl⟩⟩
    · split
      · intro h
        exact absurd rfl h
      · intro _
        exact ⟨⟨_, rfl, noStray_single_rlock key⟩, Or.inl ⟨rfl, rfl⟩⟩

theorem acquires_CreateKeyAndLock (ctx : Context) (key : String) :
    Acquires key LockMode.exclusive (CreateKeyAndLock ctx key) := by
  intro s
  unfold CreateKeyAndLock
  split
  · intro _
    exact ⟨⟨_, rfl, noStray_single_create key⟩, Or.inl ⟨rfl, rfl⟩⟩
  · exact acquires_KeyLock ctx key s

theorem KeyUnlock_after (s s1 : Server) (H : List (String × LockMode)) (key : String)
    (suf1 : List LockEvent) (g1 : s1.held = (key, LockMode.exclusive) :: H)
    (g2 : s1.trace = s.trace ++ suf1) (g3 : noStray suf1) :
    (KeyUnlock key s1).held = H ∧
      ∃ suf, (KeyUnlock key s1).trace = s.trace ++ suf ∧ noStray suf := by
  have hmem : (key, LockMode.exclusive) ∈ s1.held := by
    rw [g1]
    exact List.mem_cons_self _ _
  refine ⟨?_, suf1 ++ [LockEvent.unlock key], ?_,
    noStray_append g3 (noStray_single_unlock key)⟩
  · simp [KeyUnlock, g1]
  · simp [KeyUnlock, hmem, g2]

theorem KeyRUnlock_after (s s1 : Server) (H : List (String × LockMode)) (key : String)
    (suf1 : List LockEvent) (g1 : s1.held = (key, LockMode.shared) :: H)
    (g2 : s1.trace = s.trace ++ suf1) (g3 : noStray suf1) :
    (KeyRUnlock key s1).held = H ∧
      ∃ suf, (KeyRUnlock key s1).trace = s.trace ++ suf ∧ noStray suf := by
  have hmem : (key, LockMode.shared) ∈ s1.held := by
    rw [g1]
    exact List.mem_cons_self _ _
  refine ⟨?_, suf1 ++ [LockEvent.runlock key], ?_,
    noStray_append g3 (noStray_single_runlock key)⟩
  · simp [KeyRUnlock, g1]
  · simp [KeyRUnlock, hmem, g2]

theorem releases_deferring_KeyUnlock {α : Type} (key : String) {body : Handler α}
    (hb : Balanced body) :
    Releases key LockMode.exclusive (deferring (KeyUnlock key) body) := by
  intro s H hs
  have h1 := hb s
  unfold deferring
  rcases hres : body s with ⟨r, s1⟩
  rw [hres] at h1
  cases r with
  | blocked => exact fun h => absurd rfl h
  | ok a =>
    intro _
    obtain ⟨g1, suf1, g2, g3⟩ := h1 (by intro h; cases h)
    exact KeyUnlock_after s s1 H key suf1 (g1.trans hs) g2 g3
  | error e =>
    intro _
    obtain ⟨g1, suf1, g2, g3⟩ := h1 (by intro h; cases h)
    exact KeyUnlock_after s s1 H key suf1 (g1.trans hs) g2 g3
  | panic e =>
    intro _
    obtain ⟨g1, suf1, g2, g3⟩ := h1 (by intro h; cases h)
    exact KeyUnlock_after s s1 H key suf1 (g1.trans hs) g2 g3

theorem releases_deferring_KeyRUnlock {α : Type} (key : String) {body : Handler α}
    (hb : Balanced body) :
    Releases key LockMode.shared (deferring (KeyRUnlock key) body) := by
  intro s H hs
  have h1 := hb s
  unfold deferring
  rcases hres : body s with ⟨r, s1⟩
  rw [hres] at h1
  cases r with
  | blocked => exact fun h => absurd rfl h
  | ok a =>
    intro _
    obtain ⟨g1, suf1, g2, g3⟩ := h1 (by intro h; cases h)
    exact KeyRUnlock_after s s1 H key suf1 (g1.trans hs) g2 g3
  | error e =>
    intro _
    obtain ⟨g1, suf1, g2, g3⟩ := h1 (by intro h; cases h)
    exact KeyRUnlock_after s s1 H key suf1 (g1.trans hs) g2 g3
  | panic e =>
    intro _
    obtain ⟨g1, suf1, g2, g3⟩ := h1 (by intro h; cases h)
    exact KeyRUnlock_after s s1 H key suf1 (g1.trans hs) g2 g3

theorem releases_bind_quietOk {α β : Type} {key : String} {mode : LockMode}
    {q : Handler α} {f : α → Handler β}
    (hq : QuietOk q) (hf : ∀ a, Releases key mode (f a)) : Releases key mode (q >>= f) := by
  intro s H hs
  obtain ⟨⟨a, ha⟩, h2, h3⟩ := hq s
  show (Handler.seq q f s).1 ≠ Result.blocked →
    (Handler.seq q f s).2.held = H ∧
      ∃ suf, (Handler.seq q f s).2.trace = s.trace ++ suf ∧ noStray suf
  unfold Handler.seq
  rcases hres : q s with ⟨r, s1⟩
  rw [hres] at ha h2 h3
  simp only at ha h2 h3
  subst ha
  intro hnb
  obtain ⟨k1, suf, k2, k3⟩ := hf a s1 H (h2.trans hs) hnb
  exact ⟨k1, suf, by rw [k2, h3], k3⟩

theorem releases_modify_KeyRUnlock {β : Type} (key : String) {f : Unit → Handler β}
    (hf : ∀ a, Balanced (f a)) :
    Releases key LockMode.shared (modifyServer (KeyRUnlock key) >>= f) := by
  intro s H hs
  show (Handler.seq (modifyServer (KeyRUnlock key)) f s).1 ≠ Result.blocked →
    (Handler.seq (modifyServer (KeyRUnlock key)) f s).2.held = H ∧
      ∃ suf, (Handler.seq (modifyServer (KeyRUnlock key)) f s).2.trace = s.trace ++ suf ∧
        noStray suf
  unfold Handler.seq modifyServer
  simp only
  intro hnb
  obtain ⟨g1, suf1, g2, g3⟩ := KeyRUnlock_after s s H key [] hs (by simp) noStray_nil
  obtain ⟨k1, suf2, k2, k3⟩ := hf () (KeyRUnlock key s) hnb
  exact ⟨k1.trans g1, suf1 ++ suf2, by rw [k2, g2, List.append_assoc],
    noStray_append g3 k3⟩

theorem llenKeyFunc_ne_blocked (cmd : List String) : llenKeyFunc cmd ≠ Result.blocked := by
  unfold llenKeyFunc
  split <;> intro h <;> cases h

theorem lindexKeyFunc_ne_blocked (cmd : List String) : lindexKeyFunc cmd ≠ Result.blocked := by
  unfold lindexKeyFunc
  split <;> intro h <;> cases h

theorem lrangeKeyFunc_ne_blocked (cmd : List String) : lrangeKeyFunc cmd ≠ Result.blocked := by
  unfold lrangeKeyFunc
  split <;> intro h <;> cases h

theorem lsetKeyFunc_ne_blocked (cmd : List String) : lsetKeyFunc cmd ≠ Result.blocked := by
  unfold lsetKeyFunc
  split <;> intro h <;> cases h

theorem ltrimKeyFunc_ne_blocked (cmd : List String) : ltrimKeyFunc cmd ≠ Result.blocked := by
  unfold ltrimKeyFunc
  split <;> intro h <;> cases h

theorem lremKeyFunc_ne_blocked (cmd : List String) : lremKeyFunc cmd ≠ Result.blocked := by
  unfold lremKeyFunc
  split <;> intro h <;> cases h

theorem lmoveKeyFunc_ne_blocked (cmd : List String) : lmoveKeyFunc cmd ≠ Result.blocked := by
  unfold lmoveKeyFunc
  split <;> intro h <;> cases h

theorem lpushKeyFunc_ne_blocked (cmd : List String) : lpushKeyFunc cmd ≠ Result.blocked := by
  unfold lpushKeyFunc
  split <;> intro h <;> cases h

theorem rpushKeyFunc_ne_blocked (cmd : List String) : rpushKeyFunc cmd ≠ Result.blocked := by
  unfold rpushKeyFunc
  split <;> intro h <;> cases h

theorem popKeyFunc_ne_blocked (cmd : List String) : popKeyFunc cmd ≠ Result.blocked := by
  unfold popKeyFunc
  split <;> intro h <;> cases h

theorem slice_ne_blocked (list : List Elem) (lo hi : Int) :
    slice list lo hi ≠ Result.blocked := by
  unfold slice
  split <;> intro h <;> cases h

theorem sliceFrom_ne_blocked (list : List Elem) (lo : Int) :
    sliceFrom list lo ≠ Result.blocked :=
  slice_ne_blocked list lo list.length

theorem lrangeToEnd_ne_blocked (env : Env) (list : List Elem) :
    ∀ (n : Nat) (i : Int) (bytes : String),
      lrangeToEnd env list n i bytes ≠ Result.blocked := by
  intro n
  induction n with
  | zero =>
    intro i bytes h
    simp [lrangeToEnd] at h
  | succ n ih =>
    intro i bytes
    simp only [lrangeToEnd]
    cases elemAt list i with
    | none =>
      intro h
      cases h
    | some x => exact ih _ _

theorem lrangeScan_ne_blocked (env : Env) (list : List Elem) (start end_ j : Int) :
    ∀ (n : Nat) (i : Int) (bytes : String),
      (if start < end_ then (list.length : Int) - i else i + 1).toNat = n →
      lrangeScan env list start end_ j i bytes ≠ Result.blocked := by
  intro n
  induction n using Nat.strong_induction_on with
  | _ n ih =>
    intro i bytes hn
    rw [lrangeScan]
    by_cases hij : i = j
    · simp [hij]
    · by_cases hr : 0 ≤ i ∧ i < list.length
      · simp only [hij, if_false, hr, and_self, if_true]
        cases hx : elemAt list i with
        | none =>
          intro h
          cases h
        | some x =>
          simp only
          refine ih _ ?_ _ _ rfl
          rw [← hn]
          split <;> omega
      · simp only [hij, if_false, hr, if_false]
        intro h
        cases h

theorem lremFromHead_ne_blocked (env : Env) (value : String) :
    ∀ (n i : Nat) (list : List (Option Elem)) (c : Int),
      lremFromHead env value n i list c ≠ Result.blocked := by
  intro n
  induction n with
  | zero =>
    intro i list c h
    simp [lremFromHead] at h
  | succ n ih =>
    intro i list c
    simp only [lremFromHead]
    split
    · intro h
      cases h
    · cases list[i]? with
      | none =>
        intro h
        cases h
      | some x =>
        simp only
        split
        · exact ih _ _ _
        · exact ih _ _ _

theorem lremFromTail_ne_blocked (env : Env) (value : String) :
    ∀ (n : Nat) (list : List (Option Elem)) (c : Int),
      lremFromTail env value n list c ≠ Result.blocked := by
  intro n
  induction n with
  | zero =>
    intro list c h
    simp [lremFromTail] at h
  | succ n ih =>
    intro list c
    simp only [lremFromTail]
    split
    · intro h
      cases h
    · cases list[n]? with
      | none =>
        intro h
        cases h
      | some x =>
        simp only
        split
        · exact ih _ _
        · exact ih _ _

theorem balanced_handleLLen (ctx : Context) (cmd : List String) :
    Balanced (handleLLen ctx cmd) := by
  simp only [handleLLen]
  repeat' with_reducible first
    | exact balanced_fail_bind _ _
    | (refine balanced_of_quiet ?_
       repeat' first
         | exact quiet_pure _ | exact quiet_fail _ | exact quiet_abort _ | exact quiet_index _ _
         | exact quiet_KeyExists _ | exact quiet_GetValue _ | exact quiet_SetValue _ _
         | exact quiet_lift (llenKeyFunc_ne_blocked _) | exact quiet_lift (lindexKeyFunc_ne_blocked _)
         | exact quiet_lift (lrangeKeyFunc_ne_blocked _) | exact quiet_lift (lsetKeyFunc_ne_blocked _)
         | exact quiet_lift (ltrimKeyFunc_ne_blocked _) | exact quiet_lift (lremKeyFunc_ne_blocked _)
         | exact quiet_lift (lmoveKeyFunc_ne_blocked _) | exact quiet_lift (lpushKeyFunc_ne_blocked _)
         | exact quiet_lift (rpushKeyFunc_ne_blocked _) | exact quiet_lift (popKeyFunc_ne_blocked _)
         | exact quiet_lift (slice_ne_blocked _ _ _) | exact quiet_lift (sliceFrom_ne_blocked _ _)
         | exact quiet_lift (lrangeToEnd_ne_blocked _ _ _ _ _)
         | exact quiet_lift (lrangeScan_ne_blocked _ _ _ _ _ _ _ _ rfl)
         | exact quiet_lift (lremFromHead_ne_blocked _ _ _ _ _ _)
         | exact quiet_lift (lremFromTail_ne_blocked _ _ _ _ _)
         | refine quiet_bind ?_ (fun _ => ?_)
         | split
       done)
    | refine balanced_acquire (acquires_KeyLock _ _) (fun _ => ?_)
    | refine balanced_acquire (acquires_KeyRLock _ _) (fun _ => ?_)
    | refine balanced_acquire (acquires_CreateKeyAndLock _ _) (fun _ => ?_)
    | apply releases_deferring_KeyUnlock
    | apply releases_deferring_KeyRUnlock
    | refine releases_bind_quietOk (quietOk_GetValue _) (fun _ => ?_)
    | refine releases_bind_quietOk (quietOk_SetValue _ _) (fun _ => ?_)
    | refine releases_modify_KeyRUnlock _ (fun _ => ?_)
    | refine balanced_bind ?_ (fun _ => ?_)
    | split

theorem balanced_handleLIndex (env : Env) (ctx : Context) (cmd : List String) :
    Balanced (handleLIndex env ctx cmd) := by
  simp only [handleLIndex]
  repeat' with_reducible first
    | exact balanced_fail_bind _ _
    | (refine balanced_of_quiet ?_
       repeat' first
         | exact quiet_pure _ | exact quiet_fail _ | exact quiet_abort _ | exact quiet_index _ _
         | exact quiet_KeyExists _ | exact quiet_GetValue _ | exact quiet_SetValue _ _
         | exact quiet_lift (llenKeyFunc_ne_blocked _) | exact quiet_lift (lindexKeyFunc_ne_blocked _)
         | exact quiet_lift (lrangeKeyFunc_ne_blocked _) | exact quiet_lift (lsetKeyFunc_ne_blocked _)
         | exact quiet_lift (ltrimKeyFunc_ne_blocked _) | exact quiet_lift (lremKeyFunc_ne_blocked _)
         | exact quiet_lift (lmoveKeyFunc_ne_blocked _) | exact quiet_lift (lpushKeyFunc_ne_blocked _)
         | exact quiet_lift (rpushKeyFunc_ne_blocked _) | exact quiet_lift (popKeyFunc_ne_blocked _)
         | exact quiet_lift (slice_ne_blocked _ _ _) | exact quiet_lift (sliceFrom_ne_blocked _ _)
         | exact quiet_lift (lrangeToEnd_ne_blocked _ _ _ _ _)
         | exact quiet_lift (lrangeScan_ne_blocked _ _ _ _ _ _ _ _ rfl)
         | exact quiet_lift (lremFromHead_ne_blocked _ _ _ _ _ _)
         | exact quiet_lift (lremFromTail_ne_blocked _ _ _ _ _)
         | refine quiet_bind ?_ (fun _ => ?_)
         | split
       done)
    | refine balanced_acquire (acquires_KeyLock _ _) (fun _ => ?_)
    | refine balanced_acquire (acquires_KeyRLock _ _) (fun _ => ?_)
    | refine balanced_acquire (acquires_CreateKeyAndLock _ _) (fun _ => ?_)
    | apply releases_deferring_KeyUnlock
    | apply releases_deferring_KeyRUnlock
    | refine releases_bind_quietOk (quietOk_GetValue _) (fun _ => ?_)
    | refine releases_bind_quietOk (quietOk_SetValue _ _) (fun _ => ?_)
    | refine releases_modify_KeyRUnlock _ (fun _ => ?_)
    | refine balanced_bind ?_ (fun _ => ?_)
    | split

theorem balanced_handleLRange (env : Env) (ctx : Context) (cmd : List String) :
    Balanced (handleLRange env ctx cmd) := by
  simp only [handleLRange]
  repeat' with_reducible first
    | exact balanced_fail_bind _ _
    | (refine balanced_of_quiet ?_
       repeat' first
         | exact quiet_pure _ | exact quiet_fail _ | exact quiet_abort _ | exact quiet_index _ _
         | exact quiet_KeyExists _ | exact quiet_GetValue _ | exact quiet_SetValue _ _
         | exact quiet_lift (llenKeyFunc_ne_blocked _) | exact quiet_lift (lindexKeyFunc_ne_blocked _)
         | exact quiet_lift (lrangeKeyFunc_ne_blocked _) | exact quiet_lift (lsetKeyFunc_ne_blocked _)
         | exact quiet_lift (ltrimKeyFunc_ne_blocked _) | exact quiet_lift (lremKeyFunc_ne_blocked _)
         | exact quiet_lift (lmoveKeyFunc_ne_blocked _) | exact quiet_lift (lpushKeyFunc_ne_blocked _)
         | exact quiet_lift (rpushKeyFunc_ne_blocked _) | exact quiet_lift (popKeyFunc_ne_blocked _)
         | exact quiet_lift (slice_ne_blocked _ _ _) | exact quiet_lift (sliceFrom_ne_blocked _ _)
         | exact quiet_lift (lrangeToEnd_ne_blocked _ _ _ _ _)
         | exact quiet_lift (lrangeScan_ne_blocked _ _ _ _ _ _ _ _ rfl)
         | exact quiet_lift (lremFromHead_ne_blocked _ _ _ _ _ _)
         | exact quiet_lift (lremFromTail_ne_blocked _ _ _ _ _)
         | refine quiet_bind ?_ (fun _ => ?_)
         | split
       done)
    | refine balanced_acquire (acquires_KeyLock _ _) (fun _ => ?_)
    | refine balanced_acquire (acquires_KeyRLock _ _) (fun _ => ?_)
    | refine balanced_acquire (acquires_CreateKeyAndLock _ _) (fun _ => ?_)
    | apply releases_deferring_KeyUnlock
    | apply releases_deferring_KeyRUnlock
    | refine releases_bind_quietOk (quietOk_GetValue _) (fun _ => ?_)
    | refine releases_bind_quietOk (quietOk_SetValue _ _) (fun _ => ?_)
    | refine releases_modify_KeyRUnlock _ (fun _ => ?_)
    | refine balanced_bind ?_ (fun _ => ?_)
    | split

theorem balanced_handleLSet (env : Env) (ctx : Context) (cmd : List String) :
    Balanced (handleLSet env ctx cmd) := by
  simp only [handleLSet]
  repeat' with_reducible first
    | exact balanced_fail_bind _ _
    | (refine balanced_of_quiet ?_
       repeat' first
         | exact quiet_pure _ | exact quiet_fail _ | exact quiet_abort _ | exact quiet_index _ _
         | exact quiet_KeyExists _ | exact quiet_GetValue _ | exact quiet_SetValue _ _
         | exact quiet_lift (llenKeyFunc_ne_blocked _) | exact quiet_lift (lindexKeyFunc_ne_blocked _)
         | exact quiet_lift (lrangeKeyFunc_ne_blocked _) | exact quiet_lift (lsetKeyFunc_ne_blocked _)
         | exact quiet_lift (ltrimKeyFunc_ne_blocked _) | exact quiet_lift (lremKeyFunc_ne_blocked _)
         | exact quiet_lift (lmoveKeyFunc_ne_blocked _) | exact quiet_lift (lpushKeyFunc_ne_blocked _)
         | exact quiet_lift (rpushKeyFunc_ne_blocked _) | exact quiet_lift (popKeyFunc_ne_blocked _)
         | exact quiet_lift (slice_ne_blocked _ _ _) | exact quiet_lift (sliceFrom_ne_blocked _ _)
         | exact quiet_lift (lrangeToEnd_ne_blocked _ _ _ _ _)
         | exact quiet_lift (lrangeScan_ne_blocked _ _ _ _ _ _ _ _ rfl)
         | exact quiet_lift (lremFromHead_ne_blocked _ _ _ _ _ _)
         | exact quiet_lift (lremFromTail_ne_blocked _ _ _ _ _)
         | refine quiet_bind ?_ (fun _ => ?_)
         | split
       done)
    | refine balanced_acquire (acquires_KeyLock _ _) (fun _ => ?_)
    | refine balanced_acquire (acquires_KeyRLock _ _) (fun _ => ?_)
    | refine balanced_acquire (acquires_CreateKeyAndLock _ _) (fun _ => ?_)
    | apply releases_deferring_KeyUnlock
    | apply releases_deferring_KeyRUnlock
    | refine releases_bind_quietOk (quietOk_GetValue _) (fun _ => ?_)
    | refine releases_bind_quietOk (quietOk_SetValue _ _) (fun _ => ?_)
    | refine releases_modify_KeyRUnlock _ (fun _ => ?_)
    | refine balanced_bind ?_ (fun _ => ?_)
    | split

theorem balanced_handleLTrim (env : Env) (ctx : Context) (cmd : List String) :
    Balanced (handleLTrim env ctx cmd) := by
  simp only [handleLTrim]
  repeat' with_reducible first
    | exact balanced_fail_bind _ _
    | (refine balanced_of_quiet ?_
       repeat' first
         | exact quiet_pure _ | exact quiet_fail _ | exact quiet_abort _ | exact quiet_index _ _
         | exact quiet_KeyExists _ | exact quiet_GetValue _ | exact quiet_SetValue _ _
         | exact quiet_lift (llenKeyFunc_ne_blocked _) | exact quiet_lift (lindexKeyFunc_ne_blocked _)
         | exact quiet_lift (lrangeKeyFunc_ne_blocked _) | exact quiet_lift (lsetKeyFunc_ne_blocked _)
         | exact quiet_lift (ltrimKeyFunc_ne_blocked _) | exact quiet_lift (lremKeyFunc_ne_blocked _)
         | exact quiet_lift (lmoveKeyFunc_ne_blocked _) | exact quiet_lift (lpushKeyFunc_ne_blocked _)
         | exact quiet_lift (rpushKeyFunc_ne_blocked _) | exact quiet_lift (popKeyFunc_ne_blocked _)
         | exact quiet_lift (slice_ne_blocked _ _ _) | exact quiet_lift (sliceFrom_ne_blocked _ _)
         | exact quiet_lift (lrangeToEnd_ne_blocked _ _ _ _ _)
         | exact quiet_lift (lrangeScan_ne_blocked _ _ _ _ _ _ _ _ rfl)
         | exact quiet_lift (lremFromHead_ne_blocked _ _ _ _ _ _)
         | exact quiet_lift (lremFromTail_ne_blocked _ _ _ _ _)
         | refine quiet_bind ?_ (fun _ => ?_)
         | split
       done)
    | refine balanced_acquire (acquires_KeyLock _ _) (fun _ => ?_)
    | refine balanced_acquire (acquires_KeyRLock _ _) (fun _ => ?_)
    | refine balanced_acquire (acquires_CreateKeyAndLock _ _) (fun _ => ?_)
    | apply releases_deferring_KeyUnlock
    | apply releases_deferring_KeyRUnlock
    | refine releases_bind_quietOk (quietOk_GetValue _) (fun _ => ?_)
    | refine releases_bind_quietOk (quietOk_SetValue _ _) (fun _ => ?_)
    | refine releases_modify_KeyRUnlock _ (fun _ => ?_)
    | refine balanced_bind ?_ (fun _ => ?_)
    | split

theorem balanced_handleLRem (env : Env) (ctx : Context) (cmd : List String) :
    Balanced (handleLRem env ctx cmd) := by
  simp only [handleLRem]
  repeat' with_reducible first
    | exact balanced_fail_bind _ _
    | (refine balanced_of_quiet ?_
       repeat' first
         | exact quiet_pure _ | exact quiet_fail _ | exact quiet_abort _ | exact quiet_index _ _
         | exact quiet_KeyExists _ | exact quiet_GetValue _ | exact quiet_SetValue _ _
         | exact quiet_lift (llenKeyFunc_ne_blocked _) | exact quiet_lift (lindexKeyFunc_ne_blocked _)
         | exact quiet_lift (lrangeKeyFunc_ne_blocked _) | exact quiet_lift (lsetKeyFunc_ne_blocked _)
         | exact quiet_lift (ltrimKeyFunc_ne_blocked _) | exact quiet_lift (lremKeyFunc_ne_blocked _)
         | exact quiet_lift (lmoveKeyFunc_ne_blocked _) | exact quiet_lift (lpushKeyFunc_ne_blocked _)
         | exact quiet_lift (rpushKeyFunc_ne_blocked _) | exact quiet_lift (popKeyFunc_ne_blocked _)
         | exact quiet_lift (slice_ne_blocked _ _ _) | exact quiet_lift (sliceFrom_ne_blocked _ _)
         | exact quiet_lift (lrangeToEnd_ne_blocked _ _ _ _ _)
         | exact quiet_lift (lrangeScan_ne_blocked _ _ _ _ _ _ _ _ rfl)
         | exact quiet_lift (lremFromHead_ne_blocked _ _ _ _ _ _)
         | exact quiet_lift (lremFromTail_ne_blocked _ _ _ _ _)
         | refine quiet_bind ?_ (fun _ => ?_)
         | split
       done)
    | refine balanced_acquire (acquires_KeyLock _ _) (fun _ => ?_)
    | refine balanced_acquire (acquires_KeyRLock _ _) (fun _ => ?_)
    | refine balanced_acquire (acquires_CreateKeyAndLock _ _) (fun _ => ?_)
    | apply releases_deferring_KeyUnlock
    | apply releases_deferring_KeyRUnlock
    | refine releases_bind_quietOk (quietOk_GetValue _) (fun _ => ?_)
    | refine releases_bind_quietOk (quietOk_SetValue _ _) (fun _ => ?_)
    | refine releases_modify_KeyRUnlock _ (fun _ => ?_)
    | refine balanced_bind ?_ (fun _ => ?_)
    | split

theorem balanced_handleLPush (env : Env) (ctx : Context) (cmd : List String) :
    Balanced (handleLPush env ctx cmd) := by
  simp only [handleLPush]
  repeat' with_reducible first
    | exact balanced_fail_bind _ _
    | (refine balanced_of_quiet ?_
       repeat' first
         | exact quiet_pure _ | exact quiet_fail _ | exact quiet_abort _ | exact quiet_index _ _
         | exact quiet_KeyExists _ | exact quiet_GetValue _ | exact quiet_SetValue _ _
         | exact quiet_lift (llenKeyFunc_ne_blocked _) | exact quiet_lift (lindexKeyFunc_ne_blocked _)
         | exact quiet_lift (lrangeKeyFunc_ne_blocked _) | exact quiet_lift (lsetKeyFunc_ne_blocked _)
         | exact quiet_lift (ltrimKeyFunc_ne_blocked _) | exact quiet_lift (lremKeyFunc_ne_blocked _)
         | exact quiet_lift (lmoveKeyFunc_ne_blocked _) | exact quiet_lift (lpushKeyFunc_ne_blocked _)
         | exact quiet_lift (rpushKeyFunc_ne_blocked _) | exact quiet_lift (popKeyFunc_ne_blocked _)
         | exact quiet_lift (slice_ne_blocked _ _ _) | exact quiet_lift (sliceFrom_ne_blocked _ _)
         | exact quiet_lift (lrangeToEnd_ne_blocked _ _ _ _ _)
         | exact quiet_lift (lrangeScan_ne_blocked _ _ _ _ _ _ _ _ rfl)
         | exact quiet_lift (lremFromHead_ne_blocked _ _ _ _ _ _)
         | exact quiet_lift (lremFromTail_ne_blocked _ _ _ _ _)
         | refine quiet_bind ?_ (fun _ => ?_)
         | split
       done)
    | refine balanced_acquire (acquires_KeyLock _ _) (fun _ => ?_)
    | refine balanced_acquire (acquires_KeyRLock _ _) (fun _ => ?_)
    | refine balanced_acquire (acquires_CreateKeyAndLock _ _) (fun _ => ?_)
    | apply releases_deferring_KeyUnlock
    | apply releases_deferring_KeyRUnlock
    | refine releases_bind_quietOk (quietOk_GetValue _) (fun _ => ?_)
    | refine releases_bind_quietOk (quietOk_SetValue _ _) (fun _ => ?_)
    | refine releases_modify_KeyRUnlock _ (fun _ => ?_)
    | refine balanced_bind ?_ (fun _ => ?_)
    | split

theorem balanced_handleRPush (env : Env) (ctx : Context) (cmd : List String) :
    Balanced (handleRPush env ctx cmd) := by
  simp only [handleRPush]
  repeat' with_reducible first
    | exact balanced_fail_bind _ _
    | (refine balanced_of_quiet ?_
       repeat' first
         | exact quiet_pure _ | exact quiet_fail _ | exact quiet_abort _ | exact quiet_index _ _
         | exact quiet_KeyExists _ | exact quiet_GetValue _ | exact quiet_SetValue _ _
         | exact quiet_lift (llenKeyFunc_ne_blocked _) | exact quiet_lift (lindexKeyFunc_ne_blocked _)
         | exact quiet_lift (lrangeKeyFunc_ne_blocked _) | exact quiet_lift (lsetKeyFunc_ne_blocked _)
         | exact quiet_lift (ltrimKeyFunc_ne_blocked _) | exact quiet_lift (lremKeyFunc_ne_blocked _)
         | exact quiet_lift (lmoveKeyFunc_ne_blocked _) | exact quiet_lift (lpushKeyFunc_ne_blocked _)
         | exact quiet_lift (rpushKeyFunc_ne_blocked _) | exact quiet_lift (popKeyFunc_ne_blocked _)
         | exact quiet_lift (slice_ne_blocked _ _ _) | exact quiet_lift (sliceFrom_ne_blocked _ _)
         | exact quiet_lift (lrangeToEnd_ne_blocked _ _ _ _ _)
         | exact quiet_lift (lrangeScan_ne_blocked _ _ _ _ _ _ _ _ rfl)
         | exact quiet_lift (lremFromHead_ne_blocked _ _ _ _ _ _)
         | exact quiet_lift (lremFromTail_ne_blocked _ _ _ _ _)
         | refine quiet_bind ?_ (fun _ => ?_)
         | split
       done)
    | refine balanced_acquire (acquires_KeyLock _ _) (fun _ => ?_)
    | refine balanced_acquire (acquires_KeyRLock _ _) (fun _ => ?_)
    | refine balanced_acquire (acquires_CreateKeyAndLock _ _) (fun _ => ?_)
    | apply releases_deferring_KeyUnlock
    | apply releases_deferring_KeyRUnlock
    | refine releases_bind_quietOk (quietOk_GetValue _) (fun _ => ?_)
    | refine releases_bind_quietOk (quietOk_SetValue _ _) (fun _ => ?_)
    | refine releases_modify_KeyRUnlock _ (fun _ => ?_)
    | refine balanced_bind ?_ (fun _ => ?_)
    | split

theorem balanced_handlePop (env : Env) (ctx : Context) (cmd : List String) :
    Balanced (handlePop env ctx cmd) := by
  simp only [handlePop]
  repeat' with_reducible first
    | exact balanced_fail_bind _ _
    | (refine balanced_of_quiet ?_
       repeat' first
         | exact quiet_pure _ | exact quiet_fail _ | exact quiet_abort _ | exact quiet_index _ _
         | exact quiet_KeyExists _ | exact quiet_GetValue _ | exact quiet_SetValue _ _
         | exact quiet_lift (llenKeyFunc_ne_blocked _) | exact quiet_lift (lindexKeyFunc_ne_blocked _)
         | exact quiet_lift (lrangeKeyFunc_ne_blocked _) | exact quiet_lift (lsetKeyFunc_ne_blocked _)
         | exact quiet_lift (ltrimKeyFunc_ne_blocked _) | exact quiet_lift (lremKeyFunc_ne_blocked _)
         | exact quiet_lift (lmoveKeyFunc_ne_blocked _) | exact quiet_lift (lpushKeyFunc_ne_blocked _)
         | exact quiet_lift (rpushKeyFunc_ne_blocked _) | exact quiet_lift (popKeyFunc_ne_blocked _)
         | exact quiet_lift (slice_ne_blocked _ _ _) | exact quiet_lift (sliceFrom_ne_blocked _ _)
         | exact quiet_lift (lrangeToEnd_ne_blocked _ _ _ _ _)
         | exact quiet_lift (lrangeScan_ne_blocked _ _ _ _ _ _ _ _ rfl)
         | exact quiet_lift (lremFromHead_ne_blocked _ _ _ _ _ _)
         | exact quiet_lift (lremFromTail_ne_blocked _ _ _ _ _)
         | refine quiet_bind ?_ (fun _ => ?_)
         | split
       done)
    | refine balanced_acquire (acquires_KeyLock _ _) (fun _ => ?_)
    | refine balanced_acquire (acquires_KeyRLock _ _) (fun _ => ?_)
    | refine balanced_acquire (acquires_CreateKeyAndLock _ _) (fun _ => ?_)
    | apply releases_deferring_KeyUnlock
    | apply releases_deferring_KeyRUnlock
    | refine releases_bind_quietOk (quietOk_GetValue _) (fun _ => ?_)
    | refine releases_bind_quietOk (quietOk_SetValue _ _) (fun _ => ?_)
    | refine releases_modify_KeyRUnlock _ (fun _ => ?_)
    | refine balanced_bind ?_ (fun _ => ?_)
    | split

theorem balanced_handleLMove (env : Env) (ctx : Context) (cmd : List String) :
    Balanced (handleLMove env ctx cmd) := by
  simp only [handleLMove]
  refine balanced_bind (balanced_of_quiet (quiet_lift (lmoveKeyFunc_ne_blocked _))) (fun _ => ?_)
  refine balanced_bind (balanced_of_quiet (quiet_index _ _)) (fun _ => ?_)
  refine balanced_bind (balanced_of_quiet (quiet_index _ _)) (fun _ => ?_)
  refine balanced_bind (balanced_of_quiet (quiet_index _ _)) (fun _ => ?_)
  refine balanced_bind (balanced_of_quiet (quiet_index _ _)) (fun _ => ?_)
  split
  · exact balanced_of_quiet (quiet_fail _)
  refine balanced_bind (balanced_of_quiet (quiet_KeyExists _)) (fun _ => ?_)
  refine balanced_bind (balanced_of_quiet (quiet_KeyExists _)) (fun _ => ?_)
  split
  · exact balanced_of_quiet (quiet_fail _)
  refine balanced_acquire (acquires_KeyLock _ _) (fun _ => ?_)
  apply releases_deferring_KeyUnlock
  refine balanced_acquire (acquires_KeyLock _ _) (fun _ => ?_)
  apply releases_deferring_KeyUnlock
  refine balanced_of_quiet ?_
  repeat' with_reducible first
    | exact quiet_pure _ | exact quiet_fail _ | exact quiet_abort _ | exact quiet_index _ _
    | exact quiet_KeyExists _ | exact quiet_GetValue _ | exact quiet_SetValue _ _
    | exact quiet_lift (llenKeyFunc_ne_blocked _) | exact quiet_lift (lindexKeyFunc_ne_blocked _)
    | exact quiet_lift (lrangeKeyFunc_ne_blocked _) | exact quiet_lift (lsetKeyFunc_ne_blocked _)
    | exact quiet_lift (ltrimKeyFunc_ne_blocked _) | exact quiet_lift (lremKeyFunc_ne_blocked _)
    | exact quiet_lift (lmoveKeyFunc_ne_blocked _) | exact quiet_lift (lpushKeyFunc_ne_blocked _)
    | exact quiet_lift (rpushKeyFunc_ne_blocked _) | exact quiet_lift (popKeyFunc_ne_blocked _)
    | exact quiet_lift (slice_ne_blocked _ _ _) | exact quiet_lift (sliceFrom_ne_blocked _ _)
    | exact quiet_lift (lrangeToEnd_ne_blocked _ _ _ _ _)
    | exact quiet_lift (lrangeScan_ne_blocked _ _ _ _ _ _ _ _ rfl)
    | exact quiet_lift (lremFromHead_ne_blocked _ _ _ _ _ _)
    | exact quiet_lift (lremFromTail_ne_blocked _ _ _ _ _)
    | refine quiet_bind ?_ (fun _ => ?_)
    | split

/-- C16: for every command of the table, every environment, context, command line and
server state: whenever the handler returns (with a response, an error or a panic), the
locks held afterwards are exactly those held before the call, so each lock it acquired
has been released once, and none of its locking calls released a lock that was not
held. -/
theorem handlers_release_locks (env : Env) (ctx : Context) (c : Command)
    (hc : c ∈ Commands) (cmd : List String) (server : Server)
    (hret : (c.HandlerFunc env ctx cmd server).1 ≠ Result.blocked) :
    (c.HandlerFunc env ctx cmd server).2.held = server.held ∧
    ∃ suf, (c.HandlerFunc env ctx cmd server).2.trace = server.trace ++ suf ∧ noStray suf := by
  simp only [Commands, List.mem_cons, List.mem_singleton, List.not_mem_nil, or_false] at hc
  rcases hc with h | h | h | h | h | h | h | h | h | h | h | h | h <;> subst h
  · exact balanced_handleLPush env ctx cmd server hret
  · exact balanced_handleLPush env ctx cmd server hret
  · exact balanced_handlePop env ctx cmd server hret
  · exact balanced_handleLLen ctx cmd server hret
  · exact balanced_handleLRange env ctx cmd server hret
  · exact balanced_handleLIndex env ctx cmd server hret
  · exact balanced_handleLSet env ctx cmd server hret
  · exact balanced_handleLTrim env ctx cmd server hret
  · exact balanced_handleLRem env ctx cmd server hret
  · exact balanced_handleLMove env ctx cmd server hret
  · exact balanced_handlePop env ctx cmd server hret
  · exact balanced_handleRPush env ctx cmd server hret
  · exact balanced_handleRPush env ctx cmd server hret

/-- Witness of C16: `lindex K 9` on `K = [a]` returns an error after taking the shared
lock of `K`, and holds no lock afterwards. -/
theorem handlers_release_locks_witness :
    (handleLIndex sampleEnv liveCtx ["lindex", "K", "9"]
        { store := storeOf [("K", Value.list [Elem.str "a"])] }).1 ≠ Result.blocked ∧
    (handleLIndex sampleEnv liveCtx ["lindex", "K", "9"]
        { store := storeOf [("K", Value.list [Elem.str "a"])] }).2.held = [] ∧
    ∃ suf, (handleLIndex sampleEnv liveCtx ["lindex", "K", "9"]
        { store := storeOf [("K", Value.list [Elem.str "a"])] }).2.trace = [] ++ suf ∧
      noStray suf :=
  ⟨by decide,
   handlers_release_locks sampleEnv liveCtx
    { Command := "lindex",
      Description := "(LINDEX key index) Gets list element by index.",
      Sync := false, KeyExtractionFunc := lindexKeyFunc, HandlerFunc := handleLIndex }
    (by simp [Commands]) ["lindex", "K", "9"]
    { store := storeOf [("K", Value.list [Elem.str "a"])] } (by decide)⟩

/-! ## Lock order of LMOVE -/

theorem lift_ok_bind {α β : Type} (a : α) (f : α → Handler β) :
    (lift (Result.ok a) >>= f) = f a := rfl

theorem pure_bind_handler {α β : Type} (a : α) (f : α → Handler β) :
    ((pure a : Handler α) >>= f) = f a := rfl

theorem KeyExists_bind {β : Type} (key : String) (f : Bool → Handler β) (s : Server) :
    (KeyExists key >>= f) s = f (s.store key).isSome s := rfl

theorem lock_pair_trace {β : Type} (ctx : Context) (src dst : String) (body : Handler β)
    (hq : Quiet body) (s : Server) (hne : src ≠ dst)
    (hs : s.store src ≠ none) (hd : s.store dst ≠ none)
    (hctx : ctx.cancelled = false)
    (hfs : s.locksOn src = []) (hfd : s.locksOn dst = []) :
    ((KeyLock ctx src >>= fun _ => deferring (KeyUnlock src)
        (KeyLock ctx dst >>= fun _ => deferring (KeyUnlock dst) body)) s).2.trace
      = s.trace ++ [LockEvent.lock src, LockEvent.lock dst, LockEvent.unlock dst,
          LockEvent.unlock src] := by
  have hfs2 : List.filter (fun p => decide (p.1 = src)) s.held = [] := by
    simpa [Server.locksOn] using hfs
  have hfd2 : List.filter (fun p => decide (p.1 = dst)) s.held = [] := by
    simpa [Server.locksOn] using hfd
  obtain ⟨h1, h2, h3⟩ := hq
    { store := s.store,
      held := (dst, LockMode.exclusive) :: (src, LockMode.exclusive) :: s.held,
      trace := s.trace ++ [LockEvent.lock src, LockEvent.lock dst] }
  show (Handler.seq (KeyLock ctx src) (fun _ => deferring (KeyUnlock src)
        (Handler.seq (KeyLock ctx dst) (fun _ => deferring (KeyUnlock dst) body))) s).2.trace = _
  rcases hres : body
    { store := s.store,
      held := (dst, LockMode.exclusive) :: (src, LockMode.exclusive) :: s.held,
      trace := s.trace ++ [LockEvent.lock src, LockEvent.lock dst] } with ⟨r, s3⟩
  rw [hres] at h1 h2 h3
  simp only at h1 h2 h3
  cases r <;>
  simp [Handler.seq, KeyLock, deferring, KeyUnlock, hs, hd, hctx, Server.locksOn,
    List.filter_cons, hne, hne.symm, hfs2, hfd2, hres, h2, h3] at h1 ⊢

/-- C17, as the code behaves: for two distinct keys that are present, with valid
directions, a live context and both locks free, `handleLMove` requests the exclusive
lock of the source first and then, holding it, the lock of the destination, in the
order of its arguments and whatever the order of the two keys; it releases them in the
reverse order. -/
theorem handleLMove_lock_order (env : Env) (ctx : Context) (server : Server)
    (name src dst wf wt : String) (hne : src ≠ dst)
    (hwf : env.ToLower wf = "left" ∨ env.ToLower wf = "right")
    (hwt : env.ToLower wt = "left" ∨ env.ToLower wt = "right")
    (hs : server.store src ≠ none) (hd : server.store dst ≠ none)
    (hctx : ctx.cancelled = false)
    (hfs : server.locksOn src = []) (hfd : server.locksOn dst = []) :
    (handleLMove env ctx [name, src, dst, wf, wt] server).2.trace
      = server.trace ++ [LockEvent.lock src, LockEvent.lock dst, LockEvent.unlock dst,
          LockEvent.unlock src] := by
  have hdir : ¬ (¬ (env.ToLower wf ∈ ["left", "right"]) ∨
      ¬ (env.ToLower wt ∈ ["left", "right"])) := by
    simp only [List.mem_cons, List.mem_singleton, List.not_mem_nil, or_false]
    tauto
  have hk : lmoveKeyFunc [name, src, dst, wf, wt] = Result.ok [src, dst] := rfl
  have h0 : index [src, dst] 0 = (pure src : Handler String) := rfl
  have h1 : index [src, dst] 1 = (pure dst : Handler String) := rfl
  have h3 : index [name, src, dst, wf, wt] 3 = (pure wf : Handler String) := rfl
  have h4 : index [name, src, dst, wf, wt] 4 = (pure wt : Handler String) := rfl
  have hex : ¬ ((!(server.store src).isSome || !(server.store dst).isSome) = true) := by
    simp [Option.isSome_iff_ne_none, hs, hd]
  simp only [handleLMove, hk, lift_ok_bind, h0, h1, h3, h4, pure_bind_handler, if_neg hdir]
  rw [KeyExists_bind, KeyExists_bind, if_neg hex]
  refine lock_pair_trace ctx src dst _ ?_ server hne hs hd hctx hfs hfd
  repeat' with_reducible first
    | exact quiet_pure _ | exact quiet_fail _ | exact quiet_abort _ | exact quiet_index _ _
    | exact quiet_KeyExists _ | exact quiet_GetValue _ | exact quiet_SetValue _ _
    | exact quiet_lift (llenKeyFunc_ne_blocked _) | exact quiet_lift (lindexKeyFunc_ne_blocked _)
    | exact quiet_lift (lrangeKeyFunc_ne_blocked _) | exact quiet_lift (lsetKeyFunc_ne_blocked _)
    | exact quiet_lift (ltrimKeyFunc_ne_blocked _) | exact quiet_lift (lremKeyFunc_ne_blocked _)
    | exact quiet_lift (lmoveKeyFunc_ne_blocked _) | exact quiet_lift (lpushKeyFunc_ne_blocked _)
    | exact quiet_lift (rpushKeyFunc_ne_blocked _) | exact quiet_lift (popKeyFunc_ne_blocked _)
    | exact quiet_lift (slice_ne_blocked _ _ _) | exact quiet_lift (sliceFrom_ne_blocked _ _)
    | exact quiet_lift (lrangeToEnd_ne_blocked _ _ _ _ _)
    | exact quiet_lift (lrangeScan_ne_blocked _ _ _ _ _ _ _ _ rfl)
    | exact quiet_lift (lremFromHead_ne_blocked _ _ _ _ _ _)
    | exact quiet_lift (lremFromTail_ne_blocked _ _ _ _ _)
    | refine quiet_bind ?_ (fun _ => ?_)
    | split

/-- Witness of the amended C17: `lmove b a left left` locks `b`, then `a`. -/
theorem handleLMove_lock_order_witness :
    (handleLMove sampleEnv liveCtx ["lmove", "b", "a", "left", "left"]
        { store := storeOf [("a", Value.list [Elem.int 1]), ("b", Value.list [Elem.int 2])] }
      ).2.trace
      = [LockEvent.lock "b", LockEvent.lock "a", LockEvent.unlock "a", LockEvent.unlock "b"] :=
  handleLMove_lock_order sampleEnv liveCtx
    { store := storeOf [("a", Value.list [Elem.int 1]), ("b", Value.list [Elem.int 2])] }
    "lmove" "b" "a" "left" "left" (by decide) (by decide) (by decide) (by decide) (by decide)
    (by decide) (by decide) (by decide)

/-- Counterexample to C17 as stated: `lmove b a left left` succeeds having requested
the lock of `b` and then, while holding it, the lock of the smaller key `a`; and
`lmove a a left left` requests the lock of `a` twice and waits on the second
request. -/
theorem handleLMove_not_in_key_order :
    (handleLMove sampleEnv liveCtx ["lmove", "b", "a", "left", "left"]
        { store := storeOf [("a", Value.list [Elem.int 1]), ("b", Value.list [Elem.int 2])] }
      ).1 = Result.ok OK_RESPONSE ∧
    keyLt "a" "b" ∧
    requestsInKeyOrder []
      (handleLMove sampleEnv liveCtx ["lmove", "b", "a", "left", "left"]
        { store := storeOf [("a", Value.list [Elem.int 1]), ("b", Value.list [Elem.int 2])] }
      ).2.trace = false ∧
    (handleLMove sampleEnv liveCtx ["lmove", "a", "a", "left", "left"]
        { store := storeOf [("a", Value.list [Elem.int 1])] }).2.trace
      = [LockEvent.lock "a", LockEvent.lock "a"] ∧
    (handleLMove sampleEnv liveCtx ["lmove", "a", "a", "left", "left"]
        { store := storeOf [("a", Value.list [Elem.int 1])] }).1 = Result.blocked := by
  decide

/-! ## The memberlist layer -/

theorem wrapInt64_add (x y : Int) : wrapInt64 (wrapInt64 x + y) = wrapInt64 (x + y) := by
  unfold wrapInt64
  omega

theorem wrapInt64_of_range (x : Int) (h0 : 0 ≤ x) (h1 : x < 9223372036854775808) :
    wrapInt64 x = x := by
  unfold wrapInt64
  omega

theorem NotifyLeave_numOfNodes (ext : Externals) (m : MemberList) (node : Node) :
    (NotifyLeave ext m node).numOfNodes = wrapInt64 (m.numOfNodes - 1) := by
  unfold NotifyLeave
  cases ext.Unmarshal node.Meta with
  | none => rfl
  | some nodeMeta =>
    cases h : ext.RemoveRaftServer (m.calls ++ [Call.decrementNodes]) nodeMeta <;>
      simp [h, Println, DecrementNodes]

/-- The counter after a run of events started at any state whose counter is the 64-bit
value of `c`. -/
theorem foldl_notify_numOfNodes (ext : Externals) (evs : List MemberEvent) :
    ∀ (m : MemberList) (c : Int), m.numOfNodes = wrapInt64 c →
      (evs.foldl (notify ext) m).numOfNodes
        = wrapInt64 (c + (joins evs : Int) - (leaves evs : Int)) := by
  induction evs with
  | nil =>
    intro m c hm
    simp [joins, leaves, hm]
  | cons e rest ih =>
    intro m c hm
    cases e with
    | join node =>
      have h := ih (notify ext m (MemberEvent.join node)) (c + 1)
        (by simp [notify, NotifyJoin, IncrementNodes, hm, wrapInt64_add])
      simp only [List.foldl_cons, joins, leaves, h, Nat.cast_add, Nat.cast_one]
      congr 1
      omega
    | leave node =>
      have h := ih (notify ext m (MemberEvent.leave node)) (c - 1)
        (by
          simp only [notify, NotifyLeave_numOfNodes, hm]
          have := wrapInt64_add c (-1)
          simpa [sub_eq_add_neg] using this)
      simp only [List.foldl_cons, joins, leaves, h, Nat.cast_add, Nat.cast_one]
      congr 1
      omega
    | update node =>
      have h := ih (notify ext m (MemberEvent.update node)) c (by simp [notify, NotifyUpdate, hm])
      simp only [List.foldl_cons, joins, leaves, h]

/-- C18: from a fresh `MemberList`, after a sequence of events with `N` calls of
`NotifyJoin` and `M` calls of `NotifyLeave`, `M ≤ N` (as it is when `M ≤ N` in every
prefix) and `N - M` within the range of the counter, `numOfNodes` is `N - M`, whatever
the decoding of the metadata and `RemoveRaftServer` return; and `NotifyUpdate` never
changes the counter. -/
theorem numOfNodes_counts (ext : Externals) (evs : List MemberEvent)
    (hle : leaves evs ≤ joins evs)
    (hbound : (joins evs : Int) - (leaves evs : Int) < 9223372036854775808) :
    (runEvents ext evs).numOfNodes = (joins evs : Int) - (leaves evs : Int) ∧
    ∀ (m : MemberList) (node : Node), (NotifyUpdate m node).numOfNodes = m.numOfNodes := by
  refine ⟨?_, fun _ _ => rfl⟩
  have h := foldl_notify_numOfNodes ext evs NewMemberList 0 (by decide)
  unfold runEvents
  rw [h, zero_add]
  exact wrapInt64_of_range _ (by omega) hbound

/-- Witness of C18: two joins, a leave whose metadata does not decode and an update
leave the counter at 1. -/
theorem numOfNodes_counts_witness :
    (runEvents
        { Unmarshal := fun _ => none, RemoveRaftServer := fun _ _ => some "no leader",
          HasJoinedCluster := fun _ => false }
        [MemberEvent.join { Meta := "a" }, MemberEvent.join { Meta := "b" },
         MemberEvent.leave { Meta := "?" }, MemberEvent.update { Meta := "a" }]).numOfNodes
      = 1 :=
  (numOfNodes_counts
    { Unmarshal := fun _ => none, RemoveRaftServer := fun _ _ => some "no leader",
      HasJoinedCluster := fun _ => false }
    [MemberEvent.join { Meta := "a" }, MemberEvent.join { Meta := "b" },
     MemberEvent.leave { Meta := "?" }, MemberEvent.update { Meta := "a" }]
    (by decide) (by decide)).1

/-- C19: `NotifyLeave` always returns; it decrements the counter once, as its first
call, and the rest of its calls contain no other decrement and exactly the calls of
`RemoveRaftServer` that the decoding allows: one, with the decoded metadata, when the
metadata decodes, none when it does not.  This is so whatever `RemoveRaftServer`
returns, and the broadcast queue is not touched. -/
theorem NotifyLeave_spec (ext : Externals) (m : MemberList) (node : Node) :
    (NotifyLeave ext m node).numOfNodes = wrapInt64 (m.numOfNodes - 1) ∧
    (NotifyLeave ext m node).broadcastQueue = m.broadcastQueue ∧
    ∃ out, (NotifyLeave ext m node).calls = m.calls ++ Call.decrementNodes :: out ∧
      Call.decrementNodes ∉ out ∧ Call.incrementNodes ∉ out ∧
      removals out = (ext.Unmarshal node.Meta).toList := by
  refine ⟨NotifyLeave_numOfNodes ext m node, ?_, ?_⟩
  · unfold NotifyLeave
    cases ext.Unmarshal node.Meta with
    | none => rfl
    | some nodeMeta =>
      cases h : ext.RemoveRaftServer (m.calls ++ [Call.decrementNodes]) nodeMeta <;>
        simp [h, Println, DecrementNodes]
  · unfold NotifyLeave
    cases ext.Unmarshal node.Meta with
    | none =>
      exact ⟨[Call.println "Could not get leaving node's metadata."],
        by simp [Println, DecrementNodes], by simp, by simp, by simp [removals]⟩
    | some nodeMeta =>
      cases h : ext.RemoveRaftServer (m.calls ++ [Call.decrementNodes]) nodeMeta with
      | none =>
        exact ⟨[Call.removeRaftServer nodeMeta],
          by simp [h, DecrementNodes], by simp, by simp, by simp [removals]⟩
      | some text =>
        exact ⟨[Call.removeRaftServer nodeMeta, Call.println text],
          by simp [h, Println, DecrementNodes], by simp, by simp, by simp [removals]⟩

/-- Witness of C19: a leave whose metadata decodes and whose `RemoveRaftServer` fails
takes the counter from 2 to 1. -/
theorem NotifyLeave_spec_witness :
    (NotifyLeave
        { Unmarshal := fun s => some { ServerID := s, MemberlistAddr := "", RaftAddr := "" },
          RemoveRaftServer := fun _ _ => some "no leader", HasJoinedCluster := fun _ => false }
        { numOfNodes := 2, broadcastQueue := [], calls := [] } { Meta := "n1" }).numOfNodes
      = 1 :=
  (NotifyLeave_spec
    { Unmarshal := fun s => some { ServerID := s, MemberlistAddr := "", RaftAddr := "" },
      RemoveRaftServer := fun _ _ => some "no leader", HasJoinedCluster := fun _ => false }
    { numOfNodes := 2, broadcastQueue := [], calls := [] } { Meta := "n1" }).1

theorem broadcastRaftAddress_from (cfg : Config) (ext : Externals) (ticks : Nat) :
    ∀ (i : Nat) (m : MemberList),
      ∃ k, k ≤ ticks ∧
        (broadcastRaftAddress cfg ext ticks i m).broadcastQueue
          = m.broadcastQueue ++ List.replicate k (raftJoinMessage cfg) ∧
        (∀ j, j < k → ext.HasJoinedCluster (i + j) = false) ∧
        (k < ticks → ext.HasJoinedCluster (i + k) = true) ∧
        (broadcastRaftAddress cfg ext ticks i m).numOfNodes = m.numOfNodes ∧
        (broadcastRaftAddress cfg ext ticks i m).calls = m.calls := by
  induction ticks with
  | zero =>
    intro i m
    exact ⟨0, le_refl _, by simp [broadcastRaftAddress], by intro j hj; omega,
      by intro h; omega, rfl, rfl⟩
  | succ n ih =>
    intro i m
    cases hj : ext.HasJoinedCluster i with
    | true =>
      exact ⟨0, Nat.zero_le _, by simp [broadcastRaftAddress, hj], by intro j hj; omega,
        by intro _; simpa using hj, by simp [broadcastRaftAddress, hj],
        by simp [broadcastRaftAddress, hj]⟩
    | false =>
      obtain ⟨k, hk, hq, hfalse, htrue, hn, hc⟩ := ih (i + 1)
        { m with broadcastQueue := m.broadcastQueue ++ [raftJoinMessage cfg] }
      refine ⟨k + 1, by omega, ?_, ?_, ?_, ?_, ?_⟩
      · simp [broadcastRaftAddress, hj, hq, List.replicate_succ]
      · intro j hjk
        cases j with
        | zero => simpa using hj
        | succ j =>
          have := hfalse j (by omega)
          rw [← this]
          congr 1
          omega
      · intro hlt
        have := htrue (by omega)
        rw [← this]
        congr 1
        omega
      · simp [broadcastRaftAddress, hj, hn]
      · simp [broadcastRaftAddress, hj, hc]

/-- C20, as the code behaves: for every configuration, followed for any number of
rounds, `broadcastRaftAddress` queues one message per round up to the first round in
which `HasJoinedCluster` answers true, and none in that round or after it.  Every
message queued has the action `RaftJoin`, the server id of the configuration and the
replication address `BindAddr:RaftBindPort`; its field `MemberlistAddr` is the empty
string. -/
theorem broadcastRaftAddress_spec (cfg : Config) (ext : Externals) (ticks : Nat)
    (m : MemberList) :
    ∃ k, k ≤ ticks ∧
      (broadcastRaftAddress cfg ext ticks 0 m).broadcastQueue
        = m.broadcastQueue ++ List.replicate k
            { Action := "RaftJoin",
              NodeMeta :=
                { ServerID := cfg.ServerID,
                  MemberlistAddr := "",
                  RaftAddr := cfg.BindAddr ++ ":" ++ toString cfg.RaftBindPort } } ∧
      (∀ j, j < k → ext.HasJoinedCluster j = false) ∧
      (k < ticks → ext.HasJoinedCluster k = true) := by
  obtain ⟨k, hk, hq, hfalse, htrue, _, _⟩ := broadcastRaftAddress_from cfg ext ticks 0 m
  refine ⟨k, hk, hq, ?_, ?_⟩
  · intro j hj
    simpa using hfalse j hj
  · intro hlt
    simpa using htrue hlt

/-- Witness of the amended C20: with `HasJoinedCluster` true from the third call on, the
queue never holds more than the messages of the first two rounds. -/
theorem broadcastRaftAddress_spec_witness :
    ∃ k, k ≤ 5 ∧
      (broadcastRaftAddress
          { BindAddr := "10.0.0.1", MemberListBindPort := 7946, RaftBindPort := 8000,
            ServerID := "n1", JoinAddr := "10.0.0.2:7946" }
          { Unmarshal := fun _ => none, RemoveRaftServer := fun _ _ => none,
            HasJoinedCluster := fun i => decide (2 ≤ i) }
          5 0 NewMemberList).broadcastQueue
        = NewMemberList.broadcastQueue ++ List.replicate k
            { Action := "RaftJoin",
              NodeMeta :=
                { ServerID := "n1", MemberlistAddr := "", RaftAddr := "10.0.0.1" ++ ":" ++ toString 8000 } } ∧
      (∀ j, j < k → decide (2 ≤ j) = false) ∧
      (k < 5 → decide (2 ≤ k) = true) :=
  broadcastRaftAddress_spec
    { BindAddr := "10.0.0.1", MemberListBindPort := 7946, RaftBindPort := 8000,
      ServerID := "n1", JoinAddr := "10.0.0.2:7946" }
    { Unmarshal := fun _ => none, RemoveRaftServer := fun _ _ => none,
      HasJoinedCluster := fun i => decide (2 ≤ i) }
    5 NewMemberList

/-- Counterexample to C20 as stated: the message queued in the first round for a node
bound to `10.0.0.1` with gossip port 7946 carries the server id and the replication
address `10.0.0.1:8000`, and an empty `MemberlistAddr`. -/
theorem broadcastRaftAddress_no_gossip_address :
    (broadcastRaftAddress
        { BindAddr := "10.0.0.1", MemberListBindPort := 7946, RaftBindPort := 8000,
          ServerID := "n1", JoinAddr := "10.0.0.2:7946" }
        { Unmarshal := fun _ => none, RemoveRaftServer := fun _ _ => none,
          HasJoinedCluster := fun _ => false }
        1 0 NewMemberList).broadcastQueue
      = [{ Action := "RaftJoin",
           NodeMeta := { ServerID := "n1", MemberlistAddr := "", RaftAddr := "10.0.0.1:8000" } }] ∧
    ¬ ((broadcastRaftAddress
        { BindAddr := "10.0.0.1", MemberListBindPort := 7946, RaftBindPort := 8000,
          ServerID := "n1", JoinAddr := "10.0.0.2:7946" }
        { Unmarshal := fun _ => none, RemoveRaftServer := fun _ _ => none,
          HasJoinedCluster := fun _ => false }
        1 0 NewMemberList).broadcastQueue.all
          (fun msg => decide (msg.NodeMeta.MemberlistAddr ≠ ""))) := by
  decide

/-! ## LPOP, RPOP and LMOVE on an empty list -/

theorem sliceFrom_nil_one :
    sliceFrom ([] : List Elem) 1 = Result.panic "slice bounds out of range" := by
  decide

theorem slice_nil_init :
    slice ([] : List Elem) 0 (((([] : List Elem).length : Nat) : Int) - 1)
      = Result.panic "slice bounds out of range" := by
  decide

/-- `handlePop` on a key holding the empty list: the slice expression that computes the
rest of the list panics before anything is written. -/
theorem handlePop_nil_run (env : Env) (ctx : Context) (server : Server)
    (name key : String)
    (hL : server.store key = some (Value.list []))
    (hctx : ctx.cancelled = false) (hfree : server.locksOn key = []) :
    (handlePop env ctx [name, key] server).1 = Result.panic "slice bounds out of range" ∧
    (handlePop env ctx [name, key] server).2.store = server.store ∧
    (handlePop env ctx [name, key] server).2.held = server.held := by
  have h1 := sliceFrom_nil_one
  have h2 := slice_nil_init
  simp only [List.length_nil, Nat.cast_zero, zero_sub] at h2
  simp only [handlePop, bind, Handler.seq, pure, lift, index, popKeyFunc, fail]
  simp only [List.length_cons, List.length_nil, List.drop, List.head?, Option.toList,
    List.getElem?_cons_zero, List.getElem?_cons_succ, Nat.reduceAdd, ne_eq,
    not_true_eq_false, if_false]
  by_cases hname : env.ToLower name = "rpop"
  · simp [Handler.seq, lift, fail, KeyExists, KeyLock, deferring, GetValue, SetValue, asList,
      KeyUnlock, hL, hctx, hfree, h1, h2, hname]
  · simp [Handler.seq, lift, fail, KeyExists, KeyLock, deferring, GetValue, SetValue, asList,
      KeyUnlock, hL, hctx, hfree, h1, h2, hname]

/-- `handlePop` under a name other than `rpop`, on a key holding a non-empty list. -/
theorem handlePop_default_run (env : Env) (ctx : Context) (server : Server)
    (name key : String) (rest : List Elem) (x : Elem)
    (hL : server.store key = some (Value.list (x :: rest)))
    (hctx : ctx.cancelled = false) (hfree : server.locksOn key = [])
    (hname : ¬ (env.ToLower name = "rpop")) :
    (handlePop env ctx [name, key] server).1
      = Result.ok ("+" ++ formatV env x ++ "\r\n\r\n") := by
  have h1 := sliceFrom_one (x :: rest) (by simp)
  simp only [List.tail_cons] at h1
  simp only [handlePop, bind, Handler.seq, pure, lift, index, popKeyFunc, fail]
  simp only [List.length_cons, List.length_nil, List.drop, List.head?, Option.toList,
    List.getElem?_cons_zero, List.getElem?_cons_succ, Nat.reduceAdd, ne_eq,
    not_true_eq_false, if_false]
  simp [Handler.seq, lift, fail, KeyExists, KeyLock, deferring, GetValue, SetValue, asList,
    KeyUnlock, hL, hctx, hfree, h1, hname]

/-- On a key holding a non-empty list `handlePop` returns a response. -/
theorem handlePop_cons_ok (env : Env) (ctx : Context) (server : Server)
    (name key : String) (L : List Elem) (hne : L ≠ [])
    (hL : server.store key = some (Value.list L))
    (hctx : ctx.cancelled = false) (hfree : server.locksOn key = []) :
    ∃ resp, (handlePop env ctx [name, key] server).1 = Result.ok resp := by
  by_cases hname : env.ToLower name = "rpop"
  · have hL2 : server.store key = some (Value.list (L.dropLast ++ [L.getLast hne])) := by
      rw [List.dropLast_append_getLast hne]
      exact hL
    exact ⟨_, (handlePop_rpop_run env ctx server name key L.dropLast (L.getLast hne) hL2
      hctx hfree hname).1⟩
  · cases L with
    | nil => exact absurd rfl hne
    | cons x rest =>
      exact ⟨_, handlePop_default_run env ctx server name key rest x hL hctx hfree hname⟩

/-- `handleLMove` from a key holding the empty list to another key holding a list: with
valid directions, the slice expression that computes the rest of the source panics
before anything is written. -/
theorem handleLMove_nil_run (env : Env) (ctx : Context) (server : Server)
    (name src dst wf wt : String) (B : List Elem)
    (hne : src ≠ dst)
    (hwf : env.ToLower wf = "left" ∨ env.ToLower wf = "right")
    (hwt : env.ToLower wt = "left" ∨ env.ToLower wt = "right")
    (hA : server.store src = some (Value.list []))
    (hB : server.store dst = some (Value.list B))
    (hctx : ctx.cancelled = false)
    (hfs : server.locksOn src = []) (hfd : server.locksOn dst = []) :
    (handleLMove env ctx [name, src, dst, wf, wt] server).1
      = Result.panic "slice bounds out of range" ∧
    (handleLMove env ctx [name, src, dst, wf, wt] server).2.store = server.store := by
  have h1 := sliceFrom_nil_one
  have h2 := slice_nil_init
  simp only [List.length_nil, Nat.cast_zero, zero_sub] at h2
  have hfs2 : List.filter (fun p => decide (p.1 = src)) server.held = [] := by
    simpa [Server.locksOn] using hfs
  have hfd2 : List.filter (fun p => decide (p.1 = dst)) server.held = [] := by
    simpa [Server.locksOn] using hfd
  rcases hwf with hf | hf <;> rcases hwt with ht | ht <;>
  · simp only [handleLMove, bind, Handler.seq, pure, lift, index, lmoveKeyFunc, fail]
    simp only [List.length_cons, List.length_nil, List.drop, List.take,
      List.getElem?_cons_zero, List.getElem?_cons_succ, Nat.reduceAdd, ne_eq,
      not_true_eq_false, if_false]
    simp only [hf, ht]
    simp only [if_true, if_false, List.nil_append, List.mem_cons, true_or, or_true,
      not_true_eq_false, or_self, left_ne_right, right_ne_left, false_or, or_false]
    simp [Handler.seq, lift, fail, KeyExists, KeyLock, deferring, GetValue, SetValue, asList,
      KeyUnlock, hA, hB, hctx, Server.locksOn, List.filter_cons, hne, hne.symm, hfs2, hfd2,
      h1, h2]

/-- With valid directions, a live context and both locks free, `handleLMove` from a key
holding a non-empty list to another key holding a list returns OK. -/
theorem handleLMove_cons_ok (env : Env) (ctx : Context) (server : Server)
    (name src dst wf wt : String) (A B : List Elem)
    (hne : src ≠ dst) (hA0 : A ≠ [])
    (hwf : env.ToLower wf = "left" ∨ env.ToLower wf = "right")
    (hwt : env.ToLower wt = "left" ∨ env.ToLower wt = "right")
    (hA : server.store src = some (Value.list A))
    (hB : server.store dst = some (Value.list B))
    (hctx : ctx.cancelled = false)
    (hfs : server.locksOn src = []) (hfd : server.locksOn dst = []) :
    (handleLMove env ctx [name, src, dst, wf, wt] server).1 = Result.ok OK_RESPONSE := by
  have hfs2 : List.filter (fun p => decide (p.1 = src)) server.held = [] := by
    simpa [Server.locksOn] using hfs
  have hfd2 : List.filter (fun p => decide (p.1 = dst)) server.held = [] := by
    simpa [Server.locksOn] using hfd
  obtain ⟨a, ha⟩ : ∃ a, A.head? = some a := by
    cases A with
    | nil => exact absurd rfl hA0
    | cons a A2 => exact ⟨a, rfl⟩
  obtain ⟨z, hz⟩ : ∃ z, A.getLast? = some z :=
    ⟨A.getLast hA0, List.getLast?_eq_getLast A hA0⟩
  have ha0 : A[0]? = some a := by
    rw [← ha, List.head?_eq_getElem?]
  rcases hwf with hf | hf <;> rcases hwt with ht | ht <;>
  · simp only [handleLMove, bind, Handler.seq, pure, lift, index, lmoveKeyFunc, fail]
    simp only [List.length_cons, List.length_nil, List.drop, List.take,
      List.getElem?_cons_zero, List.getElem?_cons_succ, Nat.reduceAdd, ne_eq,
      not_true_eq_false, if_false]
    simp only [hf, ht]
    simp only [if_true, if_false, List.nil_append, List.mem_cons, true_or, or_true,
      not_true_eq_false, or_self, left_ne_right, right_ne_left, false_or, or_false]
    first
      | (simp [Handler.seq, lift, fail, KeyExists, KeyLock, deferring, GetValue, SetValue, asList,
          KeyUnlock, hA, hB, hctx, Server.locksOn, List.filter_cons, hne, hne.symm, hfs2, hfd2,
          sliceFrom_one A hA0, slice_zero_one A a ha, ha0]
         done)
      | simp [Handler.seq, lift, fail, KeyExists, KeyLock, deferring, GetValue, SetValue, asList,
          KeyUnlock, hA, hB, hctx, Server.locksOn, List.filter_cons, hne, hne.symm, hfs2, hfd2,
          slice_init A hA0, sliceFrom_last A z hz, elemAt_last A z hz, abort]

/-- C21, the code on a source key holding a list `A`, with a live context, free locks,
valid directions and a destination holding a list: when `A` is empty, `handlePop` (under
any command name) and `handleLMove` both end in the run-time panic of a slice expression
out of bounds (`list[1:]`, `list[:len(list)-1]`), not in a response or an error; when `A`
is not empty both return a response. -/
theorem pop_and_move_on_list (env : Env) (ctx : Context) (server : Server)
    (pop move src dst wf wt : String) (A B : List Elem)
    (hne : src ≠ dst)
    (hwf : env.ToLower wf = "left" ∨ env.ToLower wf = "right")
    (hwt : env.ToLower wt = "left" ∨ env.ToLower wt = "right")
    (hA : server.store src = some (Value.list A))
    (hB : server.store dst = some (Value.list B))
    (hctx : ctx.cancelled = false)
    (hfs : server.locksOn src = []) (hfd : server.locksOn dst = []) :
    (A = [] →
      (handlePop env ctx [pop, src] server).1 = Result.panic "slice bounds out of range" ∧
      (handleLMove env ctx [move, src, dst, wf, wt] server).1
        = Result.panic "slice bounds out of range") ∧
    (A ≠ [] →
      (∃ resp, (handlePop env ctx [pop, src] server).1 = Result.ok resp) ∧
      (handleLMove env ctx [move, src, dst, wf, wt] server).1 = Result.ok OK_RESPONSE) := by
  constructor
  · intro h0
    subst h0
    exact ⟨(handlePop_nil_run env ctx server pop src hA hctx hfs).1,
      (handleLMove_nil_run env ctx server move src dst wf wt B hne hwf hwt hA hB hctx
        hfs hfd).1⟩
  · intro h0
    exact ⟨handlePop_cons_ok env ctx server pop src A h0 hA hctx hfs,
      handleLMove_cons_ok env ctx server move src dst wf wt A B hne h0 hwf hwt hA hB hctx
        hfs hfd⟩

/-- Witness of C21: `ltrim K 0 0` on `K = [a]` returns OK and leaves `K` holding the
empty list; on the resulting state `lpop K` and `lmove K D left right` panic. -/
theorem pop_and_move_on_list_witness :
    (handleLTrim sampleEnv liveCtx ["ltrim", "K", "0", "0"]
        { store := storeOf [("K", Value.list [Elem.str "a"]),
                            ("D", Value.list [Elem.str "b"])] }).1
      = Result.ok OK_RESPONSE ∧
    (handlePop sampleEnv liveCtx ["lpop", "K"]
        (handleLTrim sampleEnv liveCtx ["ltrim", "K", "0", "0"]
          { store := storeOf [("K", Value.list [Elem.str "a"]),
                              ("D", Value.list [Elem.str "b"])] }).2).1
      = Result.panic "slice bounds out of range" ∧
    (handleLMove sampleEnv liveCtx ["lmove", "K", "D", "left", "right"]
        (handleLTrim sampleEnv liveCtx ["ltrim", "K", "0", "0"]
          { store := storeOf [("K", Value.list [Elem.str "a"]),
                              ("D", Value.list [Elem.str "b"])] }).2).1
      = Result.panic "slice bounds out of range" :=
  ⟨by decide,
   (pop_and_move_on_list sampleEnv liveCtx
      (handleLTrim sampleEnv liveCtx ["ltrim", "K", "0", "0"]
        { store := storeOf [("K", Value.list [Elem.str "a"]),
                            ("D", Value.list [Elem.str "b"])] }).2
      "lpop" "lmove" "K" "D" "left" "right" [] [Elem.str "b"]
      (by decide) (by decide) (by decide) (by decide) (by decide) (by decide) (by decide)
      (by decide)).1 rfl⟩

/-! ## Success and effect of LPUSH, RPUSH, LREM and LMOVE -/

/-- State after `handleLPush` on a key that holds a list. -/
theorem handleLPush_list_run (env : Env) (ctx : Context) (server : Server)
    (name key : String) (v : String) (vs : List String) (L : List Elem)
    (hL : server.store key = some (Value.list L))
    (hctx : ctx.cancelled = false) (hfree : server.locksOn key = []) :
    handleLPush env ctx (name :: key :: v :: vs) server
      = (Result.ok OK_RESPONSE,
         { store := fun k => if k = key then some (Value.list ((v :: vs).map env.AdaptType ++ L))
                      else server.store k,
           held := server.held,
           trace := server.trace ++ [LockEvent.lock key, LockEvent.unlock key] }) := by
  simp [handleLPush, bind, Handler.seq, pure, lift, index, lpushKeyFunc_cons, KeyExists,
    KeyLock, deferring, GetValue, SetValue, asList, fail, KeyUnlock, hL, hctx, hfree]

/-- C3: LPUSH of `v1 .. vn` on key `K` succeeds when `K` holds a list, the context is
live and the lock of `K` is free, and when `K` is absent and the command is not LPUSHX.
Every successful LPUSH stores `adapt(v1), ..., adapt(vn)` followed by the previous list, so
that `adapt(v1)` is the new head; `K` was absent or held a list; when it was absent it now
holds exactly the adapted arguments; no other key changes. -/
theorem handleLPush_stores (env : Env) (ctx : Context) (server : Server)
    (name key : String) (v : String) (vs : List String) :
    (∀ L : List Elem, server.store key = some (Value.list L) → ctx.cancelled = false →
      server.locksOn key = [] →
      (handleLPush env ctx (name :: key :: v :: vs) server).1 = Result.ok OK_RESPONSE) ∧
    (server.store key = none → env.ToLower name ≠ "lpushx" →
      (handleLPush env ctx (name :: key :: v :: vs) server).1 = Result.ok OK_RESPONSE) ∧
    (∀ resp : String,
      (handleLPush env ctx (name :: key :: v :: vs) server).1 = Result.ok resp →
      (server.store key = none ∨ ∃ L, server.store key = some (Value.list L)) ∧
      (handleLPush env ctx (name :: key :: v :: vs) server).2.store key
        = some (Value.list ((v :: vs).map env.AdaptType ++ listAt server key)) ∧
      (listAt (handleLPush env ctx (name :: key :: v :: vs) server).2 key).head?
        = some (env.AdaptType v) ∧
      (server.store key = none →
        (handleLPush env ctx (name :: key :: v :: vs) server).2.store key
          = some (Value.list ((v :: vs).map env.AdaptType))) ∧
      (∀ k, k ≠ key →
        (handleLPush env ctx (name :: key :: v :: vs) server).2.store k = server.store k)) := by
  refine ⟨?_, ?_, ?_⟩
  · intro L hL hctx hfree
    rw [handleLPush_list_run env ctx server name key v vs L hL hctx hfree]
  · intro hL hx
    rw [handleLPush_absent_run env ctx server name key v vs hL hx]
  · intro resp hok
    cases hst : server.store key with
    | none =>
      have h := handleLPush_on_absent env ctx server name key v vs hst resp hok
      simp [h, listAt, hst]
      intro k hk
      simp [hk]
    | some x =>
      cases x with
      | list L =>
        have h := handleLPush_on_list env ctx server name key v vs L hst resp hok
        simp [h, listAt, hst]
        intro k hk
        simp [hk]
      | scalar e =>
        exact absurd hok (handleLPush_not_list env ctx server name key v vs _ hst rfl resp)
      | nil =>
        exact absurd hok (handleLPush_not_list env ctx server name key v vs _ hst rfl resp)

/-- Witness of C3: `lpush K a b` on `K = [z]` succeeds and stores `[a, b, z]`; on an
absent key it succeeds and stores `[a, b]`. -/
theorem handleLPush_stores_witness :
    (handleLPush sampleEnv liveCtx ["lpush", "K", "a", "b"]
        { store := storeOf [("K", Value.list [Elem.str "z"])] }).1 = Result.ok OK_RESPONSE ∧
    (handleLPush sampleEnv liveCtx ["lpush", "K", "a", "b"]
        { store := storeOf [("K", Value.list [Elem.str "z"])] }).2.store "K"
      = some (Value.list [Elem.str "a", Elem.str "b", Elem.str "z"]) ∧
    (handleLPush sampleEnv liveCtx ["lpush", "K", "a", "b"]
        { store := storeOf [] }).1 = Result.ok OK_RESPONSE ∧
    (handleLPush sampleEnv liveCtx ["lpush", "K", "a", "b"]
        { store := storeOf [] }).2.store "K"
      = some (Value.list [Elem.str "a", Elem.str "b"]) :=
  ⟨(handleLPush_stores sampleEnv liveCtx
      { store := storeOf [("K", Value.list [Elem.str "z"])] } "lpush" "K" "a" ["b"]).1
      [Elem.str "z"] (by decide) (by decide) (by decide),
   ((handleLPush_stores sampleEnv liveCtx
      { store := storeOf [("K", Value.list [Elem.str "z"])] } "lpush" "K" "a" ["b"]).2.2
      OK_RESPONSE (by decide)).2.1.trans (by decide),
   (handleLPush_stores sampleEnv liveCtx { store := storeOf [] } "lpush" "K" "a" ["b"]).2.1
      (by decide) (by decide),
   ((handleLPush_stores sampleEnv liveCtx { store := storeOf [] } "lpush" "K" "a" ["b"]).2.2
      OK_RESPONSE (by decide)).2.2.2.1 (by decide) |>.trans (by decide)⟩

/-- C4: RPUSH of `v1 .. vn` on key `K` succeeds when `K` holds a list, the context is
live and the lock of `K` is free, and when `K` is absent and the command is not RPUSHX.
Every successful RPUSH stores the previous list followed by `adapt(v1), ..., adapt(vn)`
(the previous list is empty when `K` was absent) and changes no other key; and when `K`
was absent, a following `LRANGE K 0 -1` returns the adapted arguments in argument
order. -/
theorem handleRPush_stores (env : Env) (ctx : Context) (server : Server)
    (name key : String) (v : String) (vs : List String) :
    (∀ L : List Elem, server.store key = some (Value.list L) → ctx.cancelled = false →
      server.locksOn key = [] →
      (handleRPush env ctx (name :: key :: v :: vs) server).1 = Result.ok OK_RESPONSE ∧
      (handleRPush env ctx (name :: key :: v :: vs) server).2.store key
        = some (Value.list (L ++ (v :: vs).map env.AdaptType))) ∧
    (server.store key = none → env.ToLower name ≠ "rpushx" →
      (handleRPush env ctx (name :: key :: v :: vs) server).1 = Result.ok OK_RESPONSE) ∧
    (∀ resp : String,
      (handleRPush env ctx (name :: key :: v :: vs) server).1 = Result.ok resp →
      (server.store key = none ∨ ∃ L, server.store key = some (Value.list L)) ∧
      (handleRPush env ctx (name :: key :: v :: vs) server).2.store key
        = some (Value.list (listAt server key ++ (v :: vs).map env.AdaptType)) ∧
      (∀ k, k ≠ key →
        (handleRPush env ctx (name :: key :: v :: vs) server).2.store k = server.store k) ∧
      (server.store key = none →
        ∀ (ctx2 : Context) (name2 s e : String),
          env.AdaptType s = Elem.int 0 → env.AdaptType e = Elem.int (-1) →
          ctx2.cancelled = false → LockMode.exclusive ∉ server.locksOn key →
          (handleLRange env ctx2 [name2, key, s, e]
              (handleRPush env ctx (name :: key :: v :: vs) server).2).1
            = Result.ok (encodeArray (((v :: vs).map env.AdaptType).map (formatV env))))) := by
  refine ⟨?_, ?_, ?_⟩
  · intro L hL hctx hfree
    rw [handleRPush_list_run env ctx server name key v vs L hL hctx hfree]
    exact ⟨rfl, by simp⟩
  · intro hL hx
    rw [handleRPush_absent_run env ctx server name key v vs hL hx]
  · intro resp hok
    cases hst : server.store key with
    | none =>
      have hx := handleRPush_absent_name env ctx server name key v vs hst resp hok
      have h := handleRPush_absent_run env ctx server name key v vs hst hx
      refine ⟨Or.inl rfl, ?_, ?_, ?_⟩
      · simp [h, listAt, hst]
      · intro k hk
        simp [h, hk]
      · intro _ ctx2 name2 s e hs he hctx2 hfree
        rw [h]
        exact handleLRange_all env ctx2 _ name2 key s e (env.AdaptType v)
          (vs.map env.AdaptType) hs he (by simp) hctx2 (by simpa [Server.locksOn] using hfree)
    | some x =>
      cases x with
      | list L =>
        have h := handleRPush_on_list env ctx server name key v vs L hst resp hok
        refine ⟨Or.inr ⟨L, rfl⟩, ?_, ?_, ?_⟩
        · simp [h, listAt, hst]
        · intro k hk
          simp [h, hk]
        · intro hn
          cases hn
      | scalar e =>
        exact absurd hok (handleRPush_not_list env ctx server name key v vs _ hst rfl resp)
      | nil =>
        exact absurd hok (handleRPush_not_list env ctx server name key v vs _ hst rfl resp)

/-- Witness of C4: `rpush K c d` on `K = [a, b]` succeeds and stores `[a, b, c, d]`;
`rpush K a b c` on an absent key succeeds, stores `[a, b, c]`, and `lrange K 0 -1` then
returns `a`, `b`, `c`. -/
theorem handleRPush_stores_witness :
    (handleRPush sampleEnv liveCtx ["rpush", "K", "c", "d"]
        { store := storeOf [("K", Value.list [Elem.str "a", Elem.str "b"])] }).1
      = Result.ok OK_RESPONSE ∧
    (handleRPush sampleEnv liveCtx ["rpush", "K", "c", "d"]
        { store := storeOf [("K", Value.list [Elem.str "a", Elem.str "b"])] }).2.store "K"
      = some (Value.list [Elem.str "a", Elem.str "b", Elem.str "c", Elem.str "d"]) ∧
    (handleRPush sampleEnv liveCtx ["rpush", "K", "a", "b", "c"]
        { store := storeOf [] }).1 = Result.ok OK_RESPONSE ∧
    (handleRPush sampleEnv liveCtx ["rpush", "K", "a", "b", "c"]
        { store := storeOf [] }).2.store "K"
      = some (Value.list [Elem.str "a", Elem.str "b", Elem.str "c"]) ∧
    (handleLRange sampleEnv liveCtx ["lrange", "K", "0", "-1"]
        (handleRPush sampleEnv liveCtx ["rpush", "K", "a", "b", "c"]
          { store := storeOf [] }).2).1
      = Result.ok "*3\r\n$1\r\na\r\n$1\r\nb\r\n$1\r\nc\r\n\r\n" :=
  ⟨((handleRPush_stores sampleEnv liveCtx
      { store := storeOf [("K", Value.list [Elem.str "a", Elem.str "b"])] }
      "rpush" "K" "c" ["d"]).1 [Elem.str "a", Elem.str "b"] (by decide) (by decide)
      (by decide)).1,
   ((handleRPush_stores sampleEnv liveCtx
      { store := storeOf [("K", Value.list [Elem.str "a", Elem.str "b"])] }
      "rpush" "K" "c" ["d"]).1 [Elem.str "a", Elem.str "b"] (by decide) (by decide)
      (by decide)).2.trans (by decide),
   (handleRPush_stores sampleEnv liveCtx { store := storeOf [] } "rpush" "K" "a"
      ["b", "c"]).2.1 (by decide) (by decide),
   ((handleRPush_stores sampleEnv liveCtx { store := storeOf [] } "rpush" "K" "a"
      ["b", "c"]).2.2 OK_RESPONSE (by decide)).2.1.trans (by decide),
   (((handleRPush_stores sampleEnv liveCtx { store := storeOf [] } "rpush" "K" "a"
      ["b", "c"]).2.2 OK_RESPONSE (by decide)).2.2.2 (by decide) liveCtx "lrange" "0" "-1"
      (by decide) (by decide) (by decide) (by decide)).trans (by decide)⟩

/-- With a live context and a free lock, `handleLRem` on a key holding a list returns OK
for every count. -/
theorem handleLRem_ok (env : Env) (ctx : Context) (server : Server)
    (name key c v : String) (count : Int) (L : List Elem)
    (hc : env.AdaptType c = Elem.int count)
    (hL : server.store key = some (Value.list L))
    (hctx : ctx.cancelled = false) (hfree : server.locksOn key = []) :
    (handleLRem env ctx [name, key, c, v] server).1 = Result.ok OK_RESPONSE := by
  simp only [handleLRem, bind, Handler.seq, pure, lift, index, lremKeyFunc, fail]
  simp only [List.length_cons, List.length_nil, List.drop, List.head?, Option.toList,
    List.getElem?_cons_zero, List.getElem?_cons_succ, Nat.reduceAdd, ne_eq,
    not_true_eq_false, if_false, hc, asInt]
  by_cases hpos : count > 0
  · have hloop := lremFromHead_eq env v L [] count (le_of_lt hpos)
    simp only [List.length_nil, List.nil_append] at hloop
    have habs : AbsInt count = count := by
      simp [AbsInt]; omega
    have hn : count.toNat = count.natAbs := by omega
    simp [Handler.seq, lift, pure, KeyExists, KeyLock, deferring, GetValue, SetValue, asList,
      fail, KeyUnlock, hL, hctx, hfree, hpos, habs, hloop, lremSpec, deleteNil_markFirst, hn]
  · by_cases hneg : count < 0
    · have hloop := lremFromTail_eq env v L.reverse [] (-count) (by omega)
      simp only [List.length_reverse, List.reverse_reverse, List.append_nil] at hloop
      have habs : AbsInt count = -count := by
        simp [AbsInt, hneg]
      have hn : (-count).toNat = count.natAbs := by omega
      simp [Handler.seq, lift, pure, KeyExists, KeyLock, deferring, GetValue, SetValue, asList,
        fail, KeyUnlock, hL, hctx, hfree, hpos, hneg, habs, hloop, lremSpec,
        deleteNil_markFirst, deleteNil_reverse, hn, removeLastMatches]
    · simp [Handler.seq, lift, pure, KeyExists, KeyLock, deferring, GetValue, SetValue, asList,
        fail, KeyUnlock, hL, hctx, hfree, hpos, hneg, lremSpec, deleteNil_map_some]

/-- C5: on a key holding the list `L`, with an integer count, LREM succeeds whenever the
context is live and the lock of the key is free, for a positive, a negative and a zero
count alike.  Every successful LREM stores `lremSpec`: `L` without its first
`min(count, m)` matches (head to tail) when `count > 0`, without its last `min(|count|, m)`
matches when `count < 0`, and `L` when `count = 0`.  What is stored is a subsequence of
`L`; the removed elements number `min(|count|, m)`, each stringifies to the value, and
with the stored list they make up `L`. -/
theorem handleLRem_spec (env : Env) (ctx : Context) (server : Server)
    (name key c v : String) (count : Int) (L : List Elem)
    (hc : env.AdaptType c = Elem.int count)
    (hL : server.store key = some (Value.list L)) :
    (ctx.cancelled = false → server.locksOn key = [] →
      (handleLRem env ctx [name, key, c, v] server).1 = Result.ok OK_RESPONSE ∧
      (handleLRem env ctx [name, key, c, v] server).2.store key
        = some (Value.list (lremSpec env L count v))) ∧
    (∀ resp : String, (handleLRem env ctx [name, key, c, v] server).1 = Result.ok resp →
      (handleLRem env ctx [name, key, c, v] server).2.store key
        = some (Value.list (lremSpec env L count v))) ∧
    (0 < count →
      lremSpec env L count v = removeFirstMatches (matchesValue env v) count.natAbs L) ∧
    (count < 0 →
      lremSpec env L count v = removeLastMatches (matchesValue env v) count.natAbs L) ∧
    (count = 0 → lremSpec env L count v = L) ∧
    (lremSpec env L count v).Sublist L ∧
    ∃ removed : List Elem,
      L.Perm (lremSpec env L count v ++ removed) ∧
      (∀ x ∈ removed, formatV env x = v) ∧
      removed.length = min count.natAbs (L.countP (matchesValue env v)) ∧
      removed.length ≤ count.natAbs := by
  obtain ⟨hsub, removed, h1, h2, h3⟩ := lremSpec_props env L count v
  refine ⟨?_, ?_, ?_, ?_, ?_, hsub, removed, h1, h2, h3, ?_⟩
  · intro hctx hfree
    have hok := handleLRem_ok env ctx server name key c v count L hc hL hctx hfree
    exact ⟨hok, handleLRem_run env ctx server name key c v count L OK_RESPONSE hc hL hok⟩
  · intro resp hok
    exact handleLRem_run env ctx server name key c v count L resp hc hL hok
  · intro hpos
    simp [lremSpec, hpos]
  · intro hneg
    have hnp : ¬ (count > 0) := by omega
    simp [lremSpec, hnp, hneg]
  · intro h0
    subst h0
    simp [lremSpec]
  · rw [h3]
    exact Nat.min_le_left _ _

/-- Witness of C5: `lrem K -2 x` on `K = [x, y, x, z, x]` succeeds and stores
`[x, y, z]`; `lrem K 2 x` succeeds and stores `[y, z, x]`; `lrem K 0 x` succeeds and
leaves the list as it was. -/
theorem handleLRem_spec_witness :
    ((handleLRem sampleEnv liveCtx ["lrem", "K", "-2", "x"]
        { store := storeOf [("K", Value.list [Elem.str "x", Elem.str "y", Elem.str "x",
            Elem.str "z", Elem.str "x"])] }).1 = Result.ok OK_RESPONSE ∧
     (handleLRem sampleEnv liveCtx ["lrem", "K", "-2", "x"]
        { store := storeOf [("K", Value.list [Elem.str "x", Elem.str "y", Elem.str "x",
            Elem.str "z", Elem.str "x"])] }).2.store "K"
      = some (Value.list [Elem.str "x", Elem.str "y", Elem.str "z"])) ∧
    ((handleLRem sampleEnv liveCtx ["lrem", "K", "2", "x"]
        { store := storeOf [("K", Value.list [Elem.str "x", Elem.str "y", Elem.str "x",
            Elem.str "z", Elem.str "x"])] }).1 = Result.ok OK_RESPONSE ∧
     (handleLRem sampleEnv liveCtx ["lrem", "K", "2", "x"]
        { store := storeOf [("K", Value.list [Elem.str "x", Elem.str "y", Elem.str "x",
            Elem.str "z", Elem.str "x"])] }).2.store "K"
      = some (Value.list [Elem.str "y", Elem.str "z", Elem.str "x"])) ∧
    ((handleLRem sampleEnv liveCtx ["lrem", "K", "0", "x"]
        { store := storeOf [("K", Value.list [Elem.str "x", Elem.str "y", Elem.str "x",
            Elem.str "z", Elem.str "x"])] }).1 = Result.ok OK_RESPONSE ∧
     (handleLRem sampleEnv liveCtx ["lrem", "K", "0", "x"]
        { store := storeOf [("K", Value.list [Elem.str "x", Elem.str "y", Elem.str "x",
            Elem.str "z", Elem.str "x"])] }).2.store "K"
      = some (Value.list [Elem.str "x", Elem.str "y", Elem.str "x", Elem.str "z",
          Elem.str "x"])) :=
  have hm := (handleLRem_spec sampleEnv liveCtx
      { store := storeOf [("K", Value.list [Elem.str "x", Elem.str "y", Elem.str "x",
          Elem.str "z", Elem.str "x"])] }
      "lrem" "K" "-2" "x" (-2)
      [Elem.str "x", Elem.str "y", Elem.str "x", Elem.str "z", Elem.str "x"]
      (by decide) (by decide)).1 (by decide) (by decide)
  have hp := (handleLRem_spec sampleEnv liveCtx
      { store := storeOf [("K", Value.list [Elem.str "x", Elem.str "y", Elem.str "x",
          Elem.str "z", Elem.str "x"])] }
      "lrem" "K" "2" "x" 2
      [Elem.str "x", Elem.str "y", Elem.str "x", Elem.str "z", Elem.str "x"]
      (by decide) (by decide)).1 (by decide) (by decide)
  have hz := (handleLRem_spec sampleEnv liveCtx
      { store := storeOf [("K", Value.list [Elem.str "x", Elem.str "y", Elem.str "x",
          Elem.str "z", Elem.str "x"])] }
      "lrem" "K" "0" "x" 0
      [Elem.str "x", Elem.str "y", Elem.str "x", Elem.str "z", Elem.str "x"]
      (by decide) (by decide)).1 (by decide) (by decide)
  ⟨⟨hm.1, hm.2.trans (by decide)⟩, ⟨hp.1, hp.2.trans (by decide)⟩,
   ⟨hz.1, hz.2.trans (by decide)⟩⟩

/-- C6: between two distinct keys that hold the lists `A` (non-empty) and `B`, LMOVE
succeeds for each of the four pairs of directions when the context is live and both
locks are free.  Every successful LMOVE was given `left` or `right` for both directions; it
takes one element `x` off `A`, the head for `left` and the last element for `right`, leaves
the rest `A2` of `A` under the source, and stores under the destination `x :: B` for `left`
and `B ++ [x]` for `right`; the source is one element shorter, the destination one longer,
and no other key changes. -/
theorem handleLMove_moves (env : Env) (ctx : Context) (server : Server)
    (name src dst wf wt : String) (A B : List Elem)
    (hne : src ≠ dst)
    (hA : server.store src = some (Value.list A))
    (hB : server.store dst = some (Value.list B))
    (hA0 : A ≠ []) :
    ((env.ToLower wf = "left" ∨ env.ToLower wf = "right") →
      (env.ToLower wt = "left" ∨ env.ToLower wt = "right") →
      ctx.cancelled = false → server.locksOn src = [] → server.locksOn dst = [] →
      (handleLMove env ctx [name, src, dst, wf, wt] server).1 = Result.ok OK_RESPONSE) ∧
    (∀ resp : String,
      (handleLMove env ctx [name, src, dst, wf, wt] server).1 = Result.ok resp →
      (env.ToLower wf = "left" ∨ env.ToLower wf = "right") ∧
      (env.ToLower wt = "left" ∨ env.ToLower wt = "right") ∧
      ∃ (x : Elem) (A2 B2 : List Elem),
        (if env.ToLower wf = "left" then A = x :: A2 else A = A2 ++ [x]) ∧
        (if env.ToLower wt = "left" then B2 = x :: B else B2 = B ++ [x]) ∧
        (handleLMove env ctx [name, src, dst, wf, wt] server).2.store src
          = some (Value.list A2) ∧
        (handleLMove env ctx [name, src, dst, wf, wt] server).2.store dst
          = some (Value.list B2) ∧
        A2.length + 1 = A.length ∧ B2.length = B.length + 1 ∧
        ∀ k, k ≠ src → k ≠ dst →
          (handleLMove env ctx [name, src, dst, wf, wt] server).2.store k
            = server.store k) := by
  refine ⟨fun hwf hwt hctx hfs hfd =>
    handleLMove_cons_ok env ctx server name src dst wf wt A B hne hA0 hwf hwt hA hB hctx
      hfs hfd, ?_⟩
  intro resp hok
  obtain ⟨hf, ht⟩ := handleLMove_directions env ctx server name src dst wf wt resp hok
  refine ⟨hf, ht, ?_⟩
  by_cases hl : env.ToLower wf = "left"
  · cases A with
    | nil => exact absurd rfl hA0
    | cons a A2 =>
      have hrun := handleLMove_run env ctx server name src dst wf wt (a :: A2) B a resp hne
        hA hB (by simp [hl]) hok
      refine ⟨a, A2, if env.ToLower wt = "left" then a :: B else B ++ [a], ?_, ?_, ?_, ?_,
        ?_, ?_, ?_⟩
      · simp [hl]
      · by_cases h : env.ToLower wt = "left" <;> simp [h]
      · simp [hrun, hl, hne]
      · simp [hrun]
      · simp
      · by_cases h : env.ToLower wt = "left" <;> simp [h]
      · intro k h1 h2
        simp [hrun, h1, h2]
  · have hx : A.getLast? = some (A.getLast hA0) := List.getLast?_eq_getLast A hA0
    have hrun := handleLMove_run env ctx server name src dst wf wt A B (A.getLast hA0) resp
      hne hA hB (by simp [hl, hx]) hok
    refine ⟨A.getLast hA0, A.dropLast,
      if env.ToLower wt = "left" then A.getLast hA0 :: B else B ++ [A.getLast hA0],
      ?_, ?_, ?_, ?_, ?_, ?_, ?_⟩
    · simp [hl, List.dropLast_append_getLast hA0]
    · by_cases h : env.ToLower wt = "left" <;> simp [h]
    · simp [hrun, hl, hne]
    · simp [hrun]
    · have hpos : 0 < A.length := List.length_pos.mpr hA0
      simp
      omega
    · by_cases h : env.ToLower wt = "left" <;> simp [h]
    · intro k h1 h2
      simp [hrun, h1, h2]

/-- Witness of C6: `lmove A B right left` with `A = [1, 2, 3]`, `B = [9]` succeeds and
leaves `A = [1, 2]`, `B = [3, 9]`. -/
theorem handleLMove_moves_witness :
    (handleLMove sampleEnv liveCtx ["lmove", "A", "B", "right", "left"]
        { store := storeOf [("A", Value.list [Elem.int 1, Elem.int 2, Elem.int 3]),
            ("B", Value.list [Elem.int 9])] }).1 = Result.ok OK_RESPONSE ∧
    ((sampleEnv.ToLower "right" = "left" ∨ sampleEnv.ToLower "right" = "right") ∧
     (sampleEnv.ToLower "left" = "left" ∨ sampleEnv.ToLower "left" = "right")) ∧
    (handleLMove sampleEnv liveCtx ["lmove", "A", "B", "right", "left"]
        { store := storeOf [("A", Value.list [Elem.int 1, Elem.int 2, Elem.int 3]),
            ("B", Value.list [Elem.int 9])] }).2.store "A"
      = some (Value.list [Elem.int 1, Elem.int 2]) ∧
    (handleLMove sampleEnv liveCtx ["lmove", "A", "B", "right", "left"]
        { store := storeOf [("A", Value.list [Elem.int 1, Elem.int 2, Elem.int 3]),
            ("B", Value.list [Elem.int 9])] }).2.store "B"
      = some (Value.list [Elem.int 3, Elem.int 9]) :=
  have h := handleLMove_moves sampleEnv liveCtx
    { store := storeOf [("A", Value.list [Elem.int 1, Elem.int 2, Elem.int 3]),
        ("B", Value.list [Elem.int 9])] }
    "lmove" "A" "B" "right" "left" [Elem.int 1, Elem.int 2, Elem.int 3] [Elem.int 9]
    (by decide) (by decide) (by decide) (by decide)
  have hok := h.1 (by decide) (by decide) (by decide) (by decide) (by decide)
  ⟨hok, ⟨(h.2 OK_RESPONSE hok).1, (h.2 OK_RESPONSE hok).2.1⟩, by decide, by decide⟩

end SugarDB
